import Mathlib

/-!
Process table and schedulers of the enhanced xv6 kernel.

A shallow embedding of `kernel/proc.c` and `kernel/trap.c`.

* The process table `proc[NPROC]` is a `List proc`; a `struct proc *` is the
  index of a slot (`Option Nat`, `none` for the null pointer).  `NPROC` comes
  from `param.h`, so the table length is left arbitrary.
* `struct proc` and `struct trapframe` are declared in `proc.h`; the fields
  below are the ones `proc.c` and `trap.c` read and write.  C `int` fields are
  `Int`, tick counters and addresses are `Nat`.  Unsigned arithmetic whose
  wraparound is visible (`uint`, `uint64`) is written with explicit `%`.
* Spinlocks, `swtch` and the console are not part of the state: every
  function is the sequential effect of the C function on the table.
* `sys_uptime()`, `myproc()`, `random()` and the outcome of `copyout` are
  arguments of the functions that call them.
-/

namespace Xv6

/-! ## Data model -/

/-- The `enum procstate` of `proc.h`. -/
inductive procstate where
  | UNUSED
  | USED
  | SLEEPING
  | RUNNABLE
  | RUNNING
  | ZOMBIE
  deriving DecidableEq

/-- The user register save area, `struct trapframe`: the 36 words copied
one by one in `usertrap`. -/
structure trapframe where
  kernel_satp : Nat
  kernel_sp : Nat
  kernel_trap : Nat
  epc : Nat
  kernel_hartid : Nat
  ra : Nat
  sp : Nat
  gp : Nat
  tp : Nat
  t0 : Nat
  t1 : Nat
  t2 : Nat
  s0 : Nat
  s1 : Nat
  a0 : Nat
  a1 : Nat
  a2 : Nat
  a3 : Nat
  a4 : Nat
  a5 : Nat
  a6 : Nat
  a7 : Nat
  s2 : Nat
  s3 : Nat
  s4 : Nat
  s5 : Nat
  s6 : Nat
  s7 : Nat
  s8 : Nat
  s9 : Nat
  s10 : Nat
  s11 : Nat
  t3 : Nat
  t4 : Nat
  t5 : Nat
  t6 : Nat
  deriving DecidableEq

/-- One slot of the process table, `struct proc`.  Pointers to pages owned by
the slot (`trapframe`, `trapframe_copy`) are `Option`s holding the page
contents, `none` being the null pointer; `pagetable`, `cwd` and the entries of
`ofile` are opaque handles, `none` being null; `chan` is an address, `0` when
the process waits on nothing.  `birth_time`, `sleep_start`, `rtime`, `ctime`
and `etime` hold tick counts read from `sys_uptime()`. -/
structure proc where
  state : procstate
  chan : Nat
  killed : Int
  xstate : Int
  pid : Int
  parent : Option Nat
  sz : Nat
  pagetable : Option Nat
  trapframe : Option Xv6.trapframe
  trapframe_copy : Option Xv6.trapframe
  ofile : List (Option Nat)
  cwd : Option Nat
  name : List Nat
  strace_bit : Int
  birth_time : Nat
  num_tickets : Int
  static_priority : Int
  dynamic_priority : Int
  sleep_start : Nat
  sleep_time : Int
  running_time : Int
  proc_queue : Int
  rtime : Nat
  ctime : Nat
  etime : Nat
  alarm_is_set : Int
  num_ticks : Int
  curr_ticks : Int
  sig_handler : Nat
  deriving DecidableEq

/-- A slot of the zero-initialised table (`struct proc proc[NPROC]` lives in
BSS) after `procinit` has set `state = UNUSED`. -/
def proc_zero : proc :=
  { state := procstate.UNUSED, chan := 0, killed := 0, xstate := 0, pid := 0,
    parent := none, sz := 0, pagetable := none, trapframe := none,
    trapframe_copy := none, ofile := [], cwd := none, name := [],
    strace_bit := 0, birth_time := 0, num_tickets := 0, static_priority := 0,
    dynamic_priority := 0, sleep_start := 0, sleep_time := 0,
    running_time := 0, proc_queue := 0, rtime := 0, ctime := 0, etime := 0,
    alarm_is_set := 0, num_ticks := 0, curr_ticks := 0, sig_handler := 0 }

/-- The address of slot `i` of the table, `&proc[i]`, as a wait channel:
distinct slots have distinct addresses, none of them null. -/
def proc_addr (i : Nat) : Nat := i + 1

/-! ## Priority based scheduling -/

/-- The function `calcDP` of `proc.c`.  The three locals are C `int`s; `/` is
C division, which truncates.  Signed overflow is undefined in C, so the model
is the C function wherever the intermediate values fit an `int`. -/
def calcDP (p : proc) : Int :=
  let sleep_time := p.sleep_time
  let running_time := p.running_time
  let SP := p.static_priority
  if sleep_time + running_time = 0 then 5
  else
    let niceness := 10 * (Int.tdiv sleep_time (sleep_time + running_time))
    let DP := if SP - niceness + 5 < 100 then SP - niceness + 5 else 100
    if DP > 0 then DP else 0

/-- One iteration of the scan of `priority_based`, for slot `i`.  The state
is the table and `chosenproc`. -/
def priority_based_iter (st : List proc × Option Nat) (i : Nat) :
    List proc × Option Nat :=
  match st.1[i]? with
  | none => st
  | some p =>
    if p.state ≠ procstate.RUNNABLE then st
    else
      let p1 := { p with dynamic_priority := calcDP p }
      let t1 := st.1.set i p1
      match st.2 with
      | none => (t1, some i)
      | some c =>
        match t1[c]? with
        | none => (t1, some c)
        | some q =>
          if p1.dynamic_priority < q.dynamic_priority then (t1, some i)
          else (t1, some c)

/-- The state of the scan of `priority_based` after slots `0 .. n-1`. -/
def priority_based_loop (t : List proc) : Nat → List proc × Option Nat
  | 0 => (t, none)
  | n + 1 => priority_based_iter (priority_based_loop t n) n

/-- The function `priority_based` up to its `swtch`: the table and `c->proc`
at the moment the chosen process is switched to (`none` when the function
returns without dispatching). -/
def priority_based (t : List proc) : List proc × Option Nat :=
  let st := priority_based_loop t t.length
  match st.2 with
  | none => (st.1, none)
  | some c =>
    match st.1[c]? with
    | none => (st.1, none)
    | some q =>
      (st.1.set c { q with state := procstate.RUNNING, sleep_time := 0 }, some c)


/-! ## First come first served -/

/-- One iteration of the scan of `fcfs`, for slot `i`.  The state is
`oldestproc` and the `uint64` local `oldesttime`; the scan does not write to
the table. -/
def fcfs_iter (t : List proc) (st : Option Nat × Nat) (i : Nat) : Option Nat × Nat :=
  match t[i]? with
  | none => st
  | some p =>
    let oldesttime :=
      match st.1 with
      | none => st.2
      | some o =>
        match t[o]? with
        | none => st.2
        | some q => q.birth_time
    if oldesttime > p.birth_time ∨ st.1 = none then
      if p.state = procstate.RUNNABLE then (some i, oldesttime)
      else (st.1, oldesttime)
    else (st.1, oldesttime)

/-- The state of the scan of `fcfs` after slots `0 .. n-1`. -/
def fcfs_loop (t : List proc) : Nat → Option Nat × Nat
  | 0 => (none, 0)
  | n + 1 => fcfs_iter t (fcfs_loop t n) n

/-- The function `fcfs` up to its `swtch`: the table and `c->proc` at the
moment the chosen process is switched to (`none` when the function returns
without dispatching). -/
def fcfs (t : List proc) : List proc × Option Nat :=
  match (fcfs_loop t t.length).1 with
  | none => (t, none)
  | some o =>
    match t[o]? with
    | none => (t, none)
    | some q =>
      if q.state = procstate.RUNNABLE then
        (t.set o { q with state := procstate.RUNNING }, some o)
      else (t, none)

/-! ## Lottery -/

/-- The first loop of `lotteryBased`: `totalNumTickets`, a `uint64`, after
the slots of `t` (added to the running value `acc`). -/
def lottery_total : List proc → Int → Int
  | [], acc => acc
  | p :: ps, acc =>
    if p.state = procstate.RUNNABLE then
      lottery_total ps ((acc + p.num_tickets) % 2 ^ 64)
    else lottery_total ps acc

/-- One iteration of the second loop of `lotteryBased`, for slot `i`.  The
state is `chosenproc`, the `uint64` local `ticketCnt`, and whether the loop
has been left by `break`. -/
def lottery_iter (t : List proc) (randNum : Int) (st : Option Nat × Int × Bool)
    (i : Nat) : Option Nat × Int × Bool :=
  if st.2.2 then st
  else
    match t[i]? with
    | none => st
    | some p =>
      if p.state ≠ procstate.RUNNABLE then st
      else
        let ticketCnt := (st.2.1 + p.num_tickets) % 2 ^ 64
        if ticketCnt ≥ randNum then (some i, ticketCnt, true)
        else (some i, ticketCnt, false)

/-- The state of the second loop of `lotteryBased` after slots `0 .. n-1`. -/
def lottery_loop (t : List proc) (randNum : Int) : Nat → Option Nat × Int × Bool
  | 0 => (none, 0, false)
  | n + 1 => lottery_iter t randNum (lottery_loop t randNum n) n

/-- The slot the second loop of `lotteryBased` ends on for the draw
`randNum`. -/
def lottery_pick (t : List proc) (randNum : Int) : Option Nat :=
  (lottery_loop t randNum t.length).1

/-- The function `lotteryBased` up to its `swtch`, `rnd` being the value
returned by `random()`.  The result is `none` when `totalNumTickets` is `0`:
the remainder `random() % totalNumTickets` is then undefined. -/
def lotteryBased (t : List proc) (rnd : Nat) : Option (List proc × Option Nat) :=
  let totalNumTickets := lottery_total t 0
  if totalNumTickets = 0 then none
  else
    let randNum := (rnd : Int) % totalNumTickets
    match lottery_pick t randNum with
    | none => some (t, none)
    | some c =>
      match t[c]? with
      | none => some (t, none)
      | some q => some (t.set c { q with state := procstate.RUNNING }, some c)

/-- The number of draws `r` in `[0, T)` on which the second loop of
`lotteryBased` ends on slot `i`. -/
def lottery_wins (t : List proc) (T : Nat) (i : Nat) : Nat :=
  ((List.range T).filter (fun r => decide (lottery_pick t (r : Int) = some i))).length

/-! ## kill, sleep and wakeup -/

/-- The function `kill`: the table after the call and the value returned. -/
def kill : List proc → Int → List proc × Int
  | [], _ => ([], -1)
  | p :: ps, pid =>
    if p.pid = pid then
      ({ p with killed := 1,
                state := if p.state = procstate.SLEEPING then procstate.RUNNABLE
                         else p.state } :: ps, 0)
    else ((p :: (kill ps pid).1), (kill ps pid).2)

/-- The function `sleep` up to its call of `sched`, for the caller in slot
`me`; `now` is the value of `sys_uptime()`. -/
def sleep (t : List proc) (me : Nat) (now : Nat) (chan : Nat) : List proc :=
  match t[me]? with
  | none => t
  | some p =>
    let p1 := if p.state ≠ procstate.SLEEPING then { p with sleep_start := now } else p
    t.set me { p1 with chan := chan, state := procstate.SLEEPING }

/-- The body of the loop of `wakeup` for slot `i` holding `p`; `me` is
`myproc()` and `now` the value of `sys_uptime()`, a `uint64`, so that the
difference `sys_uptime() - p->sleep_start` is taken modulo `2 ^ 64`. -/
def wakeup_slot (me : Option Nat) (now : Nat) (chan : Nat) (i : Nat) (p : proc) : proc :=
  if some i ≠ me then
    if p.state = procstate.SLEEPING ∧ p.chan = chan then
      let p1 := { p with state := procstate.RUNNABLE }
      let p2 :=
        if p1.sleep_start ≠ 0 then
          { p1 with sleep_time := ((now : Int) - (p1.sleep_start : Int)) % 2 ^ 64 }
        else p1
      { p2 with sleep_start := 0 }
    else p
  else p

/-- The loop of `wakeup` over the slots `i, i+1, ..` held in the list. -/
def wakeup_from (me : Option Nat) (now : Nat) (chan : Nat) : Nat → List proc → List proc
  | _, [] => []
  | i, p :: ps => wakeup_slot me now chan i p :: wakeup_from me now chan (i + 1) ps

/-- The function `wakeup`. -/
def wakeup (t : List proc) (me : Option Nat) (now : Nat) (chan : Nat) : List proc :=
  wakeup_from me now chan 0 t

/-! ## freeproc and waitx -/

/-- The function `freeproc`.  The pages are handed back to the allocator,
which is not part of the state; `p->trapframe_copy` is freed but not
assigned, so the field keeps its value. -/
def freeproc (p : proc) : proc :=
  { p with
    trapframe := none
    pagetable := none
    sz := 0
    pid := 0
    parent := none
    name := p.name.set 0 0
    chan := 0
    killed := 0
    xstate := 0
    state := procstate.UNUSED
    strace_bit := 0
    birth_time := 2147483647
    num_tickets := 0
    static_priority := 0
    dynamic_priority := 0
    sleep_start := 0
    sleep_time := 0
    running_time := 0
    proc_queue := 0 }

/-- How one pass of the `for (;;)` of `wait` and `waitx` ends: a pid is
returned, `-1` is returned, or the caller goes to sleep. -/
inductive wait_result where
  | pid (n : Int)
  | fail
  | sleeping
  deriving DecidableEq

/-- The state `waitx` works on: the table and the two `uint` cells its
arguments `wtime` and `rtime` point to. -/
structure waitx_state where
  table : List proc
  wtime : Nat
  rtime : Nat
  deriving DecidableEq

/-- The scan of `waitx` over the table `t`, at slot `i`, the list being the
slots `i, i+1, ..` of `t`.  `copyout_ok` tells whether `copyout` succeeds.
The first component is `none` when the scan ends without returning; the others
are `*wtime`, `*rtime` and `havekids`. -/
def waitx_scan (t : List proc) (me : Nat) (addr : Nat) (copyout_ok : Bool) :
    List proc → Nat → Nat → Nat → Bool →
      (Option (wait_result × List proc)) × Nat × Nat × Bool
  | [], _, wtime, rtime, havekids => (none, wtime, rtime, havekids)
  | np :: rest, i, wtime, rtime, havekids =>
    if np.parent = some me then
      if np.state = procstate.ZOMBIE then
        let pid := np.pid
        let rtime1 := np.rtime % 2 ^ 32
        let wtime1 :=
          (((np.etime : Int) - (np.ctime : Int) - (np.rtime : Int)) % 2 ^ 32).toNat
        if addr ≠ 0 ∧ copyout_ok = false then
          (some (wait_result.fail, t), wtime1, rtime1, true)
        else
          (some (wait_result.pid pid, t.set i (freeproc np)), wtime1, rtime1, true)
      else waitx_scan t me addr copyout_ok rest (i + 1) wtime rtime true
    else waitx_scan t me addr copyout_ok rest (i + 1) wtime rtime havekids

/-- One pass of the `for (;;)` of `waitx` for the caller in slot `me`:
how it ends and the state it leaves.  When it ends in `sleep(p, &wait_lock)`
the state is the one at the call of `sched`; `now` is the value of
`sys_uptime()` read by `sleep`. -/
def waitx (s : waitx_state) (me : Nat) (addr : Nat) (copyout_ok : Bool) (now : Nat) :
    wait_result × waitx_state :=
  match waitx_scan s.table me addr copyout_ok s.table 0 s.wtime s.rtime false with
  | (some (r, t1), wtime, rtime, _) => (r, { table := t1, wtime := wtime, rtime := rtime })
  | (none, wtime, rtime, havekids) =>
    let killed : Int :=
      match s.table[me]? with
      | none => (0 : Int)
      | some p => p.killed
    if havekids = false ∨ killed ≠ 0 then
      (wait_result.fail, { table := s.table, wtime := wtime, rtime := rtime })
    else
      (wait_result.sleeping,
        { table := sleep s.table me now (proc_addr me), wtime := wtime, rtime := rtime })

/-! ## wait -/

/-- The scan of `wait` over the table `t`, at slot `i`, the list being the
slots `i, i+1, ..` of `t`.  `copyout_ok` tells whether `copyout` succeeds.
The first component is `none` when the scan ends without returning; the second
is `havekids`. -/
def wait_scan (t : List proc) (me : Nat) (addr : Nat) (copyout_ok : Bool) :
    List proc → Nat → Bool → (Option (wait_result × List proc)) × Bool
  | [], _, havekids => (none, havekids)
  | pp :: rest, i, havekids =>
    if pp.parent = some me then
      if pp.state = procstate.ZOMBIE then
        let pid := pp.pid
        if addr ≠ 0 ∧ copyout_ok = false then
          (some (wait_result.fail, t), true)
        else
          (some (wait_result.pid pid, t.set i (freeproc pp)), true)
      else wait_scan t me addr copyout_ok rest (i + 1) true
    else wait_scan t me addr copyout_ok rest (i + 1) havekids

/-- One pass of the `for (;;)` of `wait` for the caller in slot `me`: how it
ends and the table it leaves.  When it ends in `sleep(p, &wait_lock)` the
table is the one at the call of `sched`; `now` is the value of `sys_uptime()`
read by `sleep`. -/
def wait (t : List proc) (me : Nat) (addr : Nat) (copyout_ok : Bool) (now : Nat) :
    wait_result × List proc :=
  match wait_scan t me addr copyout_ok t 0 false with
  | (some (r, t1), _) => (r, t1)
  | (none, havekids) =>
    let killed : Int :=
      match t[me]? with
      | none => (0 : Int)
      | some p => p.killed
    if havekids = false ∨ killed ≠ 0 then (wait_result.fail, t)
    else (wait_result.sleeping, sleep t me now (proc_addr me))

/-! ## allocpid, allocproc and fork -/

/-- The kernel state `allocproc` and `fork` work on: the table and the
counter `nextpid`. -/
structure kstate where
  table : List proc
  nextpid : Int
  deriving DecidableEq

/-- What the services called by `allocproc` and `fork` answer: the two values
of `sys_uptime()` read by `allocproc`, the pages returned by its two calls of
`kalloc` (`none` for a null result), the page table returned by
`proc_pagetable`, and whether `uvmcopy` succeeds. -/
structure alloc_env where
  ctime_now : Nat
  birth_now : Nat
  trapframe_copy_page : Option trapframe
  trapframe_page : Option trapframe
  pagetable : Option Nat
  uvmcopy_ok : Bool
  deriving DecidableEq

/-- The function `allocpid`: the pid issued and the new value of `nextpid`. -/
def allocpid (nextpid : Int) : Int × Int :=
  let pid := nextpid
  (pid, nextpid + 1)

/-- The pids issued by `n` successive calls of `allocpid`, in issue order,
and the value of `nextpid` after them. -/
def allocpid_seq : Nat → Int → List Int × Int
  | 0, nextpid => ([], nextpid)
  | n + 1, nextpid =>
    ((allocpid nextpid).1 :: (allocpid_seq n (allocpid nextpid).2).1,
      (allocpid_seq n (allocpid nextpid).2).2)

/-- The scan of `allocproc`: the index of the first UNUSED slot among the
slots `i, i+1, ..` held in the list. -/
def find_unused : List proc → Nat → Option Nat
  | [], _ => none
  | p :: ps, i => if p.state = procstate.UNUSED then some i else find_unused ps (i + 1)

/-- The function `allocproc`: the slot returned (`none` for a null result)
and the state it leaves.  The saved `context` is not part of the model. -/
def allocproc (k : kstate) (e : alloc_env) : Option Nat × kstate :=
  match find_unused k.table 0 with
  | none => (none, k)
  | some i =>
    match k.table[i]? with
    | none => (none, k)
    | some p =>
      let p := { p with pid := (allocpid k.nextpid).1 }
      let nextpid := (allocpid k.nextpid).2
      let p := { p with state := procstate.USED }
      let p := { p with trapframe_copy := e.trapframe_copy_page }
      if p.trapframe_copy = none then
        (none, { table := k.table.set i (freeproc p), nextpid := nextpid })
      else
        let p := { p with trapframe := e.trapframe_page }
        if p.trapframe = none then
          (none, { table := k.table.set i (freeproc p), nextpid := nextpid })
        else
          let p := { p with pagetable := e.pagetable }
          if p.pagetable = none then
            (none, { table := k.table.set i (freeproc p), nextpid := nextpid })
          else
            let p := { p with rtime := 0, etime := 0, ctime := e.ctime_now }
            let p := { p with
              birth_time := e.birth_now
              num_tickets := 1
              static_priority := 60
              sleep_start := 0
              sleep_time := 0
              running_time := 0
              proc_queue := 0 }
            let p := { p with alarm_is_set := 0, num_ticks := 0, curr_ticks := 0,
                              sig_handler := 0 }
            (some i, { table := k.table.set i p, nextpid := nextpid })

/-- The loop of `fork` over the open files: an entry of the parent that is
not null is duplicated into the child, the other entries of the child are
left as they are. -/
def fork_ofile : List (Option Nat) → List (Option Nat) → List (Option Nat)
  | [], ns => ns
  | pf :: ps, [] => pf :: fork_ofile ps []
  | pf :: ps, nf :: ns => (if pf ≠ none then pf else nf) :: fork_ofile ps ns

/-- The function `fork` for the caller in slot `me`: the value returned and
the state left.  The result is `none` when a null pointer is dereferenced (the
caller has no slot or no trapframe).  `filedup` and `idup` return their
argument, and `safestrcpy` is taken to copy the whole name. -/
def fork (k : kstate) (me : Nat) (e : alloc_env) : Option (Int × kstate) :=
  match allocproc k e with
  | (none, k1) => some (-1, k1)
  | (some i, k1) =>
    match k1.table[me]?, k1.table[i]? with
    | some p, some np =>
      if e.uvmcopy_ok = false then
        some (-1, { k1 with table := k1.table.set i (freeproc np) })
      else
        let np := { np with sz := p.sz }
        match p.trapframe, np.trapframe with
        | some ptf, some _ =>
          let np := { np with trapframe := some ptf }
          let np := { np with trapframe := some { ptf with a0 := 0 } }
          let np := { np with ofile := fork_ofile p.ofile np.ofile }
          let np := { np with cwd := p.cwd }
          let np := { np with name := p.name }
          let pid := np.pid
          let np := { np with parent := some me }
          let np := { np with state := procstate.RUNNABLE }
          let np := { np with strace_bit := p.strace_bit }
          let np := { np with birth_time := p.birth_time }
          let np := { np with num_tickets := np.num_tickets }
          let np := { np with static_priority := p.static_priority }
          let np := { np with dynamic_priority := p.dynamic_priority }
          let np := { np with sleep_time := p.sleep_time }
          let np := { np with running_time := p.running_time }
          some (pid, { k1 with table := k1.table.set i np })
        | _, _ => none
    | _, _ => none

/-! ## The alarm -/

/-- The function `sys_sigalarm` on the caller's PCB, `this_ticks` and
`handler` being its two arguments; it returns 0. -/
def sys_sigalarm (p : proc) (this_ticks : Int) (handler : Nat) : proc × Nat :=
  let p := { p with sig_handler := 0 }
  let p := { p with num_ticks := this_ticks }
  let p := { p with curr_ticks := 0 }
  let p := { p with sig_handler := handler }
  (p, 0)

/-- The 36 assignments `p->trapframe_copy->x = p->trapframe->x` of `usertrap`,
in the order of the source: `tc` is the page `trapframe_copy` points to, `tf`
the one `trapframe` points to. -/
def save_trapframe (tc tf : trapframe) : trapframe :=
  { tc with
    kernel_satp := tf.kernel_satp
    kernel_sp := tf.kernel_sp
    kernel_trap := tf.kernel_trap
    epc := tf.epc
    kernel_hartid := tf.kernel_hartid
    ra := tf.ra
    sp := tf.sp
    gp := tf.gp
    tp := tf.tp
    t0 := tf.t0
    t1 := tf.t1
    t2 := tf.t2
    s0 := tf.s0
    s1 := tf.s1
    a0 := tf.a0
    a1 := tf.a1
    a2 := tf.a2
    a3 := tf.a3
    a4 := tf.a4
    a5 := tf.a5
    a6 := tf.a6
    a7 := tf.a7
    s2 := tf.s2
    s3 := tf.s3
    s4 := tf.s4
    s5 := tf.s5
    s6 := tf.s6
    s7 := tf.s7
    s8 := tf.s8
    s9 := tf.s9
    s10 := tf.s10
    s11 := tf.s11
    t3 := tf.t3
    t4 := tf.t4
    t5 := tf.t5
    t6 := tf.t6 }

/-- The alarm bookkeeping of `usertrap` on a timer interrupt
(`which_dev == 2`), on the PCB of the current process.  The result is `none`
when a null `trapframe` or `trapframe_copy` is dereferenced. -/
def usertrap_alarm (p : proc) : Option proc :=
  let p := { p with curr_ticks := p.curr_ticks + 1 }
  if p.alarm_is_set = 0 then
    if p.curr_ticks ≥ p.num_ticks ∧ p.num_ticks > 0 then
      match p.trapframe, p.trapframe_copy with
      | some tf, some tc =>
        let tc := save_trapframe tc tf
        let tf := { tf with epc := p.sig_handler }
        some { p with trapframe_copy := some tc, trapframe := some tf,
                      alarm_is_set := 1, curr_ticks := 0 }
      | _, _ => none
    else some p
  else some p

/-- The alarm bookkeeping of successive timer interrupts taken in user mode.
Between two of them the process runs, so each interrupt finds the user
registers of its own trap in the trapframe: the list holds, for each
interrupt in turn, the trapframe `usertrap` finds. -/
def usertrap_alarm_seq : proc → List trapframe → Option proc
  | p, [] => some p
  | p, tf :: tfs =>
    match usertrap_alarm { p with trapframe := some tf } with
    | none => none
    | some p1 => usertrap_alarm_seq p1 tfs

/-! ## set_priority -/

/-- The function `yield` up to its call of `sched`, for the caller in slot
`me`. -/
def yield (t : List proc) (me : Nat) : List proc :=
  match t[me]? with
  | none => t
  | some p => t.set me { p with state := procstate.RUNNABLE }

/-- The loop of `set_priority`: the index of the first slot of pid `pid`
among the slots `i, i+1, ..` held in the list. -/
def set_priority_find (pid : Int) : List proc → Nat → Option Nat
  | [], _ => none
  | p :: ps, i => if pid = p.pid then some i else set_priority_find pid ps (i + 1)

/-- The function `set_priority` called by the process in slot `me`, up to the
call of `sched` in its final `yield`: the table then and the value that will
be returned. -/
def set_priority (t : List proc) (me : Nat) (new_priority : Int) (pid : Int) :
    List proc × Int :=
  match set_priority_find pid t 0 with
  | none => (yield t me, -1)
  | some i =>
    match t[i]? with
    | none => (yield t me, -1)
    | some chosen =>
      let prevSP := chosen.static_priority
      let chosen := { chosen with static_priority := new_priority }
      let chosen := { chosen with dynamic_priority := calcDP chosen }
      (yield (t.set i chosen) me, prevSP)

/-! ## exit and reparent -/

/-- The address held by a `struct proc *`, as a wait channel: `0` for the
null pointer. -/
def chan_of (q : Option Nat) : Nat :=
  match q with
  | none => 0
  | some i => proc_addr i

/-- One iteration of the loop of `reparent(p)`, for slot `i`; `init` is the
slot of `initproc`, `me` is `myproc()` and `now` the value of `sys_uptime()`
seen by `wakeup`. -/
def reparent_iter (p : Nat) (me : Option Nat) (init : Nat) (now : Nat)
    (t : List proc) (i : Nat) : List proc :=
  match t[i]? with
  | none => t
  | some pp =>
    if pp.parent = some p then
      wakeup (t.set i { pp with parent := some init }) me now (proc_addr init)
    else t

/-- The table after the iterations of the loop of `reparent(p)` for the slots
`0 .. n-1`. -/
def reparent_loop (p : Nat) (me : Option Nat) (init : Nat) (now : Nat)
    (t : List proc) : Nat → List proc
  | 0 => t
  | n + 1 => reparent_iter p me init now (reparent_loop p me init now t n) n

/-- The function `reparent`. -/
def reparent (t : List proc) (p : Nat) (me : Option Nat) (init : Nat) (now : Nat) :
    List proc :=
  reparent_loop p me init now t t.length

/-- The function `exit` for the caller in slot `me`, up to its call of
`sched`; `init` is the slot of `initproc`, `wake_now` the value of
`sys_uptime()` seen by the calls of `wakeup` and `now` the one stored in
`etime`.  The result is `none` when the kernel panics (`init exiting`) or the
caller has no slot.  `fileclose`, `iput` and the log are not part of the
state. -/
def exit (t : List proc) (me : Nat) (init : Nat) (status : Int) (wake_now now : Nat) :
    Option (List proc) :=
  if me = init then none
  else
    match t[me]? with
    | none => none
    | some p =>
      let p := { p with ofile := p.ofile.map (fun f => if f ≠ none then none else f) }
      let p := { p with cwd := none }
      let t := t.set me p
      let t := reparent t me (some me) init wake_now
      match t[me]? with
      | none => none
      | some p =>
        let t := wakeup t (some me) wake_now (chan_of p.parent)
        match t[me]? with
        | none => none
        | some p =>
          let p := { p with xstate := status }
          let p := { p with state := procstate.ZOMBIE }
          let p := { p with etime := now }
          some (t.set me p)

/-! ## Boot -/

/-- The table after `procinit`: `n` slots, zero-initialised, in state
UNUSED. -/
def procinit (n : Nat) : List proc :=
  List.replicate n proc_zero

/-- The function `userinit`: the state it leaves and the slot stored in
`initproc`.  `pgsize` is `PGSIZE`, `root` the inode returned by `namei("/")`.
The result is `none` when `allocproc` returns null, which `userinit`
dereferences. -/
def userinit (k : kstate) (e : alloc_env) (pgsize : Nat) (root : Option Nat) :
    Option (kstate × Nat) :=
  match allocproc k e with
  | (none, _) => none
  | (some i, k1) =>
    match k1.table[i]? with
    | none => none
    | some p =>
      match p.trapframe with
      | none => none
      | some tf =>
        let p := { p with sz := pgsize }
        let tf := { tf with epc := 0 }
        let tf := { tf with sp := pgsize }
        let p := { p with trapframe := some tf }
        let p := { p with name := [105, 110, 105, 116, 99, 111, 100, 101] }
        let p := { p with cwd := root }
        let p := { p with state := procstate.RUNNABLE }
        some ({ k1 with table := k1.table.set i p }, i)

/-! ## Clock ticks -/

/-- The function `update_time`.  The counter `rtime` is incremented without
wraparound. -/
def update_time : List proc → List proc
  | [] => []
  | p :: ps =>
    (if p.state = procstate.RUNNING then { p with rtime := p.rtime + 1 } else p)
      :: update_time ps

/-- The function `PBS_find_times`, whose body is commented out. -/
def PBS_find_times (t : List proc) : List proc := t

/-- The function `clockintr` on the `uint` counter `ticks` and the table;
`ticks_chan` is the address `&ticks`, `me` is `myproc()` and `now` the value
of `sys_uptime()` seen by `wakeup`. -/
def clockintr (ticks : Nat) (t : List proc) (me : Option Nat) (now : Nat)
    (ticks_chan : Nat) : Nat × List proc :=
  let ticks := (ticks + 1) % 2 ^ 32
  let t := update_time t
  let t := PBS_find_times t
  (ticks, wakeup t me now ticks_chan)

/-! ## Reachable states -/

/-- A process that can make a system call: its slot is neither UNUSED nor a
ZOMBIE. -/
def can_run (p : proc) : Prop :=
  p.state ≠ procstate.UNUSED ∧ p.state ≠ procstate.ZOMBIE

/-- The states reached from the state after `userinit`, `init` being the
slot of `initproc`, by `fork`, `exit`, `wait`, `waitx` and `kill`, each called
by a process that can run, with any arguments and any answers of the services
they call.  `exit`, `wait` and `waitx` are taken up to their call of
`sched`. -/
inductive Lifecycle (init : Nat) : kstate → Prop where
  | userinit (n : Nat) (e : alloc_env) (pgsize : Nat) (root : Option Nat) (k : kstate) :
      Xv6.userinit { table := procinit n, nextpid := 1 } e pgsize root = some (k, init) →
      Lifecycle init k
  | fork (k : kstate) (me : Nat) (p : proc) (e : alloc_env) (r : Int) (k2 : kstate) :
      Lifecycle init k → k.table[me]? = some p → can_run p →
      Xv6.fork k me e = some (r, k2) → Lifecycle init k2
  | exit (k : kstate) (me : Nat) (p : proc) (status : Int) (wake_now now : Nat)
      (t2 : List proc) :
      Lifecycle init k → k.table[me]? = some p → can_run p →
      Xv6.exit k.table me init status wake_now now = some t2 →
      Lifecycle init { k with table := t2 }
  | wait (k : kstate) (me : Nat) (p : proc) (addr : Nat) (copyout_ok : Bool) (now : Nat) :
      Lifecycle init k → k.table[me]? = some p → can_run p →
      Lifecycle init { k with table := (Xv6.wait k.table me addr copyout_ok now).2 }
  | waitx (k : kstate) (me : Nat) (p : proc) (addr : Nat) (copyout_ok : Bool) (now : Nat)
      (wtime rtime : Nat) :
      Lifecycle init k → k.table[me]? = some p → can_run p →
      Lifecycle init { k with table :=
        (Xv6.waitx { table := k.table, wtime := wtime, rtime := rtime }
          me addr copyout_ok now).2.table }
  | kill (k : kstate) (pid : Int) :
      Lifecycle init k → Lifecycle init { k with table := (Xv6.kill k.table pid).1 }

/-- The states reached from boot, where `procinit` has left every slot
zero-initialised and UNUSED, by the functions of `proc.c` that write to the
table, called in any order with any arguments and any answers of the services
they call. -/
inductive Reachable : kstate → Prop where
  | boot (n : Nat) : Reachable { table := procinit n, nextpid := 1 }
  | allocproc (k : kstate) (e : alloc_env) :
      Reachable k → Reachable (Xv6.allocproc k e).2
  | userinit (k : kstate) (e : alloc_env) (pgsize : Nat) (root : Option Nat)
      (k2 : kstate) (i : Nat) :
      Reachable k → Xv6.userinit k e pgsize root = some (k2, i) → Reachable k2
  | fork (k : kstate) (me : Nat) (e : alloc_env) (r : Int) (k2 : kstate) :
      Reachable k → Xv6.fork k me e = some (r, k2) → Reachable k2
  | freeproc (k : kstate) (i : Nat) (p : proc) :
      Reachable k → k.table[i]? = some p →
      Reachable { k with table := k.table.set i (Xv6.freeproc p) }
  | sleep (k : kstate) (me now chan : Nat) :
      Reachable k → Reachable { k with table := Xv6.sleep k.table me now chan }
  | wakeup (k : kstate) (me : Option Nat) (now chan : Nat) :
      Reachable k → Reachable { k with table := Xv6.wakeup k.table me now chan }
  | yield (k : kstate) (me : Nat) :
      Reachable k → Reachable { k with table := Xv6.yield k.table me }
  | fcfs (k : kstate) :
      Reachable k → Reachable { k with table := (Xv6.fcfs k.table).1 }
  | priority_based (k : kstate) :
      Reachable k → Reachable { k with table := (Xv6.priority_based k.table).1 }
  | lotteryBased (k : kstate) (rnd : Nat) (r : List proc × Option Nat) :
      Reachable k → Xv6.lotteryBased k.table rnd = some r →
      Reachable { k with table := r.1 }
  | update_time (k : kstate) :
      Reachable k → Reachable { k with table := Xv6.update_time k.table }
  | PBS_find_times (k : kstate) :
      Reachable k → Reachable { k with table := Xv6.PBS_find_times k.table }
  | clockintr (k : kstate) (ticks : Nat) (me : Option Nat) (now ticks_chan : Nat) :
      Reachable k →
      Reachable { k with table := (Xv6.clockintr ticks k.table me now ticks_chan).2 }
  | set_priority (k : kstate) (me : Nat) (new_priority pid : Int) :
      Reachable k →
      Reachable { k with table := (Xv6.set_priority k.table me new_priority pid).1 }
  | kill (k : kstate) (pid : Int) :
      Reachable k → Reachable { k with table := (Xv6.kill k.table pid).1 }
  | exit (k : kstate) (me init : Nat) (status : Int) (wake_now now : Nat) (t2 : List proc) :
      Reachable k → Xv6.exit k.table me init status wake_now now = some t2 →
      Reachable { k with table := t2 }
  | wait (k : kstate) (me addr : Nat) (copyout_ok : Bool) (now : Nat) :
      Reachable k →
      Reachable { k with table := (Xv6.wait k.table me addr copyout_ok now).2 }
  | waitx (k : kstate) (me addr : Nat) (copyout_ok : Bool) (now wtime rtime : Nat) :
      Reachable k →
      Reachable { k with table :=
        (Xv6.waitx { table := k.table, wtime := wtime, rtime := rtime }
          me addr copyout_ok now).2.table }

/-! ## Held PCB locks

The pickers of the scheduler are followed once more, this time with the set
of PCB locks the running CPU holds, the slots standing for their locks. -/

/-- The effect of `acquire(&proc[i].lock)` on the set of held PCB locks. -/
def acquire (held : Finset Nat) (i : Nat) : Finset Nat := insert i held

/-- The effect of `release(&proc[i].lock)` on the set of held PCB locks. -/
def release (held : Finset Nat) (i : Nat) : Finset Nat := held.erase i

/-- The effect of `swtch` to the process of slot `i` and back on the set of
held PCB locks: the process releases its lock and reacquires it before it
switches back. -/
def swtch_locks (held : Finset Nat) (i : Nat) : Finset Nat :=
  acquire (release held i) i

/-- One iteration of the scan of `fcfs`, for slot `i`, with the held locks. -/
def fcfs_locks_iter (t : List proc) (st : (Option Nat × Nat) × Finset Nat) (i : Nat) :
    (Option Nat × Nat) × Finset Nat :=
  match t[i]? with
  | none => st
  | some p =>
    let held := acquire st.2 i
    let oldesttime :=
      match st.1.1 with
      | none => st.1.2
      | some o =>
        match t[o]? with
        | none => st.1.2
        | some q => q.birth_time
    let r : Option Nat × Finset Nat :=
      if oldesttime > p.birth_time ∨ st.1.1 = none then
        if p.state = procstate.RUNNABLE then
          match st.1.1 with
          | some o => (some i, release held o)
          | none => (some i, held)
        else (st.1.1, held)
      else (st.1.1, held)
    ((r.1, oldesttime), if r.1 ≠ some i then release r.2 i else r.2)

/-- The scan of `fcfs` after slots `0 .. n-1`, no PCB lock held at the
start. -/
def fcfs_locks_loop (t : List proc) : Nat → (Option Nat × Nat) × Finset Nat
  | 0 => ((none, 0), ∅)
  | n + 1 => fcfs_locks_iter t (fcfs_locks_loop t n) n

/-- The function `fcfs` with the held locks: `oldestproc` at the end of the
scan, the locks held there, and the locks held when the function returns. -/
def fcfs_locks (t : List proc) : Option Nat × Finset Nat × Finset Nat :=
  let st := fcfs_locks_loop t t.length
  match st.1.1 with
  | none => (none, st.2, st.2)
  | some o =>
    match t[o]? with
    | none => (some o, st.2, st.2)
    | some q =>
      if q.state = procstate.RUNNABLE then
        (some o, st.2, release (swtch_locks st.2 o) o)
      else (some o, st.2, st.2)

/-- One iteration of the scan of `priority_based`, for slot `i`, with the
held locks. -/
def priority_based_locks_iter (st : (List proc × Option Nat) × Finset Nat) (i : Nat) :
    (List proc × Option Nat) × Finset Nat :=
  match st.1.1[i]? with
  | none => st
  | some p =>
    let held := acquire st.2 i
    if p.state ≠ procstate.RUNNABLE then (st.1, release held i)
    else
      let p1 := { p with dynamic_priority := calcDP p }
      let t1 := st.1.1.set i p1
      let r : Option Nat × Finset Nat :=
        match st.1.2 with
        | none => (some i, held)
        | some c =>
          match t1[c]? with
          | none => (some c, held)
          | some q =>
            if p1.dynamic_priority < q.dynamic_priority then (some i, release held c)
            else (some c, held)
      ((t1, r.1), if r.1 ≠ some i then release r.2 i else r.2)

/-- The scan of `priority_based` after slots `0 .. n-1`, no PCB lock held at
the start. -/
def priority_based_locks_loop (t : List proc) : Nat → (List proc × Option Nat) × Finset Nat
  | 0 => ((t, none), ∅)
  | n + 1 => priority_based_locks_iter (priority_based_locks_loop t n) n

/-- The function `priority_based` with the held locks: `chosenproc` at the
end of the scan, the locks held there, and the locks held when the function
returns. -/
def priority_based_locks (t : List proc) : Option Nat × Finset Nat × Finset Nat :=
  let st := priority_based_locks_loop t t.length
  match st.1.2 with
  | none => (none, st.2, st.2)
  | some c => (some c, st.2, release (swtch_locks st.2 c) c)

/-- The first loop of `lotteryBased` with the held locks, from slot `i` on:
each lock is taken and given back. -/
def lottery_total_locks : List proc → Nat → Finset Nat → Finset Nat
  | [], _, held => held
  | _ :: ps, i, held => lottery_total_locks ps (i + 1) (release (acquire held i) i)

/-- One iteration of the second loop of `lotteryBased`, for slot `i`, with
the held locks. -/
def lottery_locks_iter (t : List proc) (randNum : Int)
    (st : (Option Nat × Int × Bool) × Finset Nat) (i : Nat) :
    (Option Nat × Int × Bool) × Finset Nat :=
  if st.1.2.2 then st
  else
    match t[i]? with
    | none => st
    | some p =>
      let held := acquire st.2 i
      if p.state ≠ procstate.RUNNABLE then (st.1, release held i)
      else
        let held :=
          match st.1.1 with
          | some c => release held c
          | none => held
        let ticketCnt := (st.1.2.1 + p.num_tickets) % 2 ^ 64
        if ticketCnt ≥ randNum then ((some i, ticketCnt, true), held)
        else ((some i, ticketCnt, false), held)

/-- The second loop of `lotteryBased` after slots `0 .. n-1`, from the held
locks `held`. -/
def lottery_locks_loop (t : List proc) (randNum : Int) (held : Finset Nat) :
    Nat → (Option Nat × Int × Bool) × Finset Nat
  | 0 => ((none, 0, false), held)
  | n + 1 => lottery_locks_iter t randNum (lottery_locks_loop t randNum held n) n

/-- The function `lotteryBased` with the held locks for the draw `randNum`,
whatever its value, no PCB lock held at the start: the first loop, then the
second loop and the dispatch.  The result is `chosenproc` at the end of the
second loop, the locks held there, and the locks held when the function
returns. -/
def lotteryBased_locks_draw (t : List proc) (randNum : Int) :
    Option Nat × Finset Nat × Finset Nat :=
  let held := lottery_total_locks t 0 ∅
  let st := lottery_locks_loop t randNum held t.length
  match st.1.1 with
  | none => (none, st.2, st.2)
  | some c => (some c, st.2, release (swtch_locks st.2 c) c)

/-- The function `lotteryBased` with the held locks, `rnd` being the value
returned by `random()`.  The result is `none` when `totalNumTickets` is `0`,
the remainder being undefined; `lotteryBased_locks_draw` follows the function
for every value the draw can have. -/
def lotteryBased_locks (t : List proc) (rnd : Nat) :
    Option (Option Nat × Finset Nat × Finset Nat) :=
  let totalNumTickets := lottery_total t 0
  if totalNumTickets = 0 then none
  else some (lotteryBased_locks_draw t ((rnd : Int) % totalNumTickets))

/-! ## Definitions used to state the properties -/

/-- What the scan of `priority_based` has made of a slot once it is past it. -/
def recomputed (p : proc) : proc :=
  if p.state = procstate.RUNNABLE then { p with dynamic_priority := calcDP p } else p

/-- What the scan of `priority_based` knows of `chosenproc` after slots
`0 .. n-1`: it is the first RUNNABLE slot of least `calcDP` among them. -/
def ChosenUpTo (t : List proc) (n : Nat) : Option Nat → Prop
  | none => ∀ j p, j < n → t[j]? = some p → p.state ≠ procstate.RUNNABLE
  | some c => c < n ∧ ∃ p, t[c]? = some p ∧ p.state = procstate.RUNNABLE ∧
      ∀ j pj, j < n → t[j]? = some pj → pj.state = procstate.RUNNABLE →
        calcDP p ≤ calcDP pj ∧ (j < c → calcDP p < calcDP pj)


/-- The value `clamp(x, lo, hi)` of the specification. -/
def clamp (x lo hi : Int) : Int :=
  if x < lo then lo else if hi < x then hi else x

/-- The niceness as the specification words it: `5` when
`sleep_time + running_time = 0`, otherwise the integer quotient
`(10 * sleep_time) / (sleep_time + running_time)`. -/
def niceness_spec (p : proc) : Int :=
  if p.sleep_time + p.running_time = 0 then 5
  else (10 * p.sleep_time) / (p.sleep_time + p.running_time)

/-- The dynamic priority as the specification words it:
`clamp(static_priority - niceness + 5, 0, 100)`. -/
def calcDP_spec (p : proc) : Int :=
  clamp (p.static_priority - niceness_spec p + 5) 0 100

/-- A RUNNABLE process with the given static priority, sleep time and
running time. -/
def runnable_with (sp sleep_time running_time : Int) : proc :=
  { proc_zero with state := procstate.RUNNABLE, static_priority := sp,
                   sleep_time := sleep_time, running_time := running_time }

/-- What the scan of `fcfs` knows of `oldestproc` after slots `0 .. n-1`: it
is the first RUNNABLE slot of least `birth_time` among them. -/
def OldestUpTo (t : List proc) (n : Nat) : Option Nat → Prop
  | none => ∀ j p, j < n → t[j]? = some p → p.state ≠ procstate.RUNNABLE
  | some o => o < n ∧ ∃ p, t[o]? = some p ∧ p.state = procstate.RUNNABLE ∧
      ∀ j pj, j < n → t[j]? = some pj → pj.state = procstate.RUNNABLE →
        p.birth_time ≤ pj.birth_time ∧ (j < o → p.birth_time < pj.birth_time)

/-- A RUNNABLE process with the given birth time and number of tickets. -/
def runnable_born (birth_time : Nat) (num_tickets : Int) : proc :=
  { proc_zero with state := procstate.RUNNABLE, birth_time := birth_time,
                   num_tickets := num_tickets }

/-- A process sleeping on channel `chan` with the given `sleep_time` and
`sleep_start`. -/
def sleeper (chan : Nat) (sleep_time : Int) (sleep_start : Nat) : proc :=
  { proc_zero with state := procstate.SLEEPING, pid := 1, chan := chan,
                   sleep_time := sleep_time, sleep_start := sleep_start }

/-- A ZOMBIE child of the process in slot `parent`, with the given pid and
tick counts. -/
def zombie_child (parent : Nat) (pid : Int) (ctime rtime etime : Nat) : proc :=
  { proc_zero with state := procstate.ZOMBIE, pid := pid, parent := some parent,
                   ctime := ctime, rtime := rtime, etime := etime }

/-- The number of slots of the table that are not UNUSED. -/
def live_count (t : List proc) : Nat :=
  t.countP (fun p => decide (p.state ≠ procstate.UNUSED))

/-- A trapframe page whose words are all zero. -/
def trapframe_zero : trapframe :=
  { kernel_satp := 0, kernel_sp := 0, kernel_trap := 0, epc := 0, kernel_hartid := 0,
    ra := 0, sp := 0, gp := 0, tp := 0, t0 := 0, t1 := 0, t2 := 0, s0 := 0, s1 := 0,
    a0 := 0, a1 := 0, a2 := 0, a3 := 0, a4 := 0, a5 := 0, a6 := 0, a7 := 0,
    s2 := 0, s3 := 0, s4 := 0, s5 := 0, s6 := 0, s7 := 0, s8 := 0, s9 := 0,
    s10 := 0, s11 := 0, t3 := 0, t4 := 0, t5 := 0, t6 := 0 }

/-- A RUNNING process of pid 1 holding a trapframe, a trapframe copy and a
page table, with the given number of tickets and static priority. -/
def running_proc (num_tickets static_priority : Int) : proc :=
  { proc_zero with state := procstate.RUNNING, pid := 1, sz := 4096,
                   pagetable := some 1,
                   trapframe := some { trapframe_zero with epc := 64, a0 := 9, sp := 4096 },
                   trapframe_copy := some trapframe_zero,
                   num_tickets := num_tickets, static_priority := static_priority,
                   dynamic_priority := 55, sleep_time := 3 }

/-- Services that all succeed, at tick 20. -/
def env_ok : alloc_env :=
  { ctime_now := 20, birth_now := 20, trapframe_copy_page := some trapframe_zero,
    trapframe_page := some trapframe_zero, pagetable := some 2, uvmcopy_ok := true }

/-- The PCB `fork` leaves in slot `i`, when it returns. -/
def fork_slot (k : kstate) (me : Nat) (e : alloc_env) (i : Nat) : Option proc :=
  (fork k me e).bind (fun r => r.2.table[i]?)

/-- A live table of the idle system: `init` sleeping in `wait` and a shell
sleeping on the console, no process RUNNABLE. -/
def idle_table : List proc :=
  [sleeper 1 0 0, { sleeper 9 0 0 with pid := 2, parent := some 0 }]

/-- The state of a PCB is kept, or goes from SLEEPING to RUNNABLE. -/
def StateKept (q q2 : proc) : Prop :=
  q2.state = q.state ∨ (q.state = procstate.SLEEPING ∧ q2.state = procstate.RUNNABLE)

/-- What `wakeup` leaves of a PCB: its parent, pid and running time, and
its state unless it is woken. -/
def Woken (q q2 : proc) : Prop :=
  q2.parent = q.parent ∧ q2.pid = q.pid ∧ q2.running_time = q.running_time ∧
    StateKept q q2

/-- A process in the middle of `exit`'s caller role: RUNNING, of pid 2, child
of slot 0, with one open file and a working directory. -/
def exiting_proc : proc :=
  { running_proc 1 60 with pid := 2, parent := some 0, ofile := [some 3, none, some 4],
                           cwd := some 7 }

/-- Every PCB of the table has `running_time = 0`. -/
def AllRT0 (t : List proc) : Prop :=
  ∀ p ∈ t, p.running_time = 0

/-- Parent integrity, in the form the lifecycle keeps: `init` can run, and
every slot other than `init` that is not UNUSED has a parent that can run. -/
def ParentsLive (init : Nat) (t : List proc) : Prop :=
  (∃ pinit, t[init]? = some pinit ∧ can_run pinit) ∧
  ∀ (i : Nat) (p : proc), i ≠ init → t[i]? = some p → p.state ≠ procstate.UNUSED →
    ∃ (q : Nat) (pq : proc), p.parent = some q ∧ t[q]? = some pq ∧ can_run pq

/-- The state after boot of a two-slot table: `userinit` has set up `init` in
slot 0. -/
def booted : kstate :=
  ((userinit { table := procinit 2, nextpid := 1 } env_ok 4096 (some 1)).map
    (fun r => r.1)).getD { table := [], nextpid := 0 }

/-- The state after `init` has forked once in `booted`. -/
def forked : kstate :=
  ((fork booted 0 env_ok).map (fun r => r.2)).getD booted

/-- The set of PCB locks that holds the lock of the selected slot and no
other. -/
def held_of : Option Nat → Finset Nat
  | none => ∅
  | some c => {c}

/-! # Theorems -/


/-! ## Lemmas on lists -/

theorem set_same {α : Type} {l : List α} {i : Nat} {a : α} (h : l[i]? = some a) :
    l.set i a = l := by
  apply List.ext_getElem?
  intro j
  rw [List.getElem?_set]
  by_cases hij : i = j
  · subst hij
    have hlt : i < l.length := by
      by_contra hc
      rw [List.getElem?_eq_none (Nat.le_of_not_lt hc)] at h
      cases h
    simp [hlt, h]
  · simp [hij]

theorem lt_length_of_getElem? {α : Type} {l : List α} {i : Nat} {a : α}
    (h : l[i]? = some a) : i < l.length := by
  by_contra hc
  rw [List.getElem?_eq_none (Nat.le_of_not_lt hc)] at h
  cases h

/-! ## The scan of `priority_based` -/

theorem recomputed_state (p : proc) : (recomputed p).state = p.state := by
  unfold recomputed; split <;> rfl

theorem recomputed_dynamic_priority (p : proc) (h : p.state = procstate.RUNNABLE) :
    (recomputed p).dynamic_priority = calcDP p := by
  unfold recomputed; simp [h]

theorem priority_based_iter_fst (st : List proc × Option Nat) (i : Nat) :
    (priority_based_iter st i).1 =
      match st.1[i]? with
      | none => st.1
      | some p => st.1.set i (recomputed p) := by
  unfold priority_based_iter recomputed
  cases h : st.1[i]? with
  | none => simp
  | some p =>
    by_cases hs : p.state = procstate.RUNNABLE
    · simp only [hs, ne_eq, not_true_eq_false, if_false, if_true]
      cases st.2 with
      | none => rfl
      | some c =>
        simp only
        split
        · rfl
        · split <;> rfl
    · simp [hs, set_same h]

/-- The table during the scan: slots already passed are recomputed, the
others are as they were. -/
theorem priority_based_loop_table (t : List proc) (n j : Nat) :
    (priority_based_loop t n).1[j]? =
      (t[j]?).map (fun p => if j < n then recomputed p else p) := by
  induction n generalizing j with
  | zero => simp [priority_based_loop]
  | succ n ih =>
    simp only [priority_based_loop, priority_based_iter_fst]
    have ihn := ih n
    simp only [Nat.lt_irrefl, if_false] at ihn
    cases htn : t[n]? with
    | none =>
      rw [htn] at ihn
      simp only [Option.map_none'] at ihn
      rw [ihn]
      simp only
      rw [ih j]
      by_cases hjn : j = n
      · subst hjn; simp [htn]
      · have : (j < n + 1) = (j < n) := by
          apply propext; omega
        simp [this]
    | some p =>
      rw [htn] at ihn
      simp only [Option.map_some'] at ihn
      have ihn2 : (priority_based_loop t n).1[n]? = some p := by simpa using ihn
      rw [ihn2]
      simp only
      rw [List.getElem?_set]
      by_cases hjn : n = j
      · subst hjn
        simp [lt_length_of_getElem? ihn2, htn]
      · simp only [hjn, if_false]
        rw [ih j]
        have : (j < n + 1) = (j < n) := by
          apply propext; omega
        simp [this]


theorem priority_based_loop_chosen (t : List proc) (n : Nat) :
    ChosenUpTo t n (priority_based_loop t n).2 := by
  induction n with
  | zero =>
    simp only [priority_based_loop, ChosenUpTo]
    intro j p hj
    omega
  | succ n ih =>
    have htab := priority_based_loop_table t n
    simp only [priority_based_loop]
    generalize priority_based_loop t n = st at ih htab
    obtain ⟨tb, ch⟩ := st
    simp only at ih htab
    have hn := htab n
    simp only [Nat.lt_irrefl, if_false] at hn
    unfold priority_based_iter
    simp only
    cases htn : t[n]? with
    | none =>
      rw [htn] at hn
      simp only [Option.map_none'] at hn
      rw [hn]
      simp only
      cases ch with
      | none =>
        simp only [ChosenUpTo] at ih ⊢
        intro j p hj hp
        by_cases hjn : j = n
        · subst hjn; rw [htn] at hp; cases hp
        · exact ih j p (by omega) hp
      | some c =>
        simp only [ChosenUpTo] at ih ⊢
        obtain ⟨hc, p, hp, hps, hall⟩ := ih
        refine ⟨by omega, p, hp, hps, ?_⟩
        intro j pj hj hpj
        by_cases hjn : j = n
        · subst hjn; rw [htn] at hpj; cases hpj
        · exact hall j pj (by omega) hpj
    | some p =>
      rw [htn] at hn
      have hn2 : tb[n]? = some p := by simpa using hn
      rw [hn2]
      simp only
      by_cases hs : p.state = procstate.RUNNABLE
      · rw [if_neg (not_not.mpr hs)]
        have hdp : ({ p with dynamic_priority := calcDP p } : proc).dynamic_priority
            = calcDP p := rfl
        generalize ({ p with dynamic_priority := calcDP p } : proc) = p1 at hdp ⊢
        cases ch with
        | none =>
          simp only [ChosenUpTo] at ih ⊢
          refine ⟨by omega, p, htn, hs, ?_⟩
          intro j pj hj hpj hsj
          by_cases hjn : j = n
          · subst hjn
            rw [htn] at hpj
            cases hpj
            exact ⟨le_refl _, fun h => absurd h (Nat.lt_irrefl _)⟩
          · exact absurd hsj (ih j pj (by omega) hpj)
        | some c =>
          simp only [ChosenUpTo] at ih
          obtain ⟨hc, pc, hpc, hpcs, hall⟩ := ih
          have hcn : n ≠ c := by omega
          have htc : (tb.set n p1)[c]? = some (recomputed pc) := by
            rw [List.getElem?_set_ne hcn, htab c, hpc]
            simp [hc]
          simp only [htc]
          rw [recomputed_dynamic_priority pc hpcs]
          by_cases hlt : calcDP p < calcDP pc
          · simp only [hlt, if_true, ChosenUpTo]
            refine ⟨by omega, p, htn, hs, ?_⟩
            intro j pj hj hpj hsj
            by_cases hjn : j = n
            · subst hjn
              rw [htn] at hpj
              cases hpj
              exact ⟨le_refl _, fun h => absurd h (Nat.lt_irrefl _)⟩
            · have h1 := (hall j pj (by omega) hpj hsj).1
              exact ⟨by omega, fun _ => by omega⟩
          · simp only [hlt, if_false, ChosenUpTo]
            refine ⟨by omega, pc, hpc, hpcs, ?_⟩
            intro j pj hj hpj hsj
            by_cases hjn : j = n
            · subst hjn
              rw [htn] at hpj
              cases hpj
              exact ⟨by omega, fun h => by omega⟩
            · exact hall j pj (by omega) hpj hsj
      · rw [if_pos hs]
        cases ch with
        | none =>
          simp only [ChosenUpTo] at ih ⊢
          intro j pj hj hpj
          by_cases hjn : j = n
          · subst hjn; rw [htn] at hpj; cases hpj; exact hs
          · exact ih j pj (by omega) hpj
        | some c =>
          simp only [ChosenUpTo] at ih ⊢
          obtain ⟨hc, pc, hpc, hpcs, hall⟩ := ih
          refine ⟨by omega, pc, hpc, hpcs, ?_⟩
          intro j pj hj hpj hsj
          by_cases hjn : j = n
          · subst hjn; rw [htn] at hpj; cases hpj; exact absurd hsj hs
          · exact hall j pj (by omega) hpj hsj


/-- When no slot is RUNNABLE the scan leaves the table as it was. -/
theorem priority_based_loop_unchanged (t : List proc) (n : Nat)
    (h : ∀ (j : Nat) (p : proc), t[j]? = some p → p.state ≠ procstate.RUNNABLE) :
    (priority_based_loop t n).1 = t := by
  apply List.ext_getElem?
  intro j
  rw [priority_based_loop_table]
  cases hj : t[j]? with
  | none => rfl
  | some p =>
    simp only [Option.map_some', recomputed, if_neg (h j p hj)]
    simp

/-- The slot `priority_based` dispatches: the first RUNNABLE slot of least
`calcDP`; none exactly when no slot is RUNNABLE. -/
theorem priority_based_spec (t : List proc) :
    (∀ c, (priority_based t).2 = some c →
      ∃ p q, t[c]? = some p ∧ p.state = procstate.RUNNABLE ∧
        (priority_based t).1[c]? = some q ∧ q.state = procstate.RUNNING ∧
        q.dynamic_priority = calcDP p ∧
        ∀ (j : Nat) (pj : proc), t[j]? = some pj → pj.state = procstate.RUNNABLE →
          ∃ qj, (priority_based t).1[j]? = some qj ∧
            qj.dynamic_priority = calcDP pj ∧
            q.dynamic_priority ≤ qj.dynamic_priority ∧
            (qj.dynamic_priority = q.dynamic_priority → c ≤ j)) ∧
    ((∀ (j : Nat) (p : proc), t[j]? = some p → p.state ≠ procstate.RUNNABLE) ↔
      (priority_based t).2 = none) ∧
    ((priority_based t).2 = none → (priority_based t).1 = t) := by
  have hch := priority_based_loop_chosen t t.length
  have htab := priority_based_loop_table t t.length
  have hunch := priority_based_loop_unchanged t t.length
  unfold priority_based
  simp only
  generalize priority_based_loop t t.length = st at hch htab hunch
  obtain ⟨tb, ch⟩ := st
  simp only at hch htab hunch ⊢
  cases ch with
  | none =>
    simp only [ChosenUpTo] at hch
    have hno : ∀ (j : Nat) (p : proc), t[j]? = some p → p.state ≠ procstate.RUNNABLE :=
      fun j p hp => hch j p (lt_length_of_getElem? hp) hp
    refine ⟨?_, ?_, ?_⟩
    · intro c hc; cases hc
    · exact ⟨fun _ => rfl, fun _ => hno⟩
    · intro _; exact hunch hno
  | some c =>
    simp only [ChosenUpTo] at hch
    obtain ⟨hc, pc, hpc, hpcs, hall⟩ := hch
    have htc : tb[c]? = some (recomputed pc) := by
      rw [htab c, hpc]; simp [hc]
    simp only [htc]
    have hclen : c < tb.length := lt_length_of_getElem? htc
    refine ⟨?_, ?_, ?_⟩
    · intro c1 hc1
      simp only [Option.some.injEq] at hc1
      subst hc1
      refine ⟨pc, _, hpc, hpcs, List.getElem?_set_self hclen, rfl,
        recomputed_dynamic_priority pc hpcs, ?_⟩
      intro j pj hpj hsj
      have hjl := lt_length_of_getElem? hpj
      have hm := hall j pj hjl hpj hsj
      by_cases hjc : c = j
      · subst hjc
        rw [hpc] at hpj
        cases hpj
        exact ⟨_, List.getElem?_set_self hclen, recomputed_dynamic_priority pc hpcs,
          le_refl _, fun _ => le_refl _⟩
      · refine ⟨recomputed pj, ?_, recomputed_dynamic_priority pj hsj, ?_, ?_⟩
        · rw [List.getElem?_set_ne hjc, htab j, hpj]
          simp [hjl]
        · simp only [recomputed_dynamic_priority pj hsj,
            recomputed_dynamic_priority pc hpcs]
          exact hm.1
        · simp only [recomputed_dynamic_priority pj hsj,
            recomputed_dynamic_priority pc hpcs]
          intro heq
          by_contra hlt
          have := hm.2 (by omega)
          omega
    · constructor
      · intro hno
        exact absurd hpcs (hno c pc hpc)
      · intro h; cases h
    · intro h; cases h

/-! ## Priority based scheduling: the claims -/

/-- C1: when `priority_based` dispatches slot `c`, that slot was RUNNABLE and
is now RUNNING; its `dynamic_priority`, recomputed by `calcDP` during the scan,
is at most the recomputed `dynamic_priority` of every RUNNABLE slot, and every
RUNNABLE slot attaining the same value has an index at least `c`.  A slot is
dispatched exactly when some slot is RUNNABLE; when none is, the table is left
as it was. -/
theorem priority_based_dispatches_min (t : List proc) :
    (∀ c, (priority_based t).2 = some c →
      ∃ p q, t[c]? = some p ∧ p.state = procstate.RUNNABLE ∧
        (priority_based t).1[c]? = some q ∧ q.state = procstate.RUNNING ∧
        q.dynamic_priority = calcDP p ∧
        ∀ (j : Nat) (pj : proc), t[j]? = some pj → pj.state = procstate.RUNNABLE →
          ∃ qj, (priority_based t).1[j]? = some qj ∧
            qj.dynamic_priority = calcDP pj ∧
            q.dynamic_priority ≤ qj.dynamic_priority ∧
            (qj.dynamic_priority = q.dynamic_priority → c ≤ j)) ∧
    ((∀ (j : Nat) (p : proc), t[j]? = some p → p.state ≠ procstate.RUNNABLE) ↔
      (priority_based t).2 = none) ∧
    ((priority_based t).2 = none → (priority_based t).1 = t) :=
  priority_based_spec t

/-- C1 at a table of three slots: the second and third are RUNNABLE with the
same least priority, and the second is dispatched. -/
theorem priority_based_dispatches_min_witness :
    (priority_based [runnable_with 60 0 1, runnable_with 40 0 1, runnable_with 40 0 1]).2
        = some 1 ∧
      ∃ p q, [runnable_with 60 0 1, runnable_with 40 0 1, runnable_with 40 0 1][1]? = some p ∧
        p.state = procstate.RUNNABLE ∧
        (priority_based
          [runnable_with 60 0 1, runnable_with 40 0 1, runnable_with 40 0 1]).1[1]? = some q ∧
        q.state = procstate.RUNNING ∧
        q.dynamic_priority = calcDP p ∧
        ∀ (j : Nat) (pj : proc),
          [runnable_with 60 0 1, runnable_with 40 0 1, runnable_with 40 0 1][j]? = some pj →
          pj.state = procstate.RUNNABLE →
          ∃ qj, (priority_based
              [runnable_with 60 0 1, runnable_with 40 0 1, runnable_with 40 0 1]).1[j]?
                = some qj ∧
            qj.dynamic_priority = calcDP pj ∧
            q.dynamic_priority ≤ qj.dynamic_priority ∧
            (qj.dynamic_priority = q.dynamic_priority → 1 ≤ j) :=
  ⟨by decide,
    (priority_based_dispatches_min
      [runnable_with 60 0 1, runnable_with 40 0 1, runnable_with 40 0 1]).1 1 (by decide)⟩

/-- C3, the code at two inputs: with no history `calcDP` returns `5` whatever
the static priority, where the specification gives `clamp(60 - 5 + 5)`, which
is `60`; with `sleep_time = running_time = 1` it divides before multiplying by
ten, so the niceness is `0` and the result `65`, where the specification
gives niceness `5` and the result `60`. -/
theorem calcDP_not_spec :
    calcDP (runnable_with 60 0 0) = 5 ∧ calcDP_spec (runnable_with 60 0 0) = 60 ∧
    calcDP (runnable_with 60 1 1) = 65 ∧ calcDP_spec (runnable_with 60 1 1) = 60 := by
  decide

/-- C4 fails as stated: A with static priority 5 in slot 0 and B with static
priority 3 in slot 1 are RUNNABLE with the same history (one tick of sleep, no
running, as after a wakeup); the values 0 and -2 are both clamped to 0 and
`priority_based` dispatches A. -/
theorem priority_override_counterexample :
    (runnable_with 5 1 0).state = procstate.RUNNABLE ∧
    (runnable_with 3 1 0).state = procstate.RUNNABLE ∧
    (runnable_with 5 1 0).sleep_time = (runnable_with 3 1 0).sleep_time ∧
    (runnable_with 5 1 0).running_time = (runnable_with 3 1 0).running_time ∧
    (runnable_with 3 1 0).static_priority < (runnable_with 5 1 0).static_priority ∧
    calcDP (runnable_with 5 1 0) = 0 ∧ calcDP (runnable_with 3 1 0) = 0 ∧
    (priority_based [runnable_with 5 1 0, runnable_with 3 1 0]).2 = some 0 := by
  decide

/-- C4 as amended: A in slot `a` and a RUNNABLE B in slot `b` have the same
`sleep_time` and `running_time`, not both zero, and B has the smaller static
priority; when neither value is cut by the clamp (`B.static_priority -
niceness + 5 < 100` and `0 < A.static_priority - niceness + 5`),
`priority_based` does not dispatch A, wherever A and B stand. -/
theorem priority_override_unclamped (t : List proc) (a b : Nat) (A B : proc)
    (hA : t[a]? = some A) (hB : t[b]? = some B)
    (hBs : B.state = procstate.RUNNABLE)
    (hs : A.sleep_time = B.sleep_time) (hr : A.running_time = B.running_time)
    (hne : B.sleep_time + B.running_time ≠ 0)
    (hlt : B.static_priority < A.static_priority)
    (hhi : B.static_priority
      - 10 * Int.tdiv B.sleep_time (B.sleep_time + B.running_time) + 5 < 100)
    (hlo : 0 < A.static_priority
      - 10 * Int.tdiv A.sleep_time (A.sleep_time + A.running_time) + 5) :
    (priority_based t).2 ≠ some a := by
  intro hsel
  have hdp : calcDP B < calcDP A := by
    unfold calcDP
    simp only [hs, hr] at hlo ⊢
    simp only [if_neg hne]
    generalize Int.tdiv B.sleep_time (B.sleep_time + B.running_time) = n at hhi hlo ⊢
    split_ifs <;> omega
  obtain ⟨p, q, hp, _, _, _, hq, hall⟩ := (priority_based_spec t).1 a hsel
  rw [hA] at hp
  cases hp
  obtain ⟨qj, _, hqj, hle, _⟩ := hall b B hB hBs
  omega

/-- C4 as amended, at the scenario: A with static priority 60 in slot 0, B
with 40 in slot 1, each with one tick of sleep and no running. -/
theorem priority_override_unclamped_witness :
    (priority_based [runnable_with 60 1 0, runnable_with 40 1 0]).2 ≠ some 0 :=
  priority_override_unclamped [runnable_with 60 1 0, runnable_with 40 1 0] 0 1
    (runnable_with 60 1 0) (runnable_with 40 1 0) rfl rfl rfl rfl rfl
    (by decide) (by decide) (by decide) (by decide)

/-! ## First come first served: the scan and the claim -/

theorem fcfs_loop_oldest (t : List proc) (n : Nat) :
    OldestUpTo t n (fcfs_loop t n).1 := by
  induction n with
  | zero =>
    simp only [fcfs_loop, OldestUpTo]
    intro j p hj
    omega
  | succ n ih =>
    simp only [fcfs_loop]
    generalize fcfs_loop t n = st at ih
    obtain ⟨o, ot⟩ := st
    simp only at ih
    unfold fcfs_iter
    simp only
    cases htn : t[n]? with
    | none =>
      simp only
      cases o with
      | none =>
        simp only [OldestUpTo] at ih ⊢
        intro j p hj hp
        by_cases hjn : j = n
        · subst hjn; rw [htn] at hp; cases hp
        · exact ih j p (by omega) hp
      | some c =>
        simp only [OldestUpTo] at ih ⊢
        obtain ⟨hc, p, hp, hps, hall⟩ := ih
        refine ⟨by omega, p, hp, hps, ?_⟩
        intro j pj hj hpj
        by_cases hjn : j = n
        · subst hjn; rw [htn] at hpj; cases hpj
        · exact hall j pj (by omega) hpj
    | some p =>
      simp only
      cases o with
      | none =>
        simp only [OldestUpTo, or_true, if_true] at ih ⊢
        by_cases hs : p.state = procstate.RUNNABLE
        · rw [if_pos hs]
          simp only [OldestUpTo]
          refine ⟨by omega, p, htn, hs, ?_⟩
          intro j pj hj hpj hsj
          by_cases hjn : j = n
          · subst hjn
            rw [htn] at hpj
            cases hpj
            exact ⟨le_refl _, fun h => absurd h (Nat.lt_irrefl _)⟩
          · exact absurd hsj (ih j pj (by omega) hpj)
        · rw [if_neg hs]
          simp only [OldestUpTo]
          intro j pj hj hpj
          by_cases hjn : j = n
          · subst hjn; rw [htn] at hpj; cases hpj; exact hs
          · exact ih j pj (by omega) hpj
      | some c =>
        simp only [OldestUpTo] at ih
        obtain ⟨hc, pc, hpc, hpcs, hall⟩ := ih
        simp only [hpc, reduceCtorEq, or_false]
        by_cases hs : p.state = procstate.RUNNABLE
        · by_cases hlt : pc.birth_time > p.birth_time
          · rw [if_pos hlt, if_pos hs]
            simp only [OldestUpTo]
            refine ⟨by omega, p, htn, hs, ?_⟩
            intro j pj hj hpj hsj
            by_cases hjn : j = n
            · subst hjn
              rw [htn] at hpj
              cases hpj
              exact ⟨le_refl _, fun h => absurd h (Nat.lt_irrefl _)⟩
            · have h1 := (hall j pj (by omega) hpj hsj).1
              exact ⟨by omega, fun _ => by omega⟩
          · rw [if_neg hlt]
            simp only [OldestUpTo]
            refine ⟨by omega, pc, hpc, hpcs, ?_⟩
            intro j pj hj hpj hsj
            by_cases hjn : j = n
            · subst hjn
              rw [htn] at hpj
              cases hpj
              exact ⟨by omega, fun h => by omega⟩
            · exact hall j pj (by omega) hpj hsj
        · have hres : (if pc.birth_time > p.birth_time then
              if p.state = procstate.RUNNABLE then (some n, pc.birth_time)
              else (some c, pc.birth_time)
            else (some c, pc.birth_time)).1 = some c := by
            split
            · rfl
            · rfl
          rw [hres]
          simp only [OldestUpTo]
          refine ⟨by omega, pc, hpc, hpcs, ?_⟩
          intro j pj hj hpj hsj
          by_cases hjn : j = n
          · subst hjn; rw [htn] at hpj; cases hpj; exact absurd hsj hs
          · exact hall j pj (by omega) hpj hsj

/-- The slot `fcfs` dispatches: the first RUNNABLE slot of least
`birth_time`; none exactly when no slot is RUNNABLE. -/
theorem fcfs_spec (t : List proc) :
    (∀ c, (fcfs t).2 = some c →
      ∃ p, t[c]? = some p ∧ p.state = procstate.RUNNABLE ∧
        (fcfs t).1 = t.set c { p with state := procstate.RUNNING } ∧
        ∀ (j : Nat) (pj : proc), t[j]? = some pj → pj.state = procstate.RUNNABLE →
          p.birth_time ≤ pj.birth_time ∧ (pj.birth_time = p.birth_time → c ≤ j)) ∧
    ((∀ (j : Nat) (p : proc), t[j]? = some p → p.state ≠ procstate.RUNNABLE) ↔
      (fcfs t).2 = none) ∧
    ((fcfs t).2 = none → (fcfs t).1 = t) := by
  have hol := fcfs_loop_oldest t t.length
  unfold fcfs
  generalize (fcfs_loop t t.length).1 = o at hol
  cases o with
  | none =>
    simp only [OldestUpTo] at hol
    have hno : ∀ (j : Nat) (p : proc), t[j]? = some p → p.state ≠ procstate.RUNNABLE :=
      fun j p hp => hol j p (lt_length_of_getElem? hp) hp
    refine ⟨?_, ?_, ?_⟩
    · intro c hc; cases hc
    · exact ⟨fun _ => rfl, fun _ => hno⟩
    · intro _; rfl
  | some c =>
    simp only [OldestUpTo] at hol
    obtain ⟨hc, pc, hpc, hpcs, hall⟩ := hol
    simp only [hpc, hpcs, if_true]
    refine ⟨?_, ?_, ?_⟩
    · intro c1 hc1
      simp only [Option.some.injEq] at hc1
      subst hc1
      refine ⟨pc, hpc, hpcs, ?_, ?_⟩
      · simp [hpcs]
      · intro j pj hpj hsj
        have hm := hall j pj (lt_length_of_getElem? hpj) hpj hsj
        refine ⟨hm.1, ?_⟩
        intro heq
        by_contra hlt
        have := hm.2 (by omega)
        omega
    · constructor
      · intro hno
        exact absurd hpcs (hno c pc hpc)
      · intro h; cases h
    · intro h; cases h

/-- C2: when `fcfs` dispatches slot `c`, that slot was RUNNABLE and is made
RUNNING; no RUNNABLE slot has a smaller `birth_time`, and every RUNNABLE slot
with the same `birth_time` has an index at least `c`.  A slot is dispatched
exactly when some slot is RUNNABLE; when none is, the table is left as it
was. -/
theorem fcfs_dispatches_oldest (t : List proc) :
    (∀ c, (fcfs t).2 = some c →
      ∃ p, t[c]? = some p ∧ p.state = procstate.RUNNABLE ∧
        (fcfs t).1 = t.set c { p with state := procstate.RUNNING } ∧
        ∀ (j : Nat) (pj : proc), t[j]? = some pj → pj.state = procstate.RUNNABLE →
          p.birth_time ≤ pj.birth_time ∧ (pj.birth_time = p.birth_time → c ≤ j)) ∧
    ((∀ (j : Nat) (p : proc), t[j]? = some p → p.state ≠ procstate.RUNNABLE) ↔
      (fcfs t).2 = none) ∧
    ((fcfs t).2 = none → (fcfs t).1 = t) :=
  fcfs_spec t

/-- C2 at a table of four slots: an UNUSED slot of birth time 5, then
RUNNABLE slots of birth times 30, 10 and 10; the third slot is dispatched. -/
theorem fcfs_dispatches_oldest_witness :
    (fcfs [{ proc_zero with birth_time := 5 }, runnable_born 30 1, runnable_born 10 1,
        runnable_born 10 1]).2 = some 2 ∧
      ∃ p, [{ proc_zero with birth_time := 5 }, runnable_born 30 1, runnable_born 10 1,
          runnable_born 10 1][2]? = some p ∧ p.state = procstate.RUNNABLE ∧
        (fcfs [{ proc_zero with birth_time := 5 }, runnable_born 30 1, runnable_born 10 1,
          runnable_born 10 1]).1
          = [{ proc_zero with birth_time := 5 }, runnable_born 30 1, runnable_born 10 1,
              runnable_born 10 1].set 2 { p with state := procstate.RUNNING } ∧
        ∀ (j : Nat) (pj : proc),
          [{ proc_zero with birth_time := 5 }, runnable_born 30 1, runnable_born 10 1,
            runnable_born 10 1][j]? = some pj →
          pj.state = procstate.RUNNABLE →
          p.birth_time ≤ pj.birth_time ∧ (pj.birth_time = p.birth_time → 2 ≤ j) :=
  ⟨by decide,
    (fcfs_dispatches_oldest [{ proc_zero with birth_time := 5 }, runnable_born 30 1,
      runnable_born 10 1, runnable_born 10 1]).1 2 (by decide)⟩

/-! ## Lottery: the claim -/

/-- C5, the code at two tables.  With two RUNNABLE processes of one ticket
each the ticket sum is 2, and of the draws 0 and 1 both end on slot 0 and none
on slot 1, whatever `random()` returns; with tickets 3, 2 and 5 the ten draws
end 4, 2 and 4 times on the three slots. -/
theorem lottery_wins_not_tickets :
    lottery_total [runnable_born 0 1, runnable_born 0 1] 0 = 2 ∧
    lottery_wins [runnable_born 0 1, runnable_born 0 1] 2 0 = 2 ∧
    lottery_wins [runnable_born 0 1, runnable_born 0 1] 2 1 = 0 ∧
    lottery_total [runnable_born 0 3, runnable_born 0 2, runnable_born 0 5] 0 = 10 ∧
    lottery_wins [runnable_born 0 3, runnable_born 0 2, runnable_born 0 5] 10 0 = 4 ∧
    lottery_wins [runnable_born 0 3, runnable_born 0 2, runnable_born 0 5] 10 1 = 2 ∧
    lottery_wins [runnable_born 0 3, runnable_born 0 2, runnable_born 0 5] 10 2 = 4 := by
  decide

/-! ## kill -/

theorem kill_first_match (t : List proc) (pid : Int) (i : Nat) (p : proc)
    (hp : t[i]? = some p) (hpid : p.pid = pid)
    (hfirst : ∀ (j : Nat) (q : proc), j < i → t[j]? = some q → q.pid ≠ pid) :
    kill t pid =
      (t.set i { p with killed := 1,
                        state := if p.state = procstate.SLEEPING then procstate.RUNNABLE
                                 else p.state }, 0) := by
  induction t generalizing i with
  | nil => simp at hp
  | cons q qs ih =>
    cases i with
    | zero =>
      simp only [List.getElem?_cons_zero, Option.some.injEq] at hp
      subst hp
      simp only [kill, if_pos hpid, List.set_cons_zero]
    | succ i =>
      simp only [List.getElem?_cons_succ] at hp
      have hq : q.pid ≠ pid := hfirst 0 q (Nat.succ_pos _) (by simp)
      have hrec := ih i hp (fun j r hj hr => hfirst (j + 1) r (by omega) (by simpa using hr))
      simp only [kill, if_neg hq, hrec, List.set_cons_succ]

/-- C7: slot `i` holds a process `p` of pid `pid`, live or not, and no slot
before it carries that pid (pids are unique).  Then `kill(pid)` returns 0 and the table
differs from the old one in slot `i` only, where `killed` is 1 and the state is
RUNNABLE if it was SLEEPING and is kept otherwise. -/
theorem kill_live_pid (t : List proc) (pid : Int) (i : Nat) (p : proc)
    (hp : t[i]? = some p) (hpid : p.pid = pid)
    (hfirst : ∀ (j : Nat) (q : proc), j < i → t[j]? = some q → q.pid ≠ pid) :
    (kill t pid).2 = 0 ∧
    (∃ q, (kill t pid).1[i]? = some q ∧ q.killed = 1 ∧
      (p.state = procstate.SLEEPING → q.state = procstate.RUNNABLE) ∧
      (p.state ≠ procstate.SLEEPING → q.state = p.state) ∧
      (q.state = procstate.RUNNABLE ∧ q.state ≠ p.state ↔ p.state = procstate.SLEEPING) ∧
      q = { p with killed := 1, state := q.state }) ∧
    (∀ j, j ≠ i → (kill t pid).1[j]? = t[j]?) ∧
    (kill t pid).1.length = t.length := by
  have hlen := lt_length_of_getElem? hp
  rw [kill_first_match t pid i p hp hpid hfirst]
  refine ⟨rfl, ⟨_, List.getElem?_set_self hlen, rfl, ?_, ?_, ?_, rfl⟩, ?_, ?_⟩
  · intro h; simp [h]
  · intro h; simp [h]
  · by_cases h : p.state = procstate.SLEEPING
    · simp [h]
    · simp [h]
  · intro j hj
    simp only
    rw [List.getElem?_set_ne (Ne.symm hj)]
  · simp

/-- C7 at a table of an UNUSED slot followed by a process of pid 1 sleeping
on channel 7. -/
theorem kill_live_pid_witness :
    (kill [proc_zero, sleeper 7 0 0] 1).2 = 0 ∧
    (∃ q, (kill [proc_zero, sleeper 7 0 0] 1).1[1]? = some q ∧ q.killed = 1 ∧
      ((sleeper 7 0 0).state = procstate.SLEEPING → q.state = procstate.RUNNABLE) ∧
      ((sleeper 7 0 0).state ≠ procstate.SLEEPING → q.state = (sleeper 7 0 0).state) ∧
      (q.state = procstate.RUNNABLE ∧ q.state ≠ (sleeper 7 0 0).state ↔
        (sleeper 7 0 0).state = procstate.SLEEPING) ∧
      q = { sleeper 7 0 0 with killed := 1, state := q.state }) ∧
    (∀ j, j ≠ 1 → (kill [proc_zero, sleeper 7 0 0] 1).1[j]? = [proc_zero, sleeper 7 0 0][j]?) ∧
    (kill [proc_zero, sleeper 7 0 0] 1).1.length = [proc_zero, sleeper 7 0 0].length :=
  kill_live_pid [proc_zero, sleeper 7 0 0] 1 1 (sleeper 7 0 0) rfl rfl
    (by
      intro j q hj hq
      have hj0 : j = 0 := by omega
      subst hj0
      simp only [List.getElem?_cons_zero, Option.some.injEq] at hq
      subst hq
      decide)

/-! ## wakeup -/

theorem wakeup_from_getElem? (me : Option Nat) (now chan : Nat) (l : List proc)
    (i j : Nat) :
    (wakeup_from me now chan i l)[j]? = (l[j]?).map (wakeup_slot me now chan (i + j)) := by
  induction l generalizing i j with
  | nil => simp [wakeup_from]
  | cons p ps ih =>
    cases j with
    | zero => simp [wakeup_from]
    | succ j =>
      simp only [wakeup_from, List.getElem?_cons_succ]
      rw [ih (i + 1) j]
      have : i + 1 + j = i + (j + 1) := by omega
      rw [this]

theorem wakeup_getElem? (t : List proc) (me : Option Nat) (now chan : Nat) (j : Nat) :
    (wakeup t me now chan)[j]? = (t[j]?).map (wakeup_slot me now chan j) := by
  unfold wakeup
  rw [wakeup_from_getElem?]
  simp

theorem wakeup_from_length (me : Option Nat) (now chan : Nat) (l : List proc) (i : Nat) :
    (wakeup_from me now chan i l).length = l.length := by
  induction l generalizing i with
  | nil => rfl
  | cons p ps ih => simp [wakeup_from, ih]

/-- C8: after `wakeup(c)` the table has the same slots; a slot other than
the caller that was SLEEPING with `chan = c` is RUNNABLE, and every other slot
(the caller, a sleeper on another channel, a slot that is not SLEEPING) holds
the PCB it held before, so has the same state. -/
theorem wakeup_states (t : List proc) (me : Option Nat) (now c : Nat) :
    (wakeup t me now c).length = t.length ∧
    ∀ (i : Nat) (p : proc), t[i]? = some p →
      ∃ q, (wakeup t me now c)[i]? = some q ∧
        (some i ≠ me → p.state = procstate.SLEEPING → p.chan = c →
          q.state = procstate.RUNNABLE) ∧
        ((some i = me ∨ p.state ≠ procstate.SLEEPING ∨ p.chan ≠ c) →
          q = p ∧ q.state = p.state) := by
  refine ⟨wakeup_from_length me now c t 0, ?_⟩
  intro i p hp
  refine ⟨wakeup_slot me now c i p, ?_, ?_, ?_⟩
  · rw [wakeup_getElem?, hp]; rfl
  · intro hme hs hc
    unfold wakeup_slot
    simp only [hme, hs, hc, ne_eq, not_false_eq_true, if_true, and_self]
    split <;> rfl
  · intro h
    have : wakeup_slot me now c i p = p := by
      unfold wakeup_slot
      rcases h with h | h | h
      · simp [h]
      · simp [h]
      · simp [h]
    rw [this]
    exact ⟨rfl, rfl⟩

/-- C8 at a table of a sleeper on channel 7 and a sleeper on channel 8, the
caller being neither: slot 0 is woken by `wakeup(7)`. -/
theorem wakeup_states_witness :
    ∃ q, (wakeup [sleeper 7 0 0, sleeper 8 0 0] none 15 7)[0]? = some q ∧
      (some 0 ≠ (none : Option Nat) → (sleeper 7 0 0).state = procstate.SLEEPING →
        (sleeper 7 0 0).chan = 7 → q.state = procstate.RUNNABLE) ∧
      ((some 0 = (none : Option Nat) ∨ (sleeper 7 0 0).state ≠ procstate.SLEEPING ∨
          (sleeper 7 0 0).chan ≠ 7) →
        q = sleeper 7 0 0 ∧ q.state = (sleeper 7 0 0).state) :=
  (wakeup_states [sleeper 7 0 0, sleeper 8 0 0] none 15 7).2 0 (sleeper 7 0 0) rfl

/-- C9 fails as stated: a process sleeping on channel 7 since tick 10 with
`sleep_time = 3` is woken at tick 15; its `sleep_time` becomes 5, the length of
this sleep, not `3 + (15 - 10)`. -/
theorem wakeup_sleep_time_counterexample :
    wakeup [sleeper 7 3 10] none 15 7
      = [{ sleeper 7 3 10 with state := procstate.RUNNABLE, sleep_time := 5,
                               sleep_start := 0 }] ∧
    (5 : Int) ≠ 3 + (15 - 10) := by
  decide

/-- C9 as amended: a slot other than the caller that is SLEEPING with
`chan = c` is made RUNNABLE by `wakeup(c)` with `sleep_start` reset to 0; when
`sleep_start` was not 0 its `sleep_time` becomes `now - sleep_start`, taken
modulo `2 ^ 64`, whatever it was before, and when `sleep_start` was 0 its
`sleep_time` is kept. -/
theorem wakeup_sleep_time (t : List proc) (me : Option Nat) (now c : Nat)
    (i : Nat) (p : proc) (hp : t[i]? = some p) (hme : some i ≠ me)
    (hs : p.state = procstate.SLEEPING) (hc : p.chan = c) :
    ∃ q, (wakeup t me now c)[i]? = some q ∧ q.state = procstate.RUNNABLE ∧
      q.sleep_start = 0 ∧
      (p.sleep_start ≠ 0 →
        q.sleep_time = ((now : Int) - (p.sleep_start : Int)) % 2 ^ 64) ∧
      (p.sleep_start ≠ 0 → p.sleep_start ≤ now → now < 2 ^ 64 →
        q.sleep_time = (now : Int) - (p.sleep_start : Int)) ∧
      (p.sleep_start = 0 → q.sleep_time = p.sleep_time) := by
  refine ⟨wakeup_slot me now c i p, ?_, ?_, ?_, ?_, ?_, ?_⟩
  · rw [wakeup_getElem?, hp]; rfl
  · unfold wakeup_slot
    simp only [hme, hs, hc, ne_eq, not_false_eq_true, if_true, and_self]
    split <;> rfl
  · unfold wakeup_slot
    simp only [hme, hs, hc, ne_eq, not_false_eq_true, if_true, and_self]
  · intro h0
    unfold wakeup_slot
    simp only [hme, hs, hc, ne_eq, not_false_eq_true, if_true, and_self, h0]
  · intro h0 hle hlt
    unfold wakeup_slot
    simp only [hme, hs, hc, ne_eq, not_false_eq_true, if_true, and_self, h0]
    omega
  · intro h0
    unfold wakeup_slot
    simp only [hme, hs, hc, ne_eq, not_false_eq_true, if_true, and_self, h0,
      not_true_eq_false, if_false]

/-- C9 as amended, at the process sleeping on channel 7 since tick 10 with
`sleep_time = 3`, woken at tick 15. -/
theorem wakeup_sleep_time_witness :
    ∃ q, (wakeup [sleeper 7 3 10] none 15 7)[0]? = some q ∧
      q.state = procstate.RUNNABLE ∧ q.sleep_start = 0 ∧
      ((sleeper 7 3 10).sleep_start ≠ 0 →
        q.sleep_time =
          (((15 : Nat) : Int) - (((sleeper 7 3 10).sleep_start : Nat) : Int)) % 2 ^ 64) ∧
      ((sleeper 7 3 10).sleep_start ≠ 0 → (sleeper 7 3 10).sleep_start ≤ 15 →
        15 < 2 ^ 64 →
        q.sleep_time = ((15 : Nat) : Int) - (((sleeper 7 3 10).sleep_start : Nat) : Int)) ∧
      ((sleeper 7 3 10).sleep_start = 0 → q.sleep_time = (sleeper 7 3 10).sleep_time) :=
  wakeup_sleep_time [sleeper 7 3 10] none 15 7 0 (sleeper 7 3 10) rfl (by decide) rfl rfl

/-! ## waitx -/

theorem waitx_scan_reaps (t : List proc) (me addr : Nat) (copyout_ok : Bool)
    (rest : List proc) (i wtime rtime : Nat) (havekids : Bool)
    (hrest : ∀ k, rest[k]? = t[i + k]?)
    (pid : Int) (t1 : List proc) (wtime1 rtime1 : Nat) (havekids1 : Bool)
    (h : waitx_scan t me addr copyout_ok rest i wtime rtime havekids
      = (some (wait_result.pid pid, t1), wtime1, rtime1, havekids1)) :
    ∃ j np, t[j]? = some np ∧ np.parent = some me ∧ np.state = procstate.ZOMBIE ∧
      np.pid = pid ∧ t1 = t.set j (freeproc np) ∧ rtime1 = np.rtime % 2 ^ 32 ∧
      wtime1 = (((np.etime : Int) - (np.ctime : Int) - (np.rtime : Int)) % 2 ^ 32).toNat := by
  induction rest generalizing i havekids with
  | nil => simp [waitx_scan] at h
  | cons np rest ih =>
    have hnp : t[i]? = some np := by
      have := hrest 0
      simpa using this.symm
    have hrest1 : ∀ k, rest[k]? = t[i + 1 + k]? := by
      intro k
      have := hrest (k + 1)
      simp only [List.getElem?_cons_succ] at this
      rw [this]
      congr 1
      omega
    unfold waitx_scan at h
    by_cases hpar : np.parent = some me
    · rw [if_pos hpar] at h
      by_cases hz : np.state = procstate.ZOMBIE
      · rw [if_pos hz] at h
        simp only at h
        split at h
        · simp at h
        · simp only [Prod.mk.injEq, Option.some.injEq, wait_result.pid.injEq] at h
          obtain ⟨⟨hpid, ht1⟩, hw, hr, _⟩ := h
          exact ⟨i, np, hnp, hpar, hz, hpid, ht1.symm, hr.symm, hw.symm⟩
      · rw [if_neg hz] at h
        exact ih (i + 1) true hrest1 h
    · rw [if_neg hpar] at h
      exact ih (i + 1) havekids hrest1 h

/-- C10: when `waitx` returns the pid of a child it has reaped, that child is
a ZOMBIE slot `np` of the caller, freed by `freeproc`; the reported `rtime` is
the child's `rtime` as a `uint`, the reported `rtime + wtime` is
`etime - ctime` in `uint` arithmetic (modulo `2 ^ 32`), and as plain numbers
when `ctime <= etime < 2 ^ 32` and `rtime <= etime - ctime`. -/
theorem waitx_accounting (s : waitx_state) (me addr : Nat) (copyout_ok : Bool)
    (now : Nat) (pid : Int)
    (h : (waitx s me addr copyout_ok now).1 = wait_result.pid pid) :
    ∃ j np, s.table[j]? = some np ∧ np.parent = some me ∧
      np.state = procstate.ZOMBIE ∧ np.pid = pid ∧
      (waitx s me addr copyout_ok now).2.table = s.table.set j (freeproc np) ∧
      (waitx s me addr copyout_ok now).2.rtime = np.rtime % 2 ^ 32 ∧
      (np.rtime < 2 ^ 32 → (waitx s me addr copyout_ok now).2.rtime = np.rtime) ∧
      ((waitx s me addr copyout_ok now).2.rtime
          + (waitx s me addr copyout_ok now).2.wtime) % 2 ^ 32
        = (np.etime + (2 ^ 32 - np.ctime % 2 ^ 32)) % 2 ^ 32 ∧
      (np.ctime ≤ np.etime → np.etime < 2 ^ 32 → np.rtime ≤ np.etime - np.ctime →
        (waitx s me addr copyout_ok now).2.rtime
          + (waitx s me addr copyout_ok now).2.wtime = np.etime - np.ctime) := by
  unfold waitx at h ⊢
  cases hscan : waitx_scan s.table me addr copyout_ok s.table 0 s.wtime s.rtime false with
  | mk r rest =>
    obtain ⟨wtime1, rtime1, havekids1⟩ := rest
    rw [hscan] at h
    cases r with
    | none =>
      simp only at h
      split at h <;> cases h
    | some rt =>
      obtain ⟨res, t1⟩ := rt
      simp only at h
      subst h
      obtain ⟨j, np, hnp, hpar, hz, hpid, ht1, hr, hw⟩ :=
        waitx_scan_reaps s.table me addr copyout_ok s.table 0 s.wtime s.rtime false
          (fun k => by simp) pid t1 wtime1 rtime1 havekids1 hscan
      refine ⟨j, np, hnp, hpar, hz, hpid, ht1, hr, ?_, ?_, ?_⟩
      · intro hlt
        simp only
        omega
      · simp only
        omega
      · intro h1 h2 h3
        simp only
        omega

/-- C10 at a caller in slot 0 with a ZOMBIE child of pid 2 created at tick
10, run for 15 ticks and exited at tick 50: `waitx` reports `rtime = 15` and
`wtime = 25`. -/
theorem waitx_accounting_witness :
    (waitx { table := [proc_zero, zombie_child 0 2 10 15 50], wtime := 0, rtime := 0 }
        0 0 true 60).2.rtime = 15 ∧
    (waitx { table := [proc_zero, zombie_child 0 2 10 15 50], wtime := 0, rtime := 0 }
        0 0 true 60).2.wtime = 25 ∧
    ∃ j np, [proc_zero, zombie_child 0 2 10 15 50][j]? = some np ∧ np.parent = some 0 ∧
      np.state = procstate.ZOMBIE ∧ np.pid = 2 ∧
      (waitx { table := [proc_zero, zombie_child 0 2 10 15 50], wtime := 0, rtime := 0 }
        0 0 true 60).2.table = [proc_zero, zombie_child 0 2 10 15 50].set j (freeproc np) ∧
      (waitx { table := [proc_zero, zombie_child 0 2 10 15 50], wtime := 0, rtime := 0 }
        0 0 true 60).2.rtime = np.rtime % 2 ^ 32 ∧
      (np.rtime < 2 ^ 32 →
        (waitx { table := [proc_zero, zombie_child 0 2 10 15 50], wtime := 0, rtime := 0 }
          0 0 true 60).2.rtime = np.rtime) ∧
      ((waitx { table := [proc_zero, zombie_child 0 2 10 15 50], wtime := 0, rtime := 0 }
          0 0 true 60).2.rtime
        + (waitx { table := [proc_zero, zombie_child 0 2 10 15 50], wtime := 0, rtime := 0 }
          0 0 true 60).2.wtime) % 2 ^ 32
        = (np.etime + (2 ^ 32 - np.ctime % 2 ^ 32)) % 2 ^ 32 ∧
      (np.ctime ≤ np.etime → np.etime < 2 ^ 32 → np.rtime ≤ np.etime - np.ctime →
        (waitx { table := [proc_zero, zombie_child 0 2 10 15 50], wtime := 0, rtime := 0 }
          0 0 true 60).2.rtime
        + (waitx { table := [proc_zero, zombie_child 0 2 10 15 50], wtime := 0, rtime := 0 }
          0 0 true 60).2.wtime = np.etime - np.ctime) :=
  ⟨by decide, by decide,
    waitx_accounting { table := [proc_zero, zombie_child 0 2 10 15 50], wtime := 0, rtime := 0 }
      0 0 true 60 2 (by decide)⟩

/-! ## wait and waitx: reaping and the case of no children -/

theorem wait_scan_first_zombie (t : List proc) (me addr : Nat) (copyout_ok : Bool)
    (hok : addr = 0 ∨ copyout_ok = true)
    (rest : List proc) (i : Nat) (havekids : Bool)
    (hex : ∃ (j : Nat) (np : proc), rest[j]? = some np ∧ np.parent = some me ∧
      np.state = procstate.ZOMBIE) :
    ∃ (j : Nat) (np : proc), rest[j]? = some np ∧ np.parent = some me ∧ np.state = procstate.ZOMBIE ∧
      (∀ (k : Nat) (q : proc), k < j → rest[k]? = some q →
        ¬ (q.parent = some me ∧ q.state = procstate.ZOMBIE)) ∧
      wait_scan t me addr copyout_ok rest i havekids
        = (some (wait_result.pid np.pid, t.set (i + j) (freeproc np)), true) := by
  induction rest generalizing i havekids with
  | nil =>
    obtain ⟨j, np, h, _⟩ := hex
    simp at h
  | cons pp rest ih =>
    by_cases hz : pp.parent = some me ∧ pp.state = procstate.ZOMBIE
    · refine ⟨0, pp, by simp, hz.1, hz.2, ?_, ?_⟩
      · intro k q hk
        omega
      · have hcop : ¬ (addr ≠ 0 ∧ copyout_ok = false) := by
          rcases hok with h | h
          · simp [h]
          · simp [h]
        simp only [wait_scan, if_pos hz.1, if_pos hz.2, if_neg hcop, Nat.add_zero]
    · have hex1 : ∃ (j : Nat) (np : proc), rest[j]? = some np ∧ np.parent = some me ∧
          np.state = procstate.ZOMBIE := by
        obtain ⟨j, np, hj, hp, hs⟩ := hex
        cases j with
        | zero =>
          simp only [List.getElem?_cons_zero, Option.some.injEq] at hj
          subst hj
          exact absurd ⟨hp, hs⟩ hz
        | succ j =>
          simp only [List.getElem?_cons_succ] at hj
          exact ⟨j, np, hj, hp, hs⟩
      have hstep : ∀ hk1 : Bool, ∃ hk2 : Bool,
          wait_scan t me addr copyout_ok (pp :: rest) i hk1
            = wait_scan t me addr copyout_ok rest (i + 1) hk2 := by
        intro hk1
        by_cases hpar : pp.parent = some me
        · have hnz : ¬ pp.state = procstate.ZOMBIE := fun h => hz ⟨hpar, h⟩
          exact ⟨true, by simp only [wait_scan, if_pos hpar, if_neg hnz]⟩
        · exact ⟨hk1, by simp only [wait_scan, if_neg hpar]⟩
      obtain ⟨hk2, hk2eq⟩ := hstep havekids
      obtain ⟨j, np, hj, hp, hs, hfirst, hres⟩ := ih (i + 1) hk2 hex1
      refine ⟨j + 1, np, by simpa using hj, hp, hs, ?_, ?_⟩
      · intro k q hk hq
        cases k with
        | zero =>
          simp only [List.getElem?_cons_zero, Option.some.injEq] at hq
          subst hq
          exact hz
        | succ k =>
          simp only [List.getElem?_cons_succ] at hq
          exact hfirst k q (by omega) hq
      · rw [hk2eq, hres]
        have : i + 1 + j = i + (j + 1) := by omega
        rw [this]

theorem wait_scan_no_children (t : List proc) (me addr : Nat) (copyout_ok : Bool)
    (rest : List proc) (i : Nat) (havekids : Bool)
    (h : ∀ p ∈ rest, p.parent ≠ some me) :
    wait_scan t me addr copyout_ok rest i havekids = (none, havekids) := by
  induction rest generalizing i with
  | nil => rfl
  | cons pp rest ih =>
    have hpp : pp.parent ≠ some me := h pp (List.mem_cons_self _ _)
    simp only [wait_scan, if_neg hpp]
    exact ih (i + 1) (fun q hq => h q (List.mem_cons_of_mem _ hq))

theorem waitx_scan_no_children (t : List proc) (me addr : Nat) (copyout_ok : Bool)
    (rest : List proc) (i wtime rtime : Nat) (havekids : Bool)
    (h : ∀ p ∈ rest, p.parent ≠ some me) :
    waitx_scan t me addr copyout_ok rest i wtime rtime havekids
      = (none, wtime, rtime, havekids) := by
  induction rest generalizing i with
  | nil => rfl
  | cons pp rest ih =>
    have hpp : pp.parent ≠ some me := h pp (List.mem_cons_self _ _)
    simp only [waitx_scan, if_neg hpp]
    exact ih (i + 1) (fun q hq => h q (List.mem_cons_of_mem _ hq))

theorem freeproc_state (p : proc) : (freeproc p).state = procstate.UNUSED := rfl

theorem live_count_set_freeproc (t : List proc) (i : Nat) (np : proc)
    (hnp : t[i]? = some np) (hlive : np.state ≠ procstate.UNUSED) :
    live_count (t.set i (freeproc np)) + 1 = live_count t := by
  have hlen := lt_length_of_getElem? hnp
  have hget : t[i] = np := by
    rw [List.getElem?_eq_getElem hlen] at hnp
    exact Option.some.inj hnp
  unfold live_count
  rw [List.countP_set _ _ _ _ hlen]
  have hle := List.boole_getElem_le_countP
    (fun p => decide (p.state ≠ procstate.UNUSED)) t i hlen
  rw [hget] at hle ⊢
  have h1 : decide (np.state ≠ procstate.UNUSED) = true := by simpa using hlive
  have h2 : decide ((freeproc np).state ≠ procstate.UNUSED) = false := by
    simp [freeproc_state]
  simp only [h1, h2, if_true] at hle ⊢
  simp only [Bool.false_eq_true, if_false, Nat.add_zero]
  omega

/-- C11: the caller in slot `me` has a ZOMBIE child and `addr` is 0 or the
copy-out succeeds.  Then `wait` returns the pid of the first ZOMBIE child in
table order; the slot of that child becomes UNUSED, every other slot is left
as it was, and the number of slots that are not UNUSED decreases by exactly
one. -/
theorem wait_reaps_first_zombie (t : List proc) (me addr : Nat) (copyout_ok : Bool)
    (now : Nat) (hok : addr = 0 ∨ copyout_ok = true)
    (hz : ∃ (j : Nat) (np : proc), t[j]? = some np ∧ np.parent = some me ∧ np.state = procstate.ZOMBIE) :
    ∃ (i : Nat) (np : proc), t[i]? = some np ∧ np.parent = some me ∧ np.state = procstate.ZOMBIE ∧
      (∀ (k : Nat) (q : proc), k < i → t[k]? = some q →
        ¬ (q.parent = some me ∧ q.state = procstate.ZOMBIE)) ∧
      (wait t me addr copyout_ok now).1 = wait_result.pid np.pid ∧
      (∃ q, (wait t me addr copyout_ok now).2[i]? = some q ∧
        q.state = procstate.UNUSED) ∧
      (∀ j, j ≠ i → (wait t me addr copyout_ok now).2[j]? = t[j]?) ∧
      (wait t me addr copyout_ok now).2.length = t.length ∧
      live_count (wait t me addr copyout_ok now).2 + 1 = live_count t := by
  obtain ⟨i, np, hnp, hpar, hst, hfirst, hres⟩ :=
    wait_scan_first_zombie t me addr copyout_ok hok t 0 false hz
  have hw : wait t me addr copyout_ok now
      = (wait_result.pid np.pid, t.set i (freeproc np)) := by
    unfold wait
    rw [hres]
    simp
  have hlen := lt_length_of_getElem? hnp
  refine ⟨i, np, hnp, hpar, hst, hfirst, ?_⟩
  rw [hw]
  refine ⟨rfl, ⟨freeproc np, List.getElem?_set_self hlen, rfl⟩, ?_, ?_, ?_⟩
  · intro j hj
    simp only
    rw [List.getElem?_set_ne (Ne.symm hj)]
  · simp
  · exact live_count_set_freeproc t i np hnp (by rw [hst]; decide)

/-- C11 at a table of the caller, a RUNNABLE child and two ZOMBIE children
of pids 3 and 4: `wait(0)` returns 3. -/
theorem wait_reaps_first_zombie_witness :
    (wait [running_proc 1 60, { runnable_born 5 1 with parent := some 0, pid := 2 },
        zombie_child 0 3 10 15 50, zombie_child 0 4 10 15 50] 0 0 false 60).1
      = wait_result.pid 3 ∧
    ∃ (i : Nat) (np : proc),
      [running_proc 1 60, { runnable_born 5 1 with parent := some 0, pid := 2 },
        zombie_child 0 3 10 15 50, zombie_child 0 4 10 15 50][i]? = some np ∧
      np.parent = some 0 ∧ np.state = procstate.ZOMBIE ∧
      (∀ (k : Nat) (q : proc), k < i →
        [running_proc 1 60, { runnable_born 5 1 with parent := some 0, pid := 2 },
          zombie_child 0 3 10 15 50, zombie_child 0 4 10 15 50][k]? = some q →
        ¬ (q.parent = some 0 ∧ q.state = procstate.ZOMBIE)) ∧
      (wait [running_proc 1 60, { runnable_born 5 1 with parent := some 0, pid := 2 },
        zombie_child 0 3 10 15 50, zombie_child 0 4 10 15 50] 0 0 false 60).1
        = wait_result.pid np.pid ∧
      (∃ q, (wait [running_proc 1 60, { runnable_born 5 1 with parent := some 0, pid := 2 },
          zombie_child 0 3 10 15 50, zombie_child 0 4 10 15 50] 0 0 false 60).2[i]? = some q ∧
        q.state = procstate.UNUSED) ∧
      (∀ j, j ≠ i →
        (wait [running_proc 1 60, { runnable_born 5 1 with parent := some 0, pid := 2 },
          zombie_child 0 3 10 15 50, zombie_child 0 4 10 15 50] 0 0 false 60).2[j]?
        = [running_proc 1 60, { runnable_born 5 1 with parent := some 0, pid := 2 },
          zombie_child 0 3 10 15 50, zombie_child 0 4 10 15 50][j]?) ∧
      (wait [running_proc 1 60, { runnable_born 5 1 with parent := some 0, pid := 2 },
        zombie_child 0 3 10 15 50, zombie_child 0 4 10 15 50] 0 0 false 60).2.length
        = [running_proc 1 60, { runnable_born 5 1 with parent := some 0, pid := 2 },
          zombie_child 0 3 10 15 50, zombie_child 0 4 10 15 50].length ∧
      live_count
        (wait [running_proc 1 60, { runnable_born 5 1 with parent := some 0, pid := 2 },
          zombie_child 0 3 10 15 50, zombie_child 0 4 10 15 50] 0 0 false 60).2 + 1
        = live_count
          [running_proc 1 60, { runnable_born 5 1 with parent := some 0, pid := 2 },
            zombie_child 0 3 10 15 50, zombie_child 0 4 10 15 50] :=
  ⟨by decide,
    wait_reaps_first_zombie
      [running_proc 1 60, { runnable_born 5 1 with parent := some 0, pid := 2 },
        zombie_child 0 3 10 15 50, zombie_child 0 4 10 15 50] 0 0 false 60
      (Or.inl rfl) ⟨2, zombie_child 0 3 10 15 50, rfl, rfl, rfl⟩⟩

/-- C12: when no slot has the caller in slot `me` as its parent, one pass of
`wait` and of `waitx` ends by returning `-1`, not by going to sleep, and
leaves the table (and the cells `waitx` reports in) as they were. -/
theorem wait_no_children (t : List proc) (me addr : Nat) (copyout_ok : Bool)
    (now wtime rtime : Nat) (h : ∀ p ∈ t, p.parent ≠ some me) :
    wait t me addr copyout_ok now = (wait_result.fail, t) ∧
    waitx { table := t, wtime := wtime, rtime := rtime } me addr copyout_ok now
      = (wait_result.fail, { table := t, wtime := wtime, rtime := rtime }) := by
  constructor
  · unfold wait
    rw [wait_scan_no_children t me addr copyout_ok t 0 false h]
    simp
  · unfold waitx
    simp only
    rw [waitx_scan_no_children t me addr copyout_ok t 0 wtime rtime false h]
    simp

/-- C12 at a table holding the caller and a ZOMBIE whose parent is another
slot. -/
theorem wait_no_children_witness :
    wait [running_proc 1 60, zombie_child 5 3 10 15 50] 0 0 true 60
      = (wait_result.fail, [running_proc 1 60, zombie_child 5 3 10 15 50]) ∧
    waitx { table := [running_proc 1 60, zombie_child 5 3 10 15 50], wtime := 7, rtime := 8 }
        0 0 true 60
      = (wait_result.fail,
          { table := [running_proc 1 60, zombie_child 5 3 10 15 50], wtime := 7, rtime := 8 }) :=
  wait_no_children [running_proc 1 60, zombie_child 5 3 10 15 50] 0 0 true 60 7 8 (by decide)

/-! ## allocpid, allocproc and fork -/

theorem find_unused_some (l : List proc) (s i : Nat) (h : find_unused l s = some i) :
    ∃ (j : Nat) (p : proc), i = s + j ∧ l[j]? = some p ∧ p.state = procstate.UNUSED := by
  induction l generalizing s with
  | nil => simp [find_unused] at h
  | cons q qs ih =>
    by_cases hq : q.state = procstate.UNUSED
    · simp only [find_unused, if_pos hq, Option.some.injEq] at h
      exact ⟨0, q, by omega, by simp, hq⟩
    · simp only [find_unused, if_neg hq] at h
      obtain ⟨j, p, hj, hp, hs⟩ := ih (s + 1) h
      exact ⟨j + 1, p, by omega, by simpa using hp, hs⟩

/-- The slot `allocproc` returns when a slot is free and every allocation
succeeds. -/
theorem allocproc_success (k : kstate) (e : alloc_env) (i : Nat) (pslot : proc)
    (hi : find_unused k.table 0 = some i) (hslot : k.table[i]? = some pslot)
    (htfc : e.trapframe_copy_page ≠ none) (htf : e.trapframe_page ≠ none)
    (hpt : e.pagetable ≠ none) :
    allocproc k e =
      (some i,
        { table := k.table.set i
            { pslot with
              pid := k.nextpid
              state := procstate.USED
              trapframe_copy := e.trapframe_copy_page
              trapframe := e.trapframe_page
              pagetable := e.pagetable
              rtime := 0
              etime := 0
              ctime := e.ctime_now
              birth_time := e.birth_now
              num_tickets := 1
              static_priority := 60
              sleep_start := 0
              sleep_time := 0
              running_time := 0
              proc_queue := 0
              alarm_is_set := 0
              num_ticks := 0
              curr_ticks := 0
              sig_handler := 0 },
          nextpid := k.nextpid + 1 }) := by
  unfold allocproc
  simp only [hi, hslot, allocpid, if_neg htfc, if_neg htf, if_neg hpt]

/-- The value `fork` returns and the child it leaves when a slot is free,
every allocation succeeds and the user memory is copied. -/
theorem fork_success (k : kstate) (me : Nat) (e : alloc_env) (i : Nat)
    (p pslot : proc) (ptf : trapframe)
    (hp : k.table[me]? = some p) (hlive : p.state ≠ procstate.UNUSED)
    (hptf : p.trapframe = some ptf)
    (hi : find_unused k.table 0 = some i) (hslot : k.table[i]? = some pslot)
    (htfc : e.trapframe_copy_page ≠ none) (htf : e.trapframe_page ≠ none)
    (hpt : e.pagetable ≠ none) (hcopy : e.uvmcopy_ok = true) :
    ∃ np : proc, fork k me e =
        some (np.pid, { table := k.table.set i np, nextpid := k.nextpid + 1 }) ∧
      np =
            { pslot with
              pid := k.nextpid
              state := procstate.RUNNABLE
              parent := some me
              sz := p.sz
              trapframe_copy := e.trapframe_copy_page
              trapframe := some { ptf with a0 := 0 }
              pagetable := e.pagetable
              ofile := fork_ofile p.ofile pslot.ofile
              cwd := p.cwd
              name := p.name
              strace_bit := p.strace_bit
              rtime := 0
              etime := 0
              ctime := e.ctime_now
              birth_time := p.birth_time
              num_tickets := 1
              static_priority := p.static_priority
              dynamic_priority := p.dynamic_priority
              sleep_start := 0
              sleep_time := p.sleep_time
              running_time := p.running_time
              proc_queue := 0
              alarm_is_set := 0
              num_ticks := 0
              curr_ticks := 0
              sig_handler := 0 } := by
  have hne : i ≠ me := by
    intro h
    subst h
    obtain ⟨j, q, hj, hq, hs⟩ := find_unused_some k.table 0 i hi
    have : j = i := by omega
    subst this
    rw [hp] at hq
    cases hq
    exact hlive hs
  have hilen := lt_length_of_getElem? hslot
  obtain ⟨tfp, htfp⟩ := Option.ne_none_iff_exists'.mp htf
  refine ⟨_, ?_, rfl⟩
  unfold fork
  rw [allocproc_success k e i pslot hi hslot htfc htf hpt]
  simp only [List.getElem?_set_ne hne, hp, List.getElem?_set_self hilen, hcopy,
    Bool.true_eq_false, if_false, hptf, htfp, List.set_set]

theorem allocproc_some (k : kstate) (e : alloc_env) (i : Nat)
    (h : (allocproc k e).1 = some i) :
    ∃ p, (allocproc k e).2.table[i]? = some p ∧ p.pid = (allocpid k.nextpid).1 ∧
      p.state = procstate.USED ∧
      (allocproc k e).2.nextpid = (allocpid k.nextpid).2 := by
  cases hf : find_unused k.table 0 with
  | none =>
    have hnone : (allocproc k e).1 = none := by simp only [allocproc, hf]
    rw [hnone] at h
    cases h
  | some j =>
    cases hs : k.table[j]? with
    | none =>
      have hnone : (allocproc k e).1 = none := by simp only [allocproc, hf, hs]
      rw [hnone] at h
      cases h
    | some q =>
      have hjlen := lt_length_of_getElem? hs
      by_cases h1 : e.trapframe_copy_page = none
      · have hnone : (allocproc k e).1 = none := by
          simp only [allocproc, hf, hs, if_pos h1]
        rw [hnone] at h
        cases h
      · by_cases h2 : e.trapframe_page = none
        · have hnone : (allocproc k e).1 = none := by
            simp only [allocproc, hf, hs, if_neg h1, if_pos h2]
          rw [hnone] at h
          cases h
        · by_cases h3 : e.pagetable = none
          · have hnone : (allocproc k e).1 = none := by
              simp only [allocproc, hf, hs, if_neg h1, if_neg h2, if_pos h3]
            rw [hnone] at h
            cases h
          · rw [allocproc_success k e j q hf hs h1 h2 h3] at h ⊢
            simp only [Option.some.injEq] at h
            subst h
            exact ⟨_, List.getElem?_set_self hjlen, rfl, rfl, rfl⟩

theorem allocpid_seq_spec (n : Nat) (s : Int) :
    (allocpid_seq n s).1.Pairwise (· < ·) ∧
    (∀ x ∈ (allocpid_seq n s).1, s ≤ x) ∧
    (∀ i, i < n → (allocpid_seq n s).1[i]? = some (s + (i : Int))) ∧
    (allocpid_seq n s).2 = s + (n : Int) := by
  induction n generalizing s with
  | zero =>
    simp [allocpid_seq]
  | succ n ih =>
    obtain ⟨hpw, hge, hidx, hnext⟩ := ih (s + 1)
    simp only [allocpid_seq, allocpid]
    refine ⟨?_, ?_, ?_, ?_⟩
    · rw [List.pairwise_cons]
      refine ⟨?_, hpw⟩
      intro x hx
      have := hge x hx
      omega
    · intro x hx
      rw [List.mem_cons] at hx
      rcases hx with hx | hx
      · omega
      · have := hge x hx
        omega
    · intro i hi
      cases i with
      | zero => simp
      | succ i =>
        simp only [List.getElem?_cons_succ]
        rw [hidx i (by omega)]
        congr 1
        push_cast
        omega
    · rw [hnext]
      push_cast
      omega

/-- C13, the code at a fork: a parent holding 5 tickets, with static
priority 70, dynamic priority 55 and sleep time 3, forks into the free slot 1.
The child gets the parent's static priority, dynamic priority, sleep time and
running time, but 1 ticket, the default of `allocproc`: the assignment
`np->num_tickets = np->num_tickets` copies nothing. -/
theorem fork_child_tickets_not_parent :
    (running_proc 5 70).num_tickets = 5 ∧
    (fork { table := [running_proc 5 70, proc_zero], nextpid := 2 } 0 env_ok).map
        (fun r => r.1) = some 2 ∧
    (fork_slot { table := [running_proc 5 70, proc_zero], nextpid := 2 } 0 env_ok 1).map
        (fun c => c.num_tickets) = some 1 ∧
    (fork_slot { table := [running_proc 5 70, proc_zero], nextpid := 2 } 0 env_ok 1).map
        (fun c => c.static_priority) = some (running_proc 5 70).static_priority ∧
    (fork_slot { table := [running_proc 5 70, proc_zero], nextpid := 2 } 0 env_ok 1).map
        (fun c => c.dynamic_priority) = some (running_proc 5 70).dynamic_priority ∧
    (fork_slot { table := [running_proc 5 70, proc_zero], nextpid := 2 } 0 env_ok 1).map
        (fun c => c.sleep_time) = some (running_proc 5 70).sleep_time ∧
    (fork_slot { table := [running_proc 5 70, proc_zero], nextpid := 2 } 0 env_ok 1).map
        (fun c => c.running_time) = some (running_proc 5 70).running_time := by
  decide

/-- C14: the caller in slot `me` is live and has a trapframe, slot `i` is the
first UNUSED slot, the three allocations of `allocproc` succeed and `uvmcopy`
succeeds.  Then `fork` returns the pid of the PCB it leaves in slot `i`, and
that PCB is RUNNABLE, has the caller as parent, the caller's `sz`, and the
caller's trapframe with `a0` set to 0; no other slot is changed. -/
theorem fork_returns_child (k : kstate) (me : Nat) (e : alloc_env) (i : Nat)
    (p : proc) (ptf : trapframe)
    (hp : k.table[me]? = some p) (hlive : p.state ≠ procstate.UNUSED)
    (hptf : p.trapframe = some ptf)
    (hi : find_unused k.table 0 = some i)
    (htfc : e.trapframe_copy_page ≠ none) (htf : e.trapframe_page ≠ none)
    (hpt : e.pagetable ≠ none) (hcopy : e.uvmcopy_ok = true) :
    ∃ (k2 : kstate) (np : proc), fork k me e = some (np.pid, k2) ∧
      k2.table[i]? = some np ∧
      np.state = procstate.RUNNABLE ∧ np.parent = some me ∧ np.sz = p.sz ∧
      np.trapframe = some { ptf with a0 := 0 } ∧
      (∀ j, j ≠ i → k2.table[j]? = k.table[j]?) := by
  obtain ⟨j, pslot, hj, hslot, _⟩ := find_unused_some k.table 0 i hi
  have hji : j = i := by omega
  subst hji
  have hlen := lt_length_of_getElem? hslot
  obtain ⟨np, hfork, hnp⟩ :=
    fork_success k me e j p pslot ptf hp hlive hptf hi hslot htfc htf hpt hcopy
  refine ⟨_, np, hfork, List.getElem?_set_self hlen, ?_, ?_, ?_, ?_, ?_⟩
  · rw [hnp]
  · rw [hnp]
  · rw [hnp]
  · rw [hnp]
  · intro j2 hj2
    simp only
    rw [List.getElem?_set_ne (Ne.symm hj2)]

/-- C14 at a table of a running process of pid 1 and a free slot, with
`nextpid = 2`. -/
theorem fork_returns_child_witness :
    ∃ (k2 : kstate) (np : proc),
      fork { table := [running_proc 5 70, proc_zero], nextpid := 2 } 0 env_ok
        = some (np.pid, k2) ∧
      k2.table[1]? = some np ∧
      np.state = procstate.RUNNABLE ∧ np.parent = some 0 ∧
      np.sz = (running_proc 5 70).sz ∧
      np.trapframe = some { ({ trapframe_zero with epc := 64, a0 := 9, sp := 4096 } :
        trapframe) with a0 := 0 } ∧
      (∀ j, j ≠ 1 → k2.table[j]? = [running_proc 5 70, proc_zero][j]?) :=
  fork_returns_child { table := [running_proc 5 70, proc_zero], nextpid := 2 } 0 env_ok 1
    (running_proc 5 70) { trapframe_zero with epc := 64, a0 := 9, sp := 4096 }
    rfl (by decide) rfl rfl (by decide) (by decide) (by decide) rfl

/-- C19: the pids issued by `n` successive calls of `allocpid` starting from
`nextpid = 1` are `1, 2, .., n` in issue order: strictly increasing, hence
without repetition.  Every slot `allocproc` returns carries the pid issued by
its one call of `allocpid`, which advances `nextpid`. -/
theorem allocpid_strictly_increasing (n : Nat) :
    (allocpid_seq n 1).1.Pairwise (· < ·) ∧
    (allocpid_seq n 1).1.Nodup ∧
    (allocpid_seq n 1).1.length = n ∧
    (∀ i, i < n → (allocpid_seq n 1).1[i]? = some ((i : Int) + 1)) ∧
    (∀ (k : kstate) (e : alloc_env) (i : Nat), (allocproc k e).1 = some i →
      ∃ p, (allocproc k e).2.table[i]? = some p ∧ p.pid = (allocpid k.nextpid).1 ∧
        (allocproc k e).2.nextpid = (allocpid k.nextpid).2 ∧
        (allocpid k.nextpid).1 < (allocpid k.nextpid).2) := by
  obtain ⟨hpw, _, hidx, _⟩ := allocpid_seq_spec n 1
  refine ⟨hpw, ?_, ?_, ?_, ?_⟩
  · exact hpw.imp (fun h => ne_of_lt h)
  · have hlen : ∀ (m : Nat) (s : Int), (allocpid_seq m s).1.length = m := by
      intro m
      induction m with
      | zero => intro s; rfl
      | succ m ih => intro s; simp [allocpid_seq, ih]
    exact hlen n 1
  · intro i hi
    rw [hidx i hi]
    congr 1
    omega
  · intro k e i h
    obtain ⟨p, hp, hpid, _, hnext⟩ := allocproc_some k e i h
    refine ⟨p, hp, hpid, hnext, ?_⟩
    simp only [allocpid]
    omega

/-- C19 at three calls of `allocpid` and at an `allocproc` into the free slot
of a table with `nextpid = 2`. -/
theorem allocpid_strictly_increasing_witness :
    (allocpid_seq 3 1).1 = [1, 2, 3] ∧
    ∃ p, (allocproc { table := [running_proc 5 70, proc_zero], nextpid := 2 } env_ok).2.table[1]?
        = some p ∧
      p.pid = (allocpid 2).1 ∧
      (allocproc { table := [running_proc 5 70, proc_zero], nextpid := 2 } env_ok).2.nextpid
        = (allocpid 2).2 ∧
      (allocpid 2).1 < (allocpid 2).2 :=
  ⟨by decide,
    (allocpid_strictly_increasing 3).2.2.2.2
      { table := [running_proc 5 70, proc_zero], nextpid := 2 } env_ok 1 (by decide)⟩

/-! ## The alarm -/

theorem save_trapframe_eq (tc tf : trapframe) : save_trapframe tc tf = tf := by
  cases tf
  rfl

/-- The bookkeeping of a tick on which the alarm fires. -/
theorem usertrap_alarm_fire (p : proc) (tf tc : trapframe)
    (htf : p.trapframe = some tf) (htc : p.trapframe_copy = some tc)
    (hset : p.alarm_is_set = 0)
    (hge : p.curr_ticks + 1 ≥ p.num_ticks) (hpos : p.num_ticks > 0) :
    usertrap_alarm p =
      some { p with trapframe_copy := some tf,
                    trapframe := some { tf with epc := p.sig_handler },
                    alarm_is_set := 1, curr_ticks := 0 } := by
  unfold usertrap_alarm
  simp only [hset, if_true, hge, hpos, and_self, htf, htc, save_trapframe_eq]

/-- The bookkeeping of a tick on which the alarm does not fire. -/
theorem usertrap_alarm_quiet (p : proc)
    (h : p.alarm_is_set ≠ 0 ∨ p.curr_ticks + 1 < p.num_ticks ∨ p.num_ticks ≤ 0) :
    usertrap_alarm p = some { p with curr_ticks := p.curr_ticks + 1 } := by
  unfold usertrap_alarm
  by_cases hset : p.alarm_is_set = 0
  · have hcond : ¬ (p.curr_ticks + 1 ≥ p.num_ticks ∧ p.num_ticks > 0) := by
      rcases h with h | h | h
      · exact absurd hset h
      · intro hc; omega
      · intro hc; omega
    simp only [hset, if_true, if_neg hcond]
  · simp only [if_neg hset]

theorem usertrap_alarm_seq_append (p : proc) (l1 l2 : List trapframe) :
    usertrap_alarm_seq p (l1 ++ l2)
      = (usertrap_alarm_seq p l1).bind (fun q => usertrap_alarm_seq q l2) := by
  induction l1 generalizing p with
  | nil => rfl
  | cons tf l1 ih =>
    simp only [List.cons_append, usertrap_alarm_seq]
    cases usertrap_alarm { p with trapframe := some tf } with
    | none => rfl
    | some p1 => exact ih p1

/-- The ticks before the alarm is due: only `curr_ticks` moves, and the
trapframe is the one the last tick found. -/
theorem usertrap_alarm_seq_quiet (tfs : List trapframe) (p : proc)
    (hset : p.alarm_is_set = 0)
    (hlt : p.curr_ticks + (tfs.length : Int) < p.num_ticks) :
    usertrap_alarm_seq p tfs =
      some { p with curr_ticks := p.curr_ticks + (tfs.length : Int),
                    trapframe := match tfs.getLast? with
                      | none => p.trapframe
                      | some tf => some tf } := by
  induction tfs generalizing p with
  | nil => simp [usertrap_alarm_seq]
  | cons tf tfs ih =>
    simp only [List.length_cons, Nat.cast_add, Nat.cast_one] at hlt
    simp only [usertrap_alarm_seq]
    rw [usertrap_alarm_quiet { p with trapframe := some tf }
      (Or.inr (Or.inl (by simp only; omega)))]
    simp only
    rw [ih { p with trapframe := some tf, curr_ticks := p.curr_ticks + 1 } hset
      (by simp only; omega)]
    simp only [List.length_cons, Nat.cast_add, Nat.cast_one]
    congr 1
    have hl : (match tfs.getLast? with
        | none => some tf
        | some tf2 => some tf2) = (match (tf :: tfs).getLast? with
        | none => p.trapframe
        | some tf2 => some tf2) := by
      cases tfs with
      | nil => rfl
      | cons a l =>
        rw [List.getLast?_cons_cons]
        cases hgl : (a :: l).getLast? with
        | none => simp at hgl
        | some x => rfl
    rw [← hl]
    congr 1
    omega

/-- C15: for a PCB with `alarm_is_set = 0` whose `curr_ticks`, once
incremented, is at least `num_ticks > 0`, the alarm bookkeeping of a timer
tick leaves in `trapframe_copy` the trapframe as it was, changes the trapframe
in `epc` only, which becomes `sig_handler`, and sets `alarm_is_set = 1` and
`curr_ticks = 0`; nothing else in the PCB changes. -/
theorem alarm_snapshot (p : proc) (tf tc : trapframe)
    (htf : p.trapframe = some tf) (htc : p.trapframe_copy = some tc)
    (hset : p.alarm_is_set = 0)
    (hge : p.curr_ticks + 1 ≥ p.num_ticks) (hpos : p.num_ticks > 0) :
    ∃ q, usertrap_alarm p = some q ∧
      q.trapframe_copy = some tf ∧
      q.trapframe = some { tf with epc := p.sig_handler } ∧
      q.alarm_is_set = 1 ∧ q.curr_ticks = 0 ∧
      q = { p with trapframe_copy := q.trapframe_copy, trapframe := q.trapframe,
                   alarm_is_set := q.alarm_is_set, curr_ticks := q.curr_ticks } :=
  ⟨_, usertrap_alarm_fire p tf tc htf htc hset hge hpos, rfl, rfl, rfl, rfl, rfl⟩

/-- C15 at a process with an alarm of period 4 whose handler is at 777, on
its fourth tick. -/
theorem alarm_snapshot_witness :
    ∃ q, usertrap_alarm { running_proc 1 60 with num_ticks := 4, curr_ticks := 3,
                                                 sig_handler := 777 } = some q ∧
      q.trapframe_copy = some { trapframe_zero with epc := 64, a0 := 9, sp := 4096 } ∧
      q.trapframe = some { ({ trapframe_zero with epc := 64, a0 := 9, sp := 4096 } :
        trapframe) with
        epc := ({ running_proc 1 60 with num_ticks := 4, curr_ticks := 3,
                                         sig_handler := 777 } : proc).sig_handler } ∧
      q.alarm_is_set = 1 ∧ q.curr_ticks = 0 ∧
      q = { ({ running_proc 1 60 with num_ticks := 4, curr_ticks := 3,
                                      sig_handler := 777 } : proc) with
            trapframe_copy := q.trapframe_copy, trapframe := q.trapframe,
            alarm_is_set := q.alarm_is_set, curr_ticks := q.curr_ticks } :=
  alarm_snapshot { running_proc 1 60 with num_ticks := 4, curr_ticks := 3, sig_handler := 777 }
    { trapframe_zero with epc := 64, a0 := 9, sp := 4096 } trapframe_zero
    rfl rfl rfl (by decide) (by decide)

/-- C16: a process with `alarm_is_set = 0` and a trapframe copy calls
`sys_sigalarm(n, H)` with `n > 0`, then takes timer ticks in user mode, the
list giving the trapframe each tick finds.  While fewer than `n` ticks have
been taken, the bookkeeping has left the trapframe as the last tick found it
and `alarm_is_set` at 0; the `n`-th tick sets the `epc` of the trapframe it
finds to `H`. -/
theorem sigalarm_fires_on_nth_tick (p : proc) (n : Int) (H : Nat) (tc : trapframe)
    (hn : 0 < n) (hset : p.alarm_is_set = 0) (htc : p.trapframe_copy = some tc)
    (tfs : List trapframe) (tf : trapframe) :
    ((tfs.length : Int) + 1 < n →
      ∃ q, usertrap_alarm_seq (sys_sigalarm p n H).1 (tfs ++ [tf]) = some q ∧
        q.trapframe = some tf ∧ q.alarm_is_set = 0 ∧
        q.curr_ticks = (tfs.length : Int) + 1) ∧
    ((tfs.length : Int) + 1 = n →
      ∃ q, usertrap_alarm_seq (sys_sigalarm p n H).1 (tfs ++ [tf]) = some q ∧
        q.trapframe = some { tf with epc := H } ∧ q.alarm_is_set = 1 ∧
        q.trapframe_copy = some tf ∧ q.curr_ticks = 0) := by
  have h0set : (sys_sigalarm p n H).1.alarm_is_set = 0 := hset
  constructor
  · intro hlt
    have hq := usertrap_alarm_seq_quiet (tfs ++ [tf]) (sys_sigalarm p n H).1 h0set
      (by simp only [sys_sigalarm, List.length_append, List.length_singleton,
            Nat.cast_add, Nat.cast_one]; omega)
    refine ⟨_, hq, ?_, h0set, ?_⟩
    · simp
    · simp only [sys_sigalarm, List.length_append, List.length_singleton,
        Nat.cast_add, Nat.cast_one]
      omega
  · intro heq
    rw [usertrap_alarm_seq_append]
    rw [usertrap_alarm_seq_quiet tfs (sys_sigalarm p n H).1 h0set
      (by simp only [sys_sigalarm]; omega)]
    simp only [Option.some_bind, usertrap_alarm_seq]
    rw [usertrap_alarm_fire
      { (sys_sigalarm p n H).1 with
        curr_ticks := (sys_sigalarm p n H).1.curr_ticks + (tfs.length : Int),
        trapframe := some tf } tf tc rfl htc hset
      (by simp only [sys_sigalarm]; omega) (by simp only [sys_sigalarm]; omega)]
    exact ⟨_, rfl, rfl, rfl, rfl, rfl⟩

/-- C16 at `sigalarm(4, 777)`: the third tick leaves the trapframe, the
fourth sets its `epc` to 777. -/
theorem sigalarm_fires_on_nth_tick_witness :
    (∃ q, usertrap_alarm_seq (sys_sigalarm (running_proc 1 60) 4 777).1
          ([trapframe_zero, trapframe_zero] ++ [{ trapframe_zero with epc := 64 }]) = some q ∧
        q.trapframe = some { trapframe_zero with epc := 64 } ∧ q.alarm_is_set = 0 ∧
        q.curr_ticks = (([trapframe_zero, trapframe_zero] : List trapframe).length : Int) + 1) ∧
    (∃ q, usertrap_alarm_seq (sys_sigalarm (running_proc 1 60) 4 777).1
          ([trapframe_zero, trapframe_zero, trapframe_zero]
            ++ [{ trapframe_zero with epc := 64 }]) = some q ∧
        q.trapframe = some { ({ trapframe_zero with epc := 64 } : trapframe) with epc := 777 } ∧
        q.alarm_is_set = 1 ∧
        q.trapframe_copy = some { trapframe_zero with epc := 64 } ∧ q.curr_ticks = 0) :=
  ⟨(sigalarm_fires_on_nth_tick (running_proc 1 60) 4 777 trapframe_zero (by decide) rfl rfl
      [trapframe_zero, trapframe_zero] { trapframe_zero with epc := 64 }).1 (by decide),
   (sigalarm_fires_on_nth_tick (running_proc 1 60) 4 777 trapframe_zero (by decide) rfl rfl
      [trapframe_zero, trapframe_zero, trapframe_zero] { trapframe_zero with epc := 64 }).2
      (by decide)⟩

/-- C17: for a PCB with `alarm_is_set` not 0, whatever `curr_ticks` and
`num_ticks` are, the alarm bookkeeping of a timer tick only increments
`curr_ticks`: the trapframe with its `epc`, the trapframe copy and
`alarm_is_set` are left as they were. -/
theorem alarm_guard (p : proc) (h : p.alarm_is_set ≠ 0) :
    usertrap_alarm p = some { p with curr_ticks := p.curr_ticks + 1 } ∧
    ∃ q, usertrap_alarm p = some q ∧ q.trapframe = p.trapframe ∧
      q.trapframe_copy = p.trapframe_copy ∧ q.alarm_is_set = p.alarm_is_set ∧
      q.curr_ticks = p.curr_ticks + 1 :=
  ⟨usertrap_alarm_quiet p (Or.inl h),
    _, usertrap_alarm_quiet p (Or.inl h), rfl, rfl, rfl, rfl⟩

/-- C17 at a process inside its handler, with an alarm of period 4 and 9
ticks counted. -/
theorem alarm_guard_witness :
    usertrap_alarm { running_proc 1 60 with alarm_is_set := 1, num_ticks := 4,
                                            curr_ticks := 9, sig_handler := 777 }
      = some { running_proc 1 60 with alarm_is_set := 1, num_ticks := 4,
                                      curr_ticks := 10, sig_handler := 777 } :=
  (alarm_guard { running_proc 1 60 with alarm_is_set := 1, num_ticks := 4,
                                        curr_ticks := 9, sig_handler := 777 } (by decide)).1

/-! ## set_priority -/

theorem set_priority_find_none (pid : Int) (l : List proc) (s : Nat)
    (h : ∀ p ∈ l, p.pid ≠ pid) : set_priority_find pid l s = none := by
  induction l generalizing s with
  | nil => rfl
  | cons q qs ih =>
    have hq : ¬ pid = q.pid := fun e => h q (List.mem_cons_self _ _) e.symm
    simp only [set_priority_find, if_neg hq]
    exact ih (s + 1) (fun r hr => h r (List.mem_cons_of_mem _ hr))

theorem set_priority_find_first (pid : Int) (l : List proc) (s i : Nat) (p : proc)
    (hp : l[i]? = some p) (hpid : p.pid = pid)
    (hfirst : ∀ (j : Nat) (q : proc), j < i → l[j]? = some q → q.pid ≠ pid) :
    set_priority_find pid l s = some (s + i) := by
  induction l generalizing s i with
  | nil => simp at hp
  | cons q qs ih =>
    cases i with
    | zero =>
      simp only [List.getElem?_cons_zero, Option.some.injEq] at hp
      subst hp
      simp only [set_priority_find, hpid, if_true, Nat.add_zero]
    | succ i =>
      simp only [List.getElem?_cons_succ] at hp
      have hq : ¬ pid = q.pid := fun e => hfirst 0 q (Nat.succ_pos _) (by simp) e.symm
      simp only [set_priority_find, if_neg hq]
      rw [ih (s + 1) i hp (fun j r hj hr => hfirst (j + 1) r (by omega) (by simpa using hr))]
      congr 1
      omega

theorem yield_getElem? (t : List proc) (me j : Nat) :
    (yield t me)[j]? =
      (t[j]?).map (fun r => if j = me then { r with state := procstate.RUNNABLE } else r) := by
  unfold yield
  cases hme : t[me]? with
  | none =>
    simp only
    cases hj : t[j]? with
    | none => rfl
    | some r =>
      have hne : j ≠ me := by
        intro e
        subst e
        rw [hme] at hj
        cases hj
      simp [hne]
  | some p =>
    simp only
    rw [List.getElem?_set]
    by_cases hjm : me = j
    · subst hjm
      simp [lt_length_of_getElem? hme, hme]
    · have hne : j ≠ me := fun e => hjm e.symm
      simp only [hjm, if_false]
      cases hj : t[j]? with
      | none => rfl
      | some r => simp [hne]

/-- The final `yield` of `set_priority` changes no priority. -/
theorem yield_priorities (t : List proc) (me j : Nat) (r : proc) (hr : t[j]? = some r) :
    ∃ r2, (yield t me)[j]? = some r2 ∧ r2.static_priority = r.static_priority ∧
      r2.dynamic_priority = r.dynamic_priority := by
  rw [yield_getElem?, hr]
  by_cases hjm : j = me
  · exact ⟨{ r with state := procstate.RUNNABLE },
      by simp only [Option.map_some', if_pos hjm], rfl, rfl⟩
  · exact ⟨r, by simp only [Option.map_some', if_neg hjm], rfl, rfl⟩

/-- C18: for a pid carried by slot `i` and by no slot before it (pids are
unique), `set_priority(new, pid)` returns the static priority that slot had,
leaves it with `static_priority = new` and `dynamic_priority` equal to
`calcDP` of the updated PCB, and changes the static and dynamic priority of
no other slot.  For a pid carried by no slot it returns `-1` and changes no
priority. -/
theorem set_priority_updates (t : List proc) (me : Nat) (new_priority pid : Int) :
    (∀ (i : Nat) (p : proc), t[i]? = some p → p.pid = pid →
      (∀ (j : Nat) (q : proc), j < i → t[j]? = some q → q.pid ≠ pid) →
      (set_priority t me new_priority pid).2 = p.static_priority ∧
      (∃ q, (set_priority t me new_priority pid).1[i]? = some q ∧
        q.static_priority = new_priority ∧
        q.dynamic_priority = calcDP q ∧
        q.dynamic_priority = calcDP { p with static_priority := new_priority }) ∧
      (∀ (j : Nat) (r : proc), j ≠ i → t[j]? = some r →
        ∃ r2, (set_priority t me new_priority pid).1[j]? = some r2 ∧
          r2.static_priority = r.static_priority ∧
          r2.dynamic_priority = r.dynamic_priority)) ∧
    ((∀ p ∈ t, p.pid ≠ pid) →
      (set_priority t me new_priority pid).2 = -1 ∧
      (∀ (j : Nat) (r : proc), t[j]? = some r →
        ∃ r2, (set_priority t me new_priority pid).1[j]? = some r2 ∧
          r2.static_priority = r.static_priority ∧
          r2.dynamic_priority = r.dynamic_priority)) := by
  constructor
  · intro i p hp hpid hfirst
    have hfind := set_priority_find_first pid t 0 i p hp hpid hfirst
    rw [Nat.zero_add] at hfind
    have hlen := lt_length_of_getElem? hp
    have hsp : set_priority t me new_priority pid =
        (yield (t.set i { p with static_priority := new_priority,
                                 dynamic_priority :=
                                   calcDP { p with static_priority := new_priority } }) me,
          p.static_priority) := by
      unfold set_priority
      simp only [hfind, hp]
    rw [hsp]
    refine ⟨rfl, ?_, ?_⟩
    · obtain ⟨r2, hr2, hs, hd⟩ := yield_priorities
        (t.set i { p with static_priority := new_priority,
                          dynamic_priority :=
                            calcDP { p with static_priority := new_priority } })
        me i _ (List.getElem?_set_self hlen)
      refine ⟨r2, hr2, hs, ?_, hd⟩
      rw [hd]
      unfold calcDP
      rw [yield_getElem?, List.getElem?_set_self hlen] at hr2
      simp only [Option.map_some', Option.some.injEq] at hr2
      subst hr2
      split <;> rfl
    · intro j r hj hr
      exact yield_priorities _ me j r (by rw [List.getElem?_set_ne (Ne.symm hj)]; exact hr)
  · intro hnone
    have hfind := set_priority_find_none pid t 0 hnone
    have hsp : set_priority t me new_priority pid = (yield t me, -1) := by
      unfold set_priority
      simp only [hfind]
    rw [hsp]
    exact ⟨rfl, fun j r hr => yield_priorities t me j r hr⟩

/-- C18 at a table of the caller, of pid 1, and a RUNNABLE process of pid 2
and static priority 40: `set_priority(80, 2)` and `set_priority(80, 9)`. -/
theorem set_priority_updates_witness :
    (set_priority [running_proc 1 60, { runnable_with 40 0 1 with pid := 2 }] 0 80 2).2 = 40 ∧
    (set_priority [running_proc 1 60, { runnable_with 40 0 1 with pid := 2 }] 0 80 2).1[1]?
      = some { runnable_with 80 0 1 with pid := 2, dynamic_priority := 85 } ∧
    (set_priority [running_proc 1 60, { runnable_with 40 0 1 with pid := 2 }] 0 80 9).2 = -1 ∧
    (∀ (j : Nat) (r : proc),
      [running_proc 1 60, { runnable_with 40 0 1 with pid := 2 }][j]? = some r →
      ∃ r2, (set_priority [running_proc 1 60, { runnable_with 40 0 1 with pid := 2 }]
          0 80 9).1[j]? = some r2 ∧
        r2.static_priority = r.static_priority ∧
        r2.dynamic_priority = r.dynamic_priority) :=
  ⟨((set_priority_updates [running_proc 1 60, { runnable_with 40 0 1 with pid := 2 }] 0 80 2).1
      1 { runnable_with 40 0 1 with pid := 2 } rfl rfl
      (by
        intro j q hj hq
        have hj0 : j = 0 := by omega
        subst hj0
        simp only [List.getElem?_cons_zero, Option.some.injEq] at hq
        subst hq
        decide)).1,
   by decide,
   ((set_priority_updates [running_proc 1 60, { runnable_with 40 0 1 with pid := 2 }] 0 80 9).2
      (by decide)).1,
   ((set_priority_updates [running_proc 1 60, { runnable_with 40 0 1 with pid := 2 }] 0 80 9).2
      (by decide)).2⟩

/-! ## freeproc -/

/-- C20, the code: `freeproc` makes the slot UNUSED with null `trapframe`
and `pagetable` and with `pid`, `parent`, `chan`, `killed`, `xstate` and `sz`
reset, but it leaves `trapframe_copy` as it was: the page is freed and the
pointer is not reset.  A process holding a trapframe copy keeps a pointer
that is not null. -/
theorem freeproc_keeps_trapframe_copy :
    (∀ p : proc, (freeproc p).trapframe_copy = p.trapframe_copy ∧
      (freeproc p).state = procstate.UNUSED ∧ (freeproc p).trapframe = none ∧
      (freeproc p).pagetable = none ∧ (freeproc p).pid = 0 ∧
      (freeproc p).parent = none ∧ (freeproc p).chan = 0 ∧ (freeproc p).killed = 0 ∧
      (freeproc p).xstate = 0 ∧ (freeproc p).sz = 0) ∧
    (running_proc 1 60).trapframe_copy = some trapframe_zero ∧
    (freeproc (running_proc 1 60)).trapframe_copy = some trapframe_zero ∧
    (freeproc (running_proc 1 60)).trapframe_copy ≠ none :=
  ⟨fun _ => ⟨rfl, rfl, rfl, rfl, rfl, rfl, rfl, rfl, rfl, rfl⟩, rfl, rfl, by decide⟩

/-! ## calcDP: range -/

theorem calcDP_range (p : proc) : 0 ≤ calcDP p ∧ calcDP p ≤ 100 := by
  unfold calcDP
  simp only
  split_ifs <;> omega

/-- C25: `calcDP` returns a value between 0 and 100 inclusive for every PCB,
whatever its static priority; in particular for every PCB with non-negative
`sleep_time` and `running_time`. -/
theorem calcDP_bounds (p : proc) :
    (0 ≤ calcDP p ∧ calcDP p ≤ 100) ∧
    (0 ≤ p.sleep_time → 0 ≤ p.running_time → 0 ≤ calcDP p ∧ calcDP p ≤ 100) :=
  ⟨calcDP_range p, fun _ _ => calcDP_range p⟩

/-- C25 at static priority 250 with three ticks of sleep and one of running:
the value is cut to 100. -/
theorem calcDP_bounds_witness :
    calcDP (runnable_with 250 3 1) = 100 ∧
    0 ≤ calcDP (runnable_with 250 3 1) ∧ calcDP (runnable_with 250 3 1) ≤ 100 :=
  ⟨by decide, (calcDP_bounds (runnable_with 250 3 1)).2 (by decide) (by decide)⟩

/-! ## Clock ticks -/

theorem update_time_getElem? (t : List proc) (j : Nat) :
    (update_time t)[j]? =
      (t[j]?).map (fun p =>
        if p.state = procstate.RUNNING then { p with rtime := p.rtime + 1 } else p) := by
  induction t generalizing j with
  | nil => simp [update_time]
  | cons p ps ih =>
    cases j with
    | zero => simp [update_time]
    | succ j => simp only [update_time, List.getElem?_cons_succ]; exact ih j

theorem update_time_length (t : List proc) : (update_time t).length = t.length := by
  induction t with
  | nil => rfl
  | cons p ps ih => simp [update_time, ih]

/-- C26: `update_time` keeps the slots of the table; a RUNNING slot has its
`rtime` incremented by one and nothing else changed, and every other slot
holds the PCB it held before. -/
theorem update_time_running (t : List proc) :
    (update_time t).length = t.length ∧
    ∀ (j : Nat) (p : proc), t[j]? = some p →
      ∃ q, (update_time t)[j]? = some q ∧
        (p.state = procstate.RUNNING → q.rtime = p.rtime + 1 ∧ q = { p with rtime := q.rtime }) ∧
        (p.state ≠ procstate.RUNNING → q = p ∧ q.rtime = p.rtime) := by
  refine ⟨update_time_length t, ?_⟩
  intro j p hp
  rw [update_time_getElem?, hp]
  by_cases hs : p.state = procstate.RUNNING
  · refine ⟨{ p with rtime := p.rtime + 1 }, by simp only [Option.map_some', if_pos hs],
      fun _ => ⟨rfl, rfl⟩, fun h => absurd hs h⟩
  · refine ⟨p, by simp only [Option.map_some', if_neg hs],
      fun h => absurd h hs, fun _ => ⟨rfl, rfl⟩⟩

/-- C26 at a table of a RUNNING process and a sleeper. -/
theorem update_time_running_witness :
    ∃ q, (update_time [running_proc 1 60, sleeper 7 0 0])[0]? = some q ∧
      ((running_proc 1 60).state = procstate.RUNNING →
        q.rtime = (running_proc 1 60).rtime + 1 ∧
        q = { running_proc 1 60 with rtime := q.rtime }) ∧
      ((running_proc 1 60).state ≠ procstate.RUNNING →
        q = running_proc 1 60 ∧ q.rtime = (running_proc 1 60).rtime) :=
  (update_time_running [running_proc 1 60, sleeper 7 0 0]).2 0 (running_proc 1 60) rfl

/-! ## Lottery: the modulus -/

/-- C27, the code at two tables: with no RUNNABLE process (the idle system)
and with one RUNNABLE process holding 0 tickets the ticket sum is 0, so the
draw `random() % totalNumTickets` is a remainder by zero, undefined. -/
theorem lottery_total_zero :
    (∀ p ∈ idle_table, p.state ≠ procstate.RUNNABLE) ∧
    lottery_total idle_table 0 = 0 ∧
    lotteryBased idle_table 12345 = none ∧
    lottery_total [runnable_born 0 0] 0 = 0 ∧
    lotteryBased [runnable_born 0 0] 12345 = none := by
  decide

/-! ## exit: the caller's PCB -/

theorem wakeup_slot_self (me : Nat) (now chan : Nat) (p : proc) :
    wakeup_slot (some me) now chan me p = p := by
  unfold wakeup_slot
  simp

theorem wakeup_getElem?_self (t : List proc) (me now chan : Nat) :
    (wakeup t (some me) now chan)[me]? = t[me]? := by
  rw [wakeup_getElem?]
  cases t[me]? with
  | none => rfl
  | some p => simp [wakeup_slot_self]

/-- The slot of the caller through the loop of `reparent`: `wakeup` skips
it, so only its `parent` can change. -/
theorem reparent_loop_self (p me init now : Nat) (t : List proc) (n : Nat) :
    (reparent_loop p (some me) init now t n)[me]? =
      (t[me]?).map (fun q =>
        if me < n ∧ q.parent = some p then { q with parent := some init } else q) := by
  induction n with
  | zero =>
    simp only [reparent_loop]
    cases t[me]? with
    | none => rfl
    | some q => simp
  | succ n ih =>
    simp only [reparent_loop, reparent_iter]
    generalize reparent_loop p (some me) init now t n = tb at ih
    cases htn : tb[n]? with
    | none =>
      simp only
      rw [ih]
      cases hq : t[me]? with
      | none => rfl
      | some q =>
        simp only [Option.map_some', Option.some.injEq]
        by_cases hmn : me = n
        · subst hmn
          rw [hq] at ih
          rw [htn] at ih
          simp at ih
        · have hlt : me < n + 1 ↔ me < n := by omega
          simp only [hlt]
    | some pp =>
      simp only
      by_cases hpar : pp.parent = some p
      · rw [if_pos hpar, wakeup_getElem?_self, List.getElem?_set]
        by_cases hmn : n = me
        · subst hmn
          rw [htn] at ih
          cases hq : t[n]? with
          | none => rw [hq] at ih; simp at ih
          | some q =>
            rw [hq] at ih
            simp only [Option.map_some', Nat.lt_irrefl, false_and, if_false,
              Option.some.injEq] at ih
            subst ih
            simp [lt_length_of_getElem? htn, hpar]
        · simp only [hmn, if_false]
          rw [ih]
          have hlt : me < n + 1 ↔ me < n := by omega
          simp only [hlt]
      · rw [if_neg hpar, ih]
        cases hq : t[me]? with
        | none => rfl
        | some q =>
          simp only [Option.map_some', Option.some.injEq]
          by_cases hmn : me = n
          · subst hmn
            rw [hq, htn] at ih
            simp only [Option.map_some', Nat.lt_irrefl, false_and, if_false,
              Option.some.injEq] at ih
            subst ih
            simp [hpar]
          · have hlt : me < n + 1 ↔ me < n := by omega
            simp only [hlt]

theorem wakeup_length (t : List proc) (me : Option Nat) (now chan : Nat) :
    (wakeup t me now chan).length = t.length :=
  wakeup_from_length me now chan t 0

theorem reparent_loop_length (p : Nat) (me : Option Nat) (init now : Nat) (t : List proc)
    (n : Nat) : (reparent_loop p me init now t n).length = t.length := by
  induction n with
  | zero => rfl
  | succ n ih =>
    simp only [reparent_loop, reparent_iter]
    cases (reparent_loop p me init now t n)[n]? with
    | none => exact ih
    | some pp =>
      simp only
      split
      · rw [wakeup_length, List.length_set]; exact ih
      · exact ih

theorem reparent_length (t : List proc) (p : Nat) (me : Option Nat) (init now : Nat) :
    (reparent t p me init now).length = t.length :=
  reparent_loop_length p me init now t t.length

theorem reparent_getElem?_self (t : List proc) (me init now : Nat) (q : proc)
    (hq : t[me]? = some q) :
    (reparent t me (some me) init now)[me]? =
      some (if q.parent = some me then { q with parent := some init } else q) := by
  unfold reparent
  rw [reparent_loop_self, hq]
  simp [lt_length_of_getElem? hq]

/-- The PCB `exit` leaves in the slot of the caller. -/
theorem exit_self (t : List proc) (me init : Nat) (status : Int) (wake_now now : Nat)
    (p : proc) (hp : t[me]? = some p) (hne : me ≠ init) :
    ∃ t2, exit t me init status wake_now now = some t2 ∧
      t2[me]? = some
        { p with
          ofile := p.ofile.map (fun f => if f ≠ none then none else f)
          cwd := none
          parent := if p.parent = some me then some init else p.parent
          xstate := status
          state := procstate.ZOMBIE
          etime := now } := by
  have hlen := lt_length_of_getElem? hp
  have h1 : (t.set me { p with
      ofile := p.ofile.map (fun f => if f ≠ none then none else f), cwd := none })[me]?
      = some { p with
          ofile := p.ofile.map (fun f => if f ≠ none then none else f), cwd := none } :=
    List.getElem?_set_self hlen
  have h2 := reparent_getElem?_self _ me init wake_now _ h1
  unfold exit
  simp only [if_neg hne, hp, h2, wakeup_getElem?_self]
  refine ⟨_, rfl, ?_⟩
  rw [List.getElem?_set_self
    (by rw [wakeup_length, reparent_length, List.length_set]; exact hlen)]
  by_cases hpar : p.parent = some me
  · simp only [hpar, if_true]
  · simp only [hpar, if_false]

/-- C21: for a caller in slot `me` other than `init` (and not its own
parent), the bookkeeping of `exit(status)` up to the call of `sched` leaves
the caller's PCB with `state = ZOMBIE`, `xstate = status`, `etime` the current
tick, its pid and parent as they were, every open-file slot null and
`cwd` null. -/
theorem exit_bookkeeping (t : List proc) (me init : Nat) (status : Int)
    (wake_now now : Nat) (p : proc) (hp : t[me]? = some p) (hne : me ≠ init)
    (hself : p.parent ≠ some me) :
    ∃ t2 q, exit t me init status wake_now now = some t2 ∧ t2[me]? = some q ∧
      q.state = procstate.ZOMBIE ∧ q.xstate = status ∧ q.etime = now ∧
      q.pid = p.pid ∧ q.parent = p.parent ∧
      q.ofile.length = p.ofile.length ∧ (∀ f ∈ q.ofile, f = none) ∧ q.cwd = none := by
  obtain ⟨t2, ht2, hq⟩ := exit_self t me init status wake_now now p hp hne
  refine ⟨t2, _, ht2, hq, rfl, rfl, rfl, rfl, ?_, ?_, ?_, rfl⟩
  · simp only [if_neg hself]
  · simp
  · intro f hf
    simp only [List.mem_map] at hf
    obtain ⟨g, _, hg⟩ := hf
    by_cases hgn : g = none
    · subst hgn
      simpa using hg.symm
    · simp only [ne_eq, hgn, not_false_eq_true, if_true] at hg
      exact hg.symm

/-- C21 at a table of `init` in slot 0 and its child in slot 1, which calls
`exit(3)` at tick 50 with two open files. -/
theorem exit_bookkeeping_witness :
    ∃ t2 q, exit [sleeper 1 0 0, exiting_proc] 1 0 3 50 50 = some t2 ∧ t2[1]? = some q ∧
      q.state = procstate.ZOMBIE ∧ q.xstate = 3 ∧ q.etime = 50 ∧
      q.pid = exiting_proc.pid ∧ q.parent = exiting_proc.parent ∧
      q.ofile.length = exiting_proc.ofile.length ∧ (∀ f ∈ q.ofile, f = none) ∧
      q.cwd = none :=
  exit_bookkeeping [sleeper 1 0 0, exiting_proc] 1 0 3 50 50 exiting_proc rfl
    (by decide) (by decide)

/-! ## wakeup, reparent and exit on every slot -/

theorem StateKept.refl (q : proc) : StateKept q q := Or.inl rfl

theorem StateKept.trans {a b c : proc} (h1 : StateKept a b) (h2 : StateKept b c) :
    StateKept a c := by
  unfold StateKept at *
  rcases h1 with h1 | ⟨h1a, h1b⟩
  · rcases h2 with h2 | ⟨h2a, h2b⟩
    · exact Or.inl (h2.trans h1)
    · exact Or.inr ⟨h1 ▸ h2a, h2b⟩
  · rcases h2 with h2 | ⟨h2a, _⟩
    · exact Or.inr ⟨h1a, h2.trans h1b⟩
    · rw [h1b] at h2a
      cases h2a

theorem wakeup_slot_woken (me : Option Nat) (now chan i : Nat) (p : proc) :
    Woken p (wakeup_slot me now chan i p) := by
  by_cases h1 : some i ≠ me
  · by_cases h2 : p.state = procstate.SLEEPING ∧ p.chan = chan
    · by_cases h3 : p.sleep_start ≠ 0
      · have he : wakeup_slot me now chan i p =
            { p with state := procstate.RUNNABLE,
                     sleep_time := ((now : Int) - (p.sleep_start : Int)) % 2 ^ 64,
                     sleep_start := 0 } := by
          simp only [wakeup_slot, if_pos h1, if_pos h2, if_pos h3]
        rw [he]
        exact ⟨rfl, rfl, rfl, Or.inr ⟨h2.1, rfl⟩⟩
      · have he : wakeup_slot me now chan i p =
            { p with state := procstate.RUNNABLE, sleep_start := 0 } := by
          simp only [wakeup_slot, if_pos h1, if_pos h2, if_neg h3]
        rw [he]
        exact ⟨rfl, rfl, rfl, Or.inr ⟨h2.1, rfl⟩⟩
    · have he : wakeup_slot me now chan i p = p := by
        simp only [wakeup_slot, if_pos h1, if_neg h2]
      rw [he]
      exact ⟨rfl, rfl, rfl, Or.inl rfl⟩
  · have he : wakeup_slot me now chan i p = p := by
      simp only [wakeup_slot, if_neg h1]
    rw [he]
    exact ⟨rfl, rfl, rfl, Or.inl rfl⟩

theorem wakeup_woken (t : List proc) (me : Option Nat) (now chan j : Nat) (q : proc)
    (hq : t[j]? = some q) :
    ∃ q2, (wakeup t me now chan)[j]? = some q2 ∧ Woken q q2 :=
  ⟨wakeup_slot me now chan j q, by rw [wakeup_getElem?, hq]; rfl,
    wakeup_slot_woken me now chan j q⟩

/-- Every slot through the loop of `reparent(p)`: the children of `p` among
the slots passed have `init` as parent; pid and running time are kept, the
state is kept or woken. -/
theorem reparent_loop_slots (p : Nat) (me : Option Nat) (init now : Nat) (t : List proc)
    (n j : Nat) (q : proc) (hq : t[j]? = some q) :
    ∃ q2, (reparent_loop p me init now t n)[j]? = some q2 ∧
      q2.parent = (if j < n ∧ q.parent = some p then some init else q.parent) ∧
      q2.pid = q.pid ∧ q2.running_time = q.running_time ∧ StateKept q q2 := by
  induction n with
  | zero =>
    exact ⟨q, hq, by simp, rfl, rfl, StateKept.refl q⟩
  | succ n ih =>
    obtain ⟨q1, hq1, hpar1, hpid1, hrt1, hst1⟩ := ih
    simp only [reparent_loop, reparent_iter]
    generalize reparent_loop p me init now t n = tb at hq1
    cases htn : tb[n]? with
    | none =>
      have hjn : j ≠ n := by
        intro e; subst e; rw [hq1] at htn; cases htn
      have hlt : j < n + 1 ↔ j < n := by omega
      exact ⟨q1, hq1, by simp only [hlt]; exact hpar1, hpid1, hrt1, hst1⟩
    | some pp =>
      simp only
      by_cases hpp : pp.parent = some p
      · rw [if_pos hpp]
        by_cases hjn : j = n
        · subst hjn
          rw [hq1] at htn
          cases htn
          obtain ⟨q2, hq2, hw⟩ := wakeup_woken
            (tb.set j { q1 with parent := some init }) me now (proc_addr init) j
            { q1 with parent := some init }
            (List.getElem?_set_self (lt_length_of_getElem? hq1))
          obtain ⟨hwp, hwpid, hwrt, hwst⟩ := hw
          refine ⟨q2, hq2, ?_, hwpid.trans hpid1, hwrt.trans hrt1, ?_⟩
          · rw [hwp]
            have hqp : q.parent = some p := by
              simp only [Nat.lt_irrefl, false_and, if_false] at hpar1
              rw [← hpar1]; exact hpp
            simp [hqp]
          · exact StateKept.trans hst1 hwst
        · obtain ⟨q2, hq2, hw⟩ := wakeup_woken
            (tb.set n { pp with parent := some init }) me now (proc_addr init) j q1
            (by rw [List.getElem?_set_ne (Ne.symm hjn)]; exact hq1)
          obtain ⟨hwp, hwpid, hwrt, hwst⟩ := hw
          have hlt : j < n + 1 ↔ j < n := by omega
          refine ⟨q2, hq2, ?_, hwpid.trans hpid1, hwrt.trans hrt1,
            StateKept.trans hst1 hwst⟩
          rw [hwp, hpar1]
          simp only [hlt]
      · rw [if_neg hpp]
        by_cases hjn : j = n
        · subst hjn
          rw [hq1] at htn
          cases htn
          simp only [Nat.lt_irrefl, false_and, if_false] at hpar1
          have hqp : ¬ q.parent = some p := by rw [← hpar1]; exact hpp
          exact ⟨q1, hq1, by simp only [hqp, and_false, if_false]; exact hpar1,
            hpid1, hrt1, hst1⟩
        · have hlt : j < n + 1 ↔ j < n := by omega
          exact ⟨q1, hq1, by simp only [hlt]; exact hpar1, hpid1, hrt1, hst1⟩

/-- Every slot after `exit`: the children of the caller have `init` as
parent and no other parent has changed; the caller is a ZOMBIE, the state of
every other slot is kept or woken; pid and running time are kept. -/
theorem exit_slots (t : List proc) (me init : Nat) (status : Int) (wake_now now : Nat)
    (t2 : List proc) (h : exit t me init status wake_now now = some t2) :
    me ≠ init ∧ t2.length = t.length ∧
    ∀ (j : Nat) (q : proc), t[j]? = some q →
      ∃ q2, t2[j]? = some q2 ∧
        q2.parent = (if q.parent = some me then some init else q.parent) ∧
        q2.pid = q.pid ∧ q2.running_time = q.running_time ∧
        (j = me → q2.state = procstate.ZOMBIE) ∧ (j ≠ me → StateKept q q2) := by
  by_cases hne : me = init
  · simp [exit, hne] at h
  cases hp : t[me]? with
  | none => simp [exit, hne, hp] at h
  | some p =>
    have hlen := lt_length_of_getElem? hp
    obtain ⟨t3, ht3, hme3⟩ := exit_self t me init status wake_now now p hp hne
    rw [h] at ht3
    cases ht3
    have h1 : (t.set me { p with
        ofile := p.ofile.map (fun f => if f ≠ none then none else f), cwd := none })[me]?
        = some { p with
            ofile := p.ofile.map (fun f => if f ≠ none then none else f), cwd := none } :=
      List.getElem?_set_self hlen
    have h2 := reparent_getElem?_self _ me init wake_now _ h1
    have hex : exit t me init status wake_now now = some
        ((wakeup (reparent (t.set me { p with
            ofile := p.ofile.map (fun f => if f ≠ none then none else f), cwd := none })
            me (some me) init wake_now) (some me) wake_now
            (chan_of (if p.parent = some me then some init else p.parent))).set me
          { p with
            ofile := p.ofile.map (fun f => if f ≠ none then none else f)
            cwd := none
            parent := if p.parent = some me then some init else p.parent
            xstate := status
            state := procstate.ZOMBIE
            etime := now }) := by
      unfold exit
      simp only [if_neg hne, hp, h2, wakeup_getElem?_self]
      by_cases hpar : p.parent = some me
      · simp only [hpar, if_true]
      · simp only [hpar, if_false]
    rw [h] at hex
    cases hex
    refine ⟨hne, ?_, ?_⟩
    · rw [List.length_set, wakeup_length, reparent_length, List.length_set]
    · intro j q hq
      by_cases hjm : j = me
      · subst hjm
        rw [hp] at hq
        cases hq
        exact ⟨_, hme3, rfl, rfl, rfl, fun _ => rfl, fun h => absurd rfl h⟩
      · rw [List.getElem?_set_ne (Ne.symm hjm)]
        obtain ⟨q1, hq1, hpar1, hpid1, hrt1, hst1⟩ :=
          reparent_loop_slots me (some me) init wake_now
            (t.set me { p with
              ofile := p.ofile.map (fun f => if f ≠ none then none else f), cwd := none })
            (t.set me { p with
              ofile := p.ofile.map (fun f => if f ≠ none then none else f),
              cwd := none }).length j q
            (by rw [List.getElem?_set_ne (Ne.symm hjm)]; exact hq)
        obtain ⟨q2, hq2, hwp, hwpid, hwrt, hwst⟩ := wakeup_woken _ (some me) wake_now
          (chan_of (if p.parent = some me then some init else p.parent)) j q1 hq1
        refine ⟨q2, hq2, ?_, hwpid.trans hpid1, hwrt.trans hrt1,
          fun h => absurd h hjm, fun _ => StateKept.trans hst1 hwst⟩
        rw [hwp, hpar1]
        have hjl : j < (t.set me { p with
            ofile := p.ofile.map (fun f => if f ≠ none then none else f),
            cwd := none }).length := by
          rw [List.length_set]; exact lt_length_of_getElem? hq
        simp only [hjl, true_and]

/-! ## allocproc and fork: every outcome -/

theorem find_unused_none (l : List proc) (s : Nat) (h : find_unused l s = none) :
    ∀ p ∈ l, p.state ≠ procstate.UNUSED := by
  induction l generalizing s with
  | nil => intro p hp; cases hp
  | cons q qs ih =>
    by_cases hq : q.state = procstate.UNUSED
    · simp [find_unused, hq] at h
    · simp only [find_unused, if_neg hq] at h
      intro p hp
      rw [List.mem_cons] at hp
      rcases hp with hp | hp
      · rw [hp]; exact hq
      · exact ih (s + 1) h p hp

/-- The outcomes of `allocproc`: no slot is free and nothing changes; or the
first free slot `i` is taken and given back UNUSED after a failed allocation;
or it is taken and every allocation succeeds. -/
theorem allocproc_cases (k : kstate) (e : alloc_env) :
    (find_unused k.table 0 = none ∧ allocproc k e = (none, k)) ∨
    (∃ (i : Nat) (pslot : proc), find_unused k.table 0 = some i ∧
      k.table[i]? = some pslot ∧ pslot.state = procstate.UNUSED ∧
      ((∃ q, allocproc k e
            = (none, { table := k.table.set i (freeproc q), nextpid := k.nextpid + 1 })) ∨
        (e.trapframe_copy_page ≠ none ∧ e.trapframe_page ≠ none ∧ e.pagetable ≠ none))) := by
  cases hf : find_unused k.table 0 with
  | none =>
    left
    exact ⟨rfl, by simp only [allocproc, hf]⟩
  | some j =>
    right
    obtain ⟨j2, q, hj2, hs, hst⟩ := find_unused_some k.table 0 j hf
    have hjj : j2 = j := by omega
    subst hjj
    refine ⟨j2, q, rfl, hs, hst, ?_⟩
    by_cases h1 : e.trapframe_copy_page = none
    · left
      refine ⟨{ q with pid := k.nextpid, state := procstate.USED,
                       trapframe_copy := e.trapframe_copy_page }, ?_⟩
      simp only [allocproc, hf, hs, if_pos h1, allocpid]
    · by_cases h2 : e.trapframe_page = none
      · left
        refine ⟨{ q with pid := k.nextpid, state := procstate.USED,
                         trapframe_copy := e.trapframe_copy_page,
                         trapframe := e.trapframe_page }, ?_⟩
        simp only [allocproc, hf, hs, if_neg h1, if_pos h2, allocpid]
      · by_cases h3 : e.pagetable = none
        · left
          refine ⟨{ q with pid := k.nextpid, state := procstate.USED,
                           trapframe_copy := e.trapframe_copy_page,
                           trapframe := e.trapframe_page,
                           pagetable := e.pagetable }, ?_⟩
          simp only [allocproc, hf, hs, if_neg h1, if_neg h2, if_pos h3, allocpid]
        · right
          exact ⟨h1, h2, h3⟩

/-- The outcomes of `fork`: `-1` with the table as it was; `-1` with the first
free slot given back UNUSED by `freeproc`; or the pid of the child left
RUNNABLE in the first free slot, with the caller as parent and the running
time of the caller. -/
theorem fork_cases (k : kstate) (me : Nat) (e : alloc_env) (r : Int) (k2 : kstate)
    (h : fork k me e = some (r, k2)) :
    (r = -1 ∧ k2.table = k.table) ∨
    (r = -1 ∧ ∃ (i : Nat) (pslot q : proc), find_unused k.table 0 = some i ∧
      k.table[i]? = some pslot ∧ pslot.state = procstate.UNUSED ∧
      k2.table = k.table.set i (freeproc q)) ∨
    (r = k.nextpid ∧ ∃ (i : Nat) (pslot np p1 : proc), find_unused k.table 0 = some i ∧
      k.table[i]? = some pslot ∧ pslot.state = procstate.UNUSED ∧
      (k.table[me]? = some p1 ∨ (me = i ∧ p1.running_time = 0)) ∧
      k2.table = k.table.set i np ∧ np.state = procstate.RUNNABLE ∧
      np.parent = some me ∧ np.running_time = p1.running_time ∧ np.pid = k.nextpid) := by
  rcases allocproc_cases k e with ⟨_, ha⟩ | ⟨i, pslot, hi, hslot, hst, hrest⟩
  · left
    simp only [fork, ha, Option.some.injEq, Prod.mk.injEq] at h
    exact ⟨h.1.symm, by rw [← h.2]⟩
  · have hilen := lt_length_of_getElem? hslot
    rcases hrest with ⟨q, ha⟩ | ⟨h1, h2, h3⟩
    · right; left
      simp only [fork, ha, Option.some.injEq, Prod.mk.injEq] at h
      exact ⟨h.1.symm, i, pslot, q, hi, hslot, hst, by rw [← h.2]⟩
    · have hsucc := allocproc_success k e i pslot hi hslot h1 h2 h3
      obtain ⟨tfp, htfp⟩ := Option.ne_none_iff_exists'.mp h2
      by_cases hcopy : e.uvmcopy_ok = false
      · right; left
        by_cases hmi : me = i
        · subst hmi
          unfold fork at h
          rw [hsucc] at h
          simp only [List.getElem?_set_self hilen, hcopy, if_true, Option.some.injEq,
            Prod.mk.injEq, List.set_set] at h
          exact ⟨h.1.symm, me, pslot, _, hi, hslot, hst, by rw [← h.2]⟩
        · cases hp : k.table[me]? with
          | none =>
            unfold fork at h
            rw [hsucc] at h
            simp [List.getElem?_set_ne (Ne.symm hmi), hp] at h
          | some p =>
            unfold fork at h
            rw [hsucc] at h
            simp only [List.getElem?_set_ne (Ne.symm hmi), hp, List.getElem?_set_self hilen,
              hcopy, if_true, Option.some.injEq, Prod.mk.injEq, List.set_set] at h
            exact ⟨h.1.symm, i, pslot, _, hi, hslot, hst, by rw [← h.2]⟩
      · have hcopy2 : e.uvmcopy_ok = true := by
          cases hc : e.uvmcopy_ok with
          | false => exact absurd hc hcopy
          | true => rfl
        right; right
        by_cases hmi : me = i
        · subst hmi
          unfold fork at h
          rw [hsucc] at h
          simp only [List.getElem?_set_self hilen, hcopy2, Bool.true_eq_false, if_false,
            htfp, Option.some.injEq, Prod.mk.injEq, List.set_set] at h
          obtain ⟨hr, hk2⟩ := h
          subst hk2
          exact ⟨hr.symm, me, pslot, _, { pslot with running_time := 0 }, hi, hslot, hst,
            Or.inr ⟨rfl, rfl⟩, rfl, rfl, rfl, rfl, rfl⟩
        · cases hp : k.table[me]? with
          | none =>
            unfold fork at h
            rw [hsucc] at h
            simp [List.getElem?_set_ne (Ne.symm hmi), hp] at h
          | some p =>
            cases hptf : p.trapframe with
            | none =>
              unfold fork at h
              rw [hsucc] at h
              simp [List.getElem?_set_ne (Ne.symm hmi), hp, List.getElem?_set_self hilen,
                hcopy2, hptf] at h
            | some ptf =>
              unfold fork at h
              rw [hsucc] at h
              simp only [List.getElem?_set_ne (Ne.symm hmi), hp, List.getElem?_set_self hilen,
                hcopy2, Bool.true_eq_false, if_false, hptf, htfp, Option.some.injEq,
                Prod.mk.injEq, List.set_set] at h
              obtain ⟨hr, hk2⟩ := h
              subst hk2
              exact ⟨hr.symm, i, pslot, _, p, hi, hslot, hst, Or.inl rfl,
                rfl, rfl, rfl, rfl, rfl⟩

/-! ## fork: failure -/

theorem live_count_of_states (t t2 : List proc)
    (h : ∀ j : Nat, (t2[j]?).map (fun p : proc => p.state) = (t[j]?).map (fun p : proc => p.state)) :
    live_count t2 = live_count t := by
  have hmap : t2.map (fun p : proc => p.state) = t.map (fun p : proc => p.state) := by
    apply List.ext_getElem?
    intro j
    simp only [List.getElem?_map]
    exact h j
  have hc : ∀ l : List proc, live_count l
      = (l.map (fun p : proc => p.state)).countP (fun s => decide (s ≠ procstate.UNUSED)) := by
    intro l
    unfold live_count
    rw [List.countP_map]
    rfl
  rw [hc, hc, hmap]

theorem set_unused_states (t : List proc) (i : Nat) (pslot q : proc)
    (hslot : t[i]? = some pslot) (hst : pslot.state = procstate.UNUSED)
    (hq : q.state = procstate.UNUSED) (j : Nat) :
    ((t.set i q)[j]?).map (fun p : proc => p.state) = (t[j]?).map (fun p : proc => p.state) := by
  by_cases hij : i = j
  · subst hij
    rw [List.getElem?_set_self (lt_length_of_getElem? hslot), hslot]
    simp [hst, hq]
  · rw [List.getElem?_set_ne hij]

/-- C23: when `fork` returns `-1` (the pids issued being positive, `-1` is
not the pid of a child), every slot of the table has the state it had before
the call: the table has the same slots, no slot has become USED, and the
number of slots that are not UNUSED is unchanged. -/
theorem fork_failure_keeps_states (k : kstate) (me : Nat) (e : alloc_env) (k2 : kstate)
    (hpid : 0 < k.nextpid) (h : fork k me e = some (-1, k2)) :
    k2.table.length = k.table.length ∧
    (∀ j : Nat, (k2.table[j]?).map (fun p : proc => p.state) = (k.table[j]?).map (fun p : proc => p.state)) ∧
    (∀ (j : Nat) (q : proc), k2.table[j]? = some q → q.state = procstate.USED →
      ∃ p, k.table[j]? = some p ∧ p.state = procstate.USED) ∧
    live_count k2.table = live_count k.table := by
  have hstates : k2.table.length = k.table.length ∧
      ∀ j : Nat, (k2.table[j]?).map (fun p : proc => p.state)
        = (k.table[j]?).map (fun p : proc => p.state) := by
    rcases fork_cases k me e (-1) k2 h with ⟨_, ht⟩ | ⟨_, i, pslot, q, _, hslot, hst, ht⟩ |
      ⟨hr, _⟩
    · rw [ht]
      exact ⟨rfl, fun _ => rfl⟩
    · rw [ht]
      exact ⟨List.length_set _ _ _,
        set_unused_states k.table i pslot (freeproc q) hslot hst rfl⟩
    · omega
  obtain ⟨hlen, hst⟩ := hstates
  refine ⟨hlen, hst, ?_, live_count_of_states k.table k2.table hst⟩
  intro j q hq hused
  have hj := hst j
  rw [hq] at hj
  cases hp : k.table[j]? with
  | none => rw [hp] at hj; simp at hj
  | some p =>
    rw [hp] at hj
    simp only [Option.map_some', Option.some.injEq] at hj
    exact ⟨p, rfl, by rw [← hj]; exact hused⟩

/-- C23 at a fork whose `uvmcopy` fails after slot 1 was claimed, and at a
fork that finds no free slot. -/
theorem fork_failure_keeps_states_witness :
    (∀ j : Nat, ((([running_proc 5 70, proc_zero].set 1
          (freeproc { proc_zero with pid := 2, state := procstate.USED,
                                     trapframe_copy := some trapframe_zero,
                                     trapframe := some trapframe_zero,
                                     pagetable := some 2, ctime := 20, birth_time := 20,
                                     num_tickets := 1, static_priority := 60 }))[j]?).map
        (fun p : proc => p.state))
      = ([running_proc 5 70, proc_zero][j]?).map (fun p : proc => p.state)) ∧
    live_count [running_proc 5 70] = live_count [running_proc 5 70] :=
  ⟨(fork_failure_keeps_states { table := [running_proc 5 70, proc_zero], nextpid := 2 } 0
      { env_ok with uvmcopy_ok := false }
      { table := [running_proc 5 70, proc_zero].set 1
          (freeproc { proc_zero with pid := 2, state := procstate.USED,
                                     trapframe_copy := some trapframe_zero,
                                     trapframe := some trapframe_zero,
                                     pagetable := some 2, ctime := 20, birth_time := 20,
                                     num_tickets := 1, static_priority := 60 }),
        nextpid := 3 }
      (by decide) (by decide)).2.1,
   (fork_failure_keeps_states { table := [running_proc 5 70], nextpid := 2 } 0 env_ok
      { table := [running_proc 5 70], nextpid := 2 } (by decide) (by decide)).2.2.2⟩

/-! ## The table after each function -/

/-- The outcome of `userinit`: the first free slot holds the RUNNABLE first
process, with no parent and no running time. -/
theorem userinit_cases (k : kstate) (e : alloc_env) (pgsize : Nat) (root : Option Nat)
    (k2 : kstate) (i : Nat) (h : userinit k e pgsize root = some (k2, i)) :
    ∃ (pslot np : proc), k.table[i]? = some pslot ∧ pslot.state = procstate.UNUSED ∧
      k2.table = k.table.set i np ∧ np.state = procstate.RUNNABLE ∧
      np.running_time = 0 ∧ np.parent = pslot.parent := by
  rcases allocproc_cases k e with ⟨_, ha⟩ | ⟨j, pslot, hj, hslot, hst, hrest⟩
  · simp [userinit, ha] at h
  · have hjlen := lt_length_of_getElem? hslot
    rcases hrest with ⟨q, ha⟩ | ⟨h1, h2, h3⟩
    · simp [userinit, ha] at h
    · have hsucc := allocproc_success k e j pslot hj hslot h1 h2 h3
      obtain ⟨tfp, htfp⟩ := Option.ne_none_iff_exists'.mp h2
      unfold userinit at h
      rw [hsucc] at h
      simp only [List.getElem?_set_self hjlen, htfp, Option.some.injEq, Prod.mk.injEq,
        List.set_set] at h
      obtain ⟨hk2, hji⟩ := h
      subst hji
      subst hk2
      exact ⟨pslot, _, hslot, hst, rfl, rfl, rfl, rfl⟩

theorem wait_scan_cases (t : List proc) (me addr : Nat) (copyout_ok : Bool)
    (rest : List proc) (i : Nat) (havekids : Bool)
    (hrest : ∀ k, rest[k]? = t[i + k]?)
    (r : wait_result) (t1 : List proc) (b : Bool)
    (h : wait_scan t me addr copyout_ok rest i havekids = (some (r, t1), b)) :
    t1 = t ∨ ∃ (j : Nat) (pp : proc), t[j]? = some pp ∧ pp.parent = some me ∧
      pp.state = procstate.ZOMBIE ∧ t1 = t.set j (freeproc pp) := by
  induction rest generalizing i havekids with
  | nil => simp [wait_scan] at h
  | cons pp rest ih =>
    have hpp : t[i]? = some pp := by
      have := hrest 0
      simpa using this.symm
    have hrest1 : ∀ k, rest[k]? = t[i + 1 + k]? := by
      intro k
      have := hrest (k + 1)
      simp only [List.getElem?_cons_succ] at this
      rw [this]
      congr 1
      omega
    unfold wait_scan at h
    by_cases hpar : pp.parent = some me
    · rw [if_pos hpar] at h
      by_cases hz : pp.state = procstate.ZOMBIE
      · rw [if_pos hz] at h
        simp only at h
        split at h
        · simp only [Prod.mk.injEq, Option.some.injEq] at h
          exact Or.inl h.1.2.symm
        · simp only [Prod.mk.injEq, Option.some.injEq] at h
          exact Or.inr ⟨i, pp, hpp, hpar, hz, h.1.2.symm⟩
      · rw [if_neg hz] at h
        exact ih (i + 1) true hrest1 h
    · rw [if_neg hpar] at h
      exact ih (i + 1) havekids hrest1 h

theorem waitx_scan_cases (t : List proc) (me addr : Nat) (copyout_ok : Bool)
    (rest : List proc) (i wtime rtime : Nat) (havekids : Bool)
    (hrest : ∀ k, rest[k]? = t[i + k]?)
    (r : wait_result) (t1 : List proc) (w1 r1 : Nat) (b : Bool)
    (h : waitx_scan t me addr copyout_ok rest i wtime rtime havekids
      = (some (r, t1), w1, r1, b)) :
    t1 = t ∨ ∃ (j : Nat) (pp : proc), t[j]? = some pp ∧ pp.parent = some me ∧
      pp.state = procstate.ZOMBIE ∧ t1 = t.set j (freeproc pp) := by
  induction rest generalizing i havekids with
  | nil => simp [waitx_scan] at h
  | cons pp rest ih =>
    have hpp : t[i]? = some pp := by
      have := hrest 0
      simpa using this.symm
    have hrest1 : ∀ k, rest[k]? = t[i + 1 + k]? := by
      intro k
      have := hrest (k + 1)
      simp only [List.getElem?_cons_succ] at this
      rw [this]
      congr 1
      omega
    unfold waitx_scan at h
    by_cases hpar : pp.parent = some me
    · rw [if_pos hpar] at h
      by_cases hz : pp.state = procstate.ZOMBIE
      · rw [if_pos hz] at h
        simp only at h
        split at h
        · simp only [Prod.mk.injEq, Option.some.injEq] at h
          exact Or.inl h.1.2.symm
        · simp only [Prod.mk.injEq, Option.some.injEq] at h
          exact Or.inr ⟨i, pp, hpp, hpar, hz, h.1.2.symm⟩
      · rw [if_neg hz] at h
        exact ih (i + 1) true hrest1 h
    · rw [if_neg hpar] at h
      exact ih (i + 1) havekids hrest1 h

/-- The table after one pass of `wait`: as it was, or with a ZOMBIE child of
the caller freed, or with the caller asleep. -/
theorem wait_cases (t : List proc) (me addr : Nat) (copyout_ok : Bool) (now : Nat) :
    (wait t me addr copyout_ok now).2 = t ∨
    (∃ (j : Nat) (pp : proc), t[j]? = some pp ∧ pp.parent = some me ∧
      pp.state = procstate.ZOMBIE ∧
      (wait t me addr copyout_ok now).2 = t.set j (freeproc pp)) ∨
    (wait t me addr copyout_ok now).2 = sleep t me now (proc_addr me) := by
  unfold wait
  cases hscan : wait_scan t me addr copyout_ok t 0 false with
  | mk res b =>
    cases res with
    | none =>
      simp only
      split
      · exact Or.inl rfl
      · exact Or.inr (Or.inr rfl)
    | some rt =>
      obtain ⟨r, t1⟩ := rt
      simp only
      rcases wait_scan_cases t me addr copyout_ok t 0 false (fun k => by simp) r t1 b hscan
        with h | ⟨j, pp, h1, h2, h3, h4⟩
      · exact Or.inl h
      · exact Or.inr (Or.inl ⟨j, pp, h1, h2, h3, h4⟩)

/-- The table after one pass of `waitx`: as for `wait`. -/
theorem waitx_cases (s : waitx_state) (me addr : Nat) (copyout_ok : Bool) (now : Nat) :
    (waitx s me addr copyout_ok now).2.table = s.table ∨
    (∃ (j : Nat) (pp : proc), s.table[j]? = some pp ∧ pp.parent = some me ∧
      pp.state = procstate.ZOMBIE ∧
      (waitx s me addr copyout_ok now).2.table = s.table.set j (freeproc pp)) ∨
    (waitx s me addr copyout_ok now).2.table = sleep s.table me now (proc_addr me) := by
  unfold waitx
  cases hscan : waitx_scan s.table me addr copyout_ok s.table 0 s.wtime s.rtime false with
  | mk res rest =>
    obtain ⟨w1, r1, b⟩ := rest
    cases res with
    | none =>
      simp only
      split
      · exact Or.inl rfl
      · exact Or.inr (Or.inr rfl)
    | some rt =>
      obtain ⟨r, t1⟩ := rt
      simp only
      rcases waitx_scan_cases s.table me addr copyout_ok s.table 0 s.wtime s.rtime false
        (fun k => by simp) r t1 w1 r1 b hscan with h | ⟨j, pp, h1, h2, h3, h4⟩
      · exact Or.inl h
      · exact Or.inr (Or.inl ⟨j, pp, h1, h2, h3, h4⟩)

/-- The table after `kill`: as it was, or with one slot marked killed and
woken if it slept. -/
theorem kill_cases (t : List proc) (pid : Int) :
    (kill t pid).1 = t ∨
    ∃ (i : Nat) (p : proc), t[i]? = some p ∧
      (kill t pid).1 = t.set i
        { p with killed := 1,
                 state := if p.state = procstate.SLEEPING then procstate.RUNNABLE
                          else p.state } := by
  induction t with
  | nil => exact Or.inl rfl
  | cons q qs ih =>
    by_cases hq : q.pid = pid
    · right
      exact ⟨0, q, by simp, by simp only [kill, if_pos hq, List.set_cons_zero]⟩
    · simp only [kill, if_neg hq]
      rcases ih with h | ⟨i, p, hp, h⟩
      · left; rw [h]
      · right
        exact ⟨i + 1, p, by simpa using hp, by rw [h, List.set_cons_succ]⟩

/-- The table after `sleep`: as it was when the caller has no slot, or with
the caller SLEEPING on the channel. -/
theorem sleep_cases (t : List proc) (me now chan : Nat) :
    sleep t me now chan = t ∨
    ∃ (p np : proc), t[me]? = some p ∧ sleep t me now chan = t.set me np ∧
      np.state = procstate.SLEEPING ∧ np.parent = p.parent ∧
      np.running_time = p.running_time := by
  unfold sleep
  cases hp : t[me]? with
  | none => exact Or.inl rfl
  | some p =>
    right
    simp only
    by_cases hs : p.state ≠ procstate.SLEEPING
    · simp only [if_pos hs]
      exact ⟨p, _, rfl, rfl, rfl, rfl, rfl⟩
    · simp only [if_neg hs]
      exact ⟨p, _, rfl, rfl, rfl, rfl, rfl⟩

/-! ## The running time is never written -/

theorem allrt0_set (t : List proc) (i : Nat) (np : proc) (h : AllRT0 t)
    (hnp : np.running_time = 0) : AllRT0 (t.set i np) := by
  intro p hp
  rcases List.mem_or_eq_of_mem_set hp with hp | hp
  · exact h p hp
  · rw [hp]; exact hnp

theorem allrt0_get (t : List proc) (j : Nat) (q : proc) (h : AllRT0 t)
    (hq : t[j]? = some q) : q.running_time = 0 :=
  h q (List.mem_iff_getElem?.mpr ⟨j, hq⟩)

theorem allrt0_of_slots (t t2 : List proc) (h : AllRT0 t)
    (hs : ∀ (j : Nat) (q2 : proc), t2[j]? = some q2 →
      ∃ q, t[j]? = some q ∧ q2.running_time = q.running_time) : AllRT0 t2 := by
  intro p hp
  obtain ⟨j, hj⟩ := List.getElem?_of_mem hp
  obtain ⟨q, hq, hrt⟩ := hs j p hj
  rw [hrt]
  exact allrt0_get t j q h hq

theorem allrt0_procinit (n : Nat) : AllRT0 (procinit n) := by
  intro p hp
  rw [List.eq_of_mem_replicate hp]
  rfl

theorem allrt0_allocproc (k : kstate) (e : alloc_env) (h : AllRT0 k.table) :
    AllRT0 (allocproc k e).2.table := by
  rcases allocproc_cases k e with ⟨_, ha⟩ | ⟨i, pslot, hi, hslot, _, hrest⟩
  · rw [ha]; exact h
  · rcases hrest with ⟨q, ha⟩ | ⟨h1, h2, h3⟩
    · rw [ha]
      exact allrt0_set k.table i _ h rfl
    · rw [allocproc_success k e i pslot hi hslot h1 h2 h3]
      exact allrt0_set k.table i _ h rfl

theorem allrt0_fork (k : kstate) (me : Nat) (e : alloc_env) (r : Int) (k2 : kstate)
    (hf : fork k me e = some (r, k2)) (h : AllRT0 k.table) : AllRT0 k2.table := by
  rcases fork_cases k me e r k2 hf with ⟨_, ht⟩ | ⟨_, i, pslot, q, _, _, _, ht⟩ |
    ⟨_, i, pslot, np, p1, _, _, _, hp1, ht, _, _, hrt, _⟩
  · rw [ht]; exact h
  · rw [ht]; exact allrt0_set k.table i _ h rfl
  · rw [ht]
    apply allrt0_set k.table i np h
    rw [hrt]
    rcases hp1 with hp1 | ⟨_, hp1⟩
    · exact allrt0_get k.table me p1 h hp1
    · exact hp1

theorem allrt0_sleep (t : List proc) (me now chan : Nat) (h : AllRT0 t) :
    AllRT0 (sleep t me now chan) := by
  rcases sleep_cases t me now chan with hs | ⟨p, np, hp, hs, _, _, hrt⟩
  · rw [hs]; exact h
  · rw [hs]
    exact allrt0_set t me np h (by rw [hrt]; exact allrt0_get t me p h hp)

theorem allrt0_wakeup (t : List proc) (me : Option Nat) (now chan : Nat) (h : AllRT0 t) :
    AllRT0 (wakeup t me now chan) := by
  apply allrt0_of_slots t _ h
  intro j q2 hq2
  rw [wakeup_getElem?] at hq2
  cases hq : t[j]? with
  | none => rw [hq] at hq2; cases hq2
  | some q =>
    rw [hq] at hq2
    simp only [Option.map_some', Option.some.injEq] at hq2
    subst hq2
    exact ⟨q, rfl, (wakeup_slot_woken me now chan j q).2.2.1⟩

theorem allrt0_yield (t : List proc) (me : Nat) (h : AllRT0 t) : AllRT0 (yield t me) := by
  apply allrt0_of_slots t _ h
  intro j q2 hq2
  rw [yield_getElem?] at hq2
  cases hq : t[j]? with
  | none => rw [hq] at hq2; cases hq2
  | some q =>
    rw [hq] at hq2
    simp only [Option.map_some', Option.some.injEq] at hq2
    subst hq2
    refine ⟨q, rfl, ?_⟩
    split <;> rfl

theorem allrt0_fcfs (t : List proc) (h : AllRT0 t) : AllRT0 (fcfs t).1 := by
  cases hsel : (fcfs t).2 with
  | none => rw [(fcfs_spec t).2.2 hsel]; exact h
  | some c =>
    obtain ⟨p, hp, _, htab, _⟩ := (fcfs_spec t).1 c hsel
    rw [htab]
    exact allrt0_set t c _ h (allrt0_get t c p h hp)

theorem allrt0_priority_based_loop (t : List proc) (n : Nat) (h : AllRT0 t) :
    AllRT0 (priority_based_loop t n).1 := by
  apply allrt0_of_slots t _ h
  intro j q2 hq2
  rw [priority_based_loop_table] at hq2
  cases hq : t[j]? with
  | none => rw [hq] at hq2; cases hq2
  | some q =>
    rw [hq] at hq2
    simp only [Option.map_some', Option.some.injEq] at hq2
    subst hq2
    refine ⟨q, rfl, ?_⟩
    unfold recomputed
    split
    · split <;> rfl
    · rfl

theorem allrt0_priority_based (t : List proc) (h : AllRT0 t) :
    AllRT0 (priority_based t).1 := by
  have hl := allrt0_priority_based_loop t t.length h
  unfold priority_based
  simp only
  generalize priority_based_loop t t.length = st at hl
  obtain ⟨tb, ch⟩ := st
  simp only at hl ⊢
  cases ch with
  | none => exact hl
  | some c =>
    simp only
    cases hq : tb[c]? with
    | none => exact hl
    | some q =>
      simp only
      exact allrt0_set tb c _ hl (allrt0_get tb c q hl hq)

theorem allrt0_lotteryBased (t : List proc) (rnd : Nat) (r : List proc × Option Nat)
    (hr : lotteryBased t rnd = some r) (h : AllRT0 t) : AllRT0 r.1 := by
  unfold lotteryBased at hr
  simp only at hr
  by_cases h0 : lottery_total t 0 = 0
  · rw [if_pos h0] at hr
    cases hr
  · rw [if_neg h0] at hr
    cases hpick : lottery_pick t ((rnd : Int) % lottery_total t 0) with
    | none =>
      rw [hpick] at hr
      simp only [Option.some.injEq] at hr
      rw [← hr]
      exact h
    | some c =>
      rw [hpick] at hr
      simp only at hr
      cases hq : t[c]? with
      | none =>
        rw [hq] at hr
        simp only [Option.some.injEq] at hr
        rw [← hr]
        exact h
      | some q =>
        rw [hq] at hr
        simp only [Option.some.injEq] at hr
        rw [← hr]
        exact allrt0_set t c _ h (allrt0_get t c q h hq)

theorem allrt0_update_time (t : List proc) (h : AllRT0 t) : AllRT0 (update_time t) := by
  apply allrt0_of_slots t _ h
  intro j q2 hq2
  rw [update_time_getElem?] at hq2
  cases hq : t[j]? with
  | none => rw [hq] at hq2; cases hq2
  | some q =>
    rw [hq] at hq2
    simp only [Option.map_some', Option.some.injEq] at hq2
    subst hq2
    refine ⟨q, rfl, ?_⟩
    split <;> rfl

theorem allrt0_set_priority (t : List proc) (me : Nat) (new_priority pid : Int)
    (h : AllRT0 t) : AllRT0 (set_priority t me new_priority pid).1 := by
  unfold set_priority
  cases set_priority_find pid t 0 with
  | none => exact allrt0_yield t me h
  | some i =>
    simp only
    cases hq : t[i]? with
    | none => exact allrt0_yield t me h
    | some q =>
      simp only
      exact allrt0_yield _ me (allrt0_set t i _ h (allrt0_get t i q h hq))

theorem allrt0_kill (t : List proc) (pid : Int) (h : AllRT0 t) : AllRT0 (kill t pid).1 := by
  rcases kill_cases t pid with hk | ⟨i, p, hp, hk⟩
  · rw [hk]; exact h
  · rw [hk]
    exact allrt0_set t i _ h (allrt0_get t i p h hp)

theorem allrt0_exit (t : List proc) (me init : Nat) (status : Int) (wake_now now : Nat)
    (t2 : List proc) (he : exit t me init status wake_now now = some t2) (h : AllRT0 t) :
    AllRT0 t2 := by
  obtain ⟨_, hlen, hs⟩ := exit_slots t me init status wake_now now t2 he
  apply allrt0_of_slots t _ h
  intro j q2 hq2
  have hj : j < t.length := by rw [← hlen]; exact lt_length_of_getElem? hq2
  obtain ⟨q3, hq3, _, _, hrt, _⟩ := hs j t[j] (List.getElem?_eq_getElem hj)
  rw [hq2] at hq3
  cases hq3
  exact ⟨t[j], List.getElem?_eq_getElem hj, hrt⟩

theorem allrt0_wait (t : List proc) (me addr : Nat) (copyout_ok : Bool) (now : Nat)
    (h : AllRT0 t) : AllRT0 (wait t me addr copyout_ok now).2 := by
  rcases wait_cases t me addr copyout_ok now with hw | ⟨j, pp, _, _, _, hw⟩ | hw
  · rw [hw]; exact h
  · rw [hw]; exact allrt0_set t j _ h rfl
  · rw [hw]; exact allrt0_sleep t me now _ h

theorem allrt0_waitx (s : waitx_state) (me addr : Nat) (copyout_ok : Bool) (now : Nat)
    (h : AllRT0 s.table) : AllRT0 (waitx s me addr copyout_ok now).2.table := by
  rcases waitx_cases s me addr copyout_ok now with hw | ⟨j, pp, _, _, _, hw⟩ | hw
  · rw [hw]; exact h
  · rw [hw]; exact allrt0_set s.table j _ h rfl
  · rw [hw]; exact allrt0_sleep s.table me now _ h

/-- In every state reached from boot every PCB has `running_time = 0`. -/
theorem reachable_allrt0 (k : kstate) (h : Reachable k) : AllRT0 k.table := by
  induction h with
  | boot n => exact allrt0_procinit n
  | allocproc k e _ ih => exact allrt0_allocproc k e ih
  | userinit k e pgsize root k2 i _ hu ih =>
    obtain ⟨pslot, np, _, _, ht, _, hrt, _⟩ := userinit_cases k e pgsize root k2 i hu
    rw [ht]
    exact allrt0_set k.table i np ih hrt
  | fork k me e r k2 _ hf ih => exact allrt0_fork k me e r k2 hf ih
  | freeproc k i p _ _ ih => exact allrt0_set k.table i _ ih rfl
  | sleep k me now chan _ ih => exact allrt0_sleep k.table me now chan ih
  | wakeup k me now chan _ ih => exact allrt0_wakeup k.table me now chan ih
  | yield k me _ ih => exact allrt0_yield k.table me ih
  | fcfs k _ ih => exact allrt0_fcfs k.table ih
  | priority_based k _ ih => exact allrt0_priority_based k.table ih
  | lotteryBased k rnd r _ hr ih => exact allrt0_lotteryBased k.table rnd r hr ih
  | update_time k _ ih => exact allrt0_update_time k.table ih
  | PBS_find_times k _ ih => exact ih
  | clockintr k ticks me now ticks_chan _ ih =>
    exact allrt0_wakeup _ me now ticks_chan (allrt0_update_time k.table ih)
  | set_priority k me new_priority pid _ ih =>
    exact allrt0_set_priority k.table me new_priority pid ih
  | kill k pid _ ih => exact allrt0_kill k.table pid ih
  | exit k me init status wake_now now t2 _ he ih =>
    exact allrt0_exit k.table me init status wake_now now t2 he ih
  | wait k me addr copyout_ok now _ ih => exact allrt0_wait k.table me addr copyout_ok now ih
  | waitx k me addr copyout_ok now wtime rtime _ ih =>
    exact allrt0_waitx { table := k.table, wtime := wtime, rtime := rtime }
      me addr copyout_ok now ih

theorem calcDP_of_rt0 (p : proc) (h : p.running_time = 0) :
    (p.sleep_time = 0 → calcDP p = 5) ∧
    (p.sleep_time ≠ 0 → calcDP p = clamp (p.static_priority - 5) 0 100) := by
  constructor
  · intro hs
    simp [calcDP, h, hs]
  · intro hs
    have hd : Int.tdiv p.sleep_time p.sleep_time = 1 := Int.tdiv_self hs
    unfold calcDP clamp
    simp only [h, Int.add_zero, if_neg hs, hd]
    split_ifs <;> omega

/-- C28: in every state reached from boot through `allocproc`, `fork`,
`freeproc`, `sleep`, `wakeup`, the scheduler pickers, the clock tick and
`set_priority` (and `userinit`, `yield`, `kill`, `exit`, `wait`, `waitx`),
every PCB has `running_time = 0`; so `calcDP` returns 5 on a PCB with
`sleep_time = 0` and `clamp(static_priority - 5, 0, 100)` on one with
`sleep_time > 0`. -/
theorem running_time_never_written (k : kstate) (h : Reachable k) :
    ∀ p ∈ k.table, p.running_time = 0 ∧
      (p.sleep_time = 0 → calcDP p = 5) ∧
      (0 < p.sleep_time → calcDP p = clamp (p.static_priority - 5) 0 100) := by
  intro p hp
  have hrt := reachable_allrt0 k h p hp
  refine ⟨hrt, (calcDP_of_rt0 p hrt).1, fun hs => (calcDP_of_rt0 p hrt).2 (by omega)⟩

/-! ## Parent integrity -/

theorem StateKept.can_run {q q2 : proc} (h : StateKept q q2) (hc : can_run q) :
    can_run q2 := by
  unfold StateKept at h
  unfold Xv6.can_run at *
  rcases h with h | ⟨_, h⟩
  · rw [h]; exact hc
  · rw [h]; exact ⟨by decide, by decide⟩

theorem StateKept.live {q q2 : proc} (h : StateKept q q2)
    (hl : q2.state ≠ procstate.UNUSED) : q.state ≠ procstate.UNUSED := by
  unfold StateKept at h
  rcases h with h | ⟨h, _⟩
  · rw [← h]; exact hl
  · rw [h]; decide

/-- A slot that cannot run is replaced by an UNUSED PCB or by a PCB whose
parent can run. -/
theorem parents_live_set (init : Nat) (t : List proc) (i : Nat) (old np : proc)
    (hinv : ParentsLive init t) (hold : t[i]? = some old) (hnot : ¬ can_run old)
    (hnp : np.state = procstate.UNUSED ∨
      ∃ (q : Nat) (pq : proc), np.parent = some q ∧ t[q]? = some pq ∧ can_run pq) :
    ParentsLive init (t.set i np) := by
  obtain ⟨⟨pinit, hpinit, hcinit⟩, hall⟩ := hinv
  have hne : ∀ (q : Nat) (pq : proc), t[q]? = some pq → can_run pq → i ≠ q := by
    intro q pq hq hc e
    subst e
    rw [hold] at hq
    cases hq
    exact hnot hc
  have hilen := lt_length_of_getElem? hold
  refine ⟨⟨pinit, ?_, hcinit⟩, ?_⟩
  · rw [List.getElem?_set_ne (hne init pinit hpinit hcinit)]
    exact hpinit
  · intro j p hj hp hlive
    by_cases hij : i = j
    · subst hij
      rw [List.getElem?_set_self hilen] at hp
      cases hp
      rcases hnp with hnp | ⟨q, pq, hpar, hq, hc⟩
      · exact absurd hnp hlive
      · exact ⟨q, pq, hpar, by rw [List.getElem?_set_ne (hne q pq hq hc)]; exact hq, hc⟩
    · rw [List.getElem?_set_ne hij] at hp
      obtain ⟨q, pq, hpar, hq, hc⟩ := hall j p hj hp hlive
      exact ⟨q, pq, hpar, by rw [List.getElem?_set_ne (hne q pq hq hc)]; exact hq, hc⟩

/-- A slot is replaced by a PCB with the same parent that can run if the old
one could, and is UNUSED if the old one was. -/
theorem parents_live_set_same (init : Nat) (t : List proc) (i : Nat) (old np : proc)
    (hinv : ParentsLive init t) (hold : t[i]? = some old)
    (hpar : np.parent = old.parent) (hcr : can_run old → can_run np)
    (hlive : np.state ≠ procstate.UNUSED → old.state ≠ procstate.UNUSED) :
    ParentsLive init (t.set i np) := by
  obtain ⟨⟨pinit, hpinit, hcinit⟩, hall⟩ := hinv
  have hilen := lt_length_of_getElem? hold
  have hget : ∀ (q : Nat) (pq : proc), t[q]? = some pq → can_run pq →
      ∃ pq2, (t.set i np)[q]? = some pq2 ∧ can_run pq2 := by
    intro q pq hq hc
    by_cases hiq : i = q
    · subst hiq
      rw [hold] at hq
      cases hq
      exact ⟨np, List.getElem?_set_self hilen, hcr hc⟩
    · exact ⟨pq, by rw [List.getElem?_set_ne hiq]; exact hq, hc⟩
  refine ⟨hget init pinit hpinit hcinit, ?_⟩
  intro j p hj hp hl
  by_cases hij : i = j
  · subst hij
    rw [List.getElem?_set_self hilen] at hp
    cases hp
    obtain ⟨q, pq, hpq, hq, hc⟩ := hall i old hj hold (hlive hl)
    obtain ⟨pq2, hq2, hc2⟩ := hget q pq hq hc
    exact ⟨q, pq2, hpar.trans hpq, hq2, hc2⟩
  · rw [List.getElem?_set_ne hij] at hp
    obtain ⟨q, pq, hpq, hq, hc⟩ := hall j p hj hp hl
    obtain ⟨pq2, hq2, hc2⟩ := hget q pq hq hc
    exact ⟨q, pq2, hpq, hq2, hc2⟩

theorem parents_live_exit (init : Nat) (t : List proc) (me : Nat) (p : proc)
    (status : Int) (wake_now now : Nat) (t2 : List proc)
    (hinv : ParentsLive init t) (hp : t[me]? = some p) (hcan : can_run p)
    (he : exit t me init status wake_now now = some t2) : ParentsLive init t2 := by
  obtain ⟨hne, hlen, hs⟩ := exit_slots t me init status wake_now now t2 he
  obtain ⟨⟨pinit, hpinit, hcinit⟩, hall⟩ := hinv
  have hinit2 : ∃ pi2, t2[init]? = some pi2 ∧ can_run pi2 := by
    obtain ⟨q2, hq2, _, _, _, _, hst⟩ := hs init pinit hpinit
    exact ⟨q2, hq2, (hst (Ne.symm hne)).can_run hcinit⟩
  refine ⟨hinit2, ?_⟩
  intro j q2 hj hq2 hl
  have hjlen : j < t.length := by rw [← hlen]; exact lt_length_of_getElem? hq2
  obtain ⟨q3, hq3, hpar, _, _, hzomb, hst⟩ := hs j t[j] (List.getElem?_eq_getElem hjlen)
  rw [hq2] at hq3
  cases hq3
  have hold_live : t[j].state ≠ procstate.UNUSED := by
    by_cases hjm : j = me
    · subst hjm
      rw [List.getElem?_eq_getElem hjlen] at hp
      cases hp
      exact hcan.1
    · exact (hst hjm).live hl
  obtain ⟨par, ppar, hpp, hparq, hparc⟩ :=
    hall j t[j] hj (List.getElem?_eq_getElem hjlen) hold_live
  by_cases hpm : t[j].parent = some me
  · rw [if_pos hpm] at hpar
    obtain ⟨pi2, hpi2, hci2⟩ := hinit2
    exact ⟨init, pi2, hpar, hpi2, hci2⟩
  · rw [if_neg hpm] at hpar
    have hparne : par ≠ me := by
      intro e
      subst e
      exact hpm hpp
    obtain ⟨pp2, hpp2, _, _, _, _, hst2⟩ := hs par ppar hparq
    exact ⟨par, pp2, hpar.trans hpp, hpp2, (hst2 hparne).can_run hparc⟩

theorem parents_live_sleep (init : Nat) (t : List proc) (me : Nat) (p : proc)
    (now chan : Nat) (hinv : ParentsLive init t) (hp : t[me]? = some p)
    (hcan : can_run p) : ParentsLive init (sleep t me now chan) := by
  rcases sleep_cases t me now chan with hs | ⟨p1, np, hp1, hs, hst, hpar, _⟩
  · rw [hs]; exact hinv
  · rw [hs]
    rw [hp] at hp1
    cases hp1
    exact parents_live_set_same init t me p np hinv hp hpar
      (fun _ => ⟨by rw [hst]; decide, by rw [hst]; decide⟩) (fun _ => hcan.1)

theorem parents_live_reap (init : Nat) (t : List proc) (j : Nat) (pp : proc)
    (hinv : ParentsLive init t) (hpp : t[j]? = some pp)
    (hz : pp.state = procstate.ZOMBIE) : ParentsLive init (t.set j (freeproc pp)) :=
  parents_live_set init t j pp (freeproc pp) hinv hpp (fun hc => hc.2 hz) (Or.inl rfl)

/-- In every state of the lifecycle `init` can run and every other slot that
is not UNUSED has a parent that can run. -/
theorem lifecycle_parents_live (init : Nat) (k : kstate) (h : Lifecycle init k) :
    ParentsLive init k.table := by
  induction h with
  | userinit n e pgsize root k hu =>
    obtain ⟨pslot, np, hslot, _, ht, hst, _, _⟩ := userinit_cases _ e pgsize root k init hu
    simp only at hslot ht
    have hilen := lt_length_of_getElem? hslot
    rw [ht]
    refine ⟨⟨np, List.getElem?_set_self hilen, by rw [Xv6.can_run, hst]; decide⟩, ?_⟩
    intro j p hj hp hl
    rw [List.getElem?_set_ne (Ne.symm hj)] at hp
    have hmem : p ∈ procinit n := List.mem_iff_getElem?.mpr ⟨j, hp⟩
    rw [List.eq_of_mem_replicate hmem] at hl
    exact absurd rfl hl
  | fork k me p e r k2 _ hp hcan hf ih =>
    rcases fork_cases k me e r k2 hf with ⟨_, ht⟩ | ⟨_, i, pslot, q, _, hslot, hst, ht⟩ |
      ⟨_, i, pslot, np, p1, _, hslot, hst, _, ht, _, hpar, _, _⟩
    · rw [ht]; exact ih
    · rw [ht]
      exact parents_live_set init k.table i pslot _ ih hslot (fun hc => hc.1 hst)
        (Or.inl rfl)
    · rw [ht]
      exact parents_live_set init k.table i pslot np ih hslot (fun hc => hc.1 hst)
        (Or.inr ⟨me, p, hpar, hp, hcan⟩)
  | exit k me p status wake_now now t2 _ hp hcan he ih =>
    exact parents_live_exit init k.table me p status wake_now now t2 ih hp hcan he
  | wait k me p addr copyout_ok now _ hp hcan ih =>
    rcases wait_cases k.table me addr copyout_ok now with hw | ⟨j, pp, hpp, _, hz, hw⟩ | hw
    · simp only [hw]; exact ih
    · simp only [hw]; exact parents_live_reap init k.table j pp ih hpp hz
    · simp only [hw]; exact parents_live_sleep init k.table me p now _ ih hp hcan
  | waitx k me p addr copyout_ok now wtime rtime _ hp hcan ih =>
    rcases waitx_cases { table := k.table, wtime := wtime, rtime := rtime }
      me addr copyout_ok now with hw | ⟨j, pp, hpp, _, hz, hw⟩ | hw
    · simp only [hw]; exact ih
    · simp only [hw]; exact parents_live_reap init k.table j pp ih hpp hz
    · simp only [hw]; exact parents_live_sleep init k.table me p now _ ih hp hcan
  | kill k pid _ ih =>
    rcases kill_cases k.table pid with hk | ⟨i, p, hp, hk⟩
    · simp only [hk]; exact ih
    · simp only [hk]
      refine parents_live_set_same init k.table i p _ ih hp ?_ ?_ ?_
      · rfl
      · intro hc
        unfold Xv6.can_run at *
        simp only
        split
        · exact ⟨by decide, by decide⟩
        · exact hc
      · intro hl
        simp only at hl
        split at hl
        · rename_i hs; rw [hs]; decide
        · exact hl

/-- C22: in every state reached from the state after `userinit` by `fork`,
`exit`, `wait`, `waitx` and `kill` steps, every slot other than `init` that is
not UNUSED has a parent slot that is not UNUSED; and `exit` by the process in
slot `me` gives `init` as parent to every slot whose parent was `me` and
leaves the parent of every other slot as it was. -/
theorem parent_integrity (init : Nat) (k : kstate) (h : Lifecycle init k) :
    (∀ (i : Nat) (p : proc), i ≠ init → k.table[i]? = some p →
      p.state ≠ procstate.UNUSED →
      ∃ (q : Nat) (pq : proc), p.parent = some q ∧ k.table[q]? = some pq ∧
        pq.state ≠ procstate.UNUSED) ∧
    (∀ (me : Nat) (status : Int) (wake_now now : Nat) (t2 : List proc),
      exit k.table me init status wake_now now = some t2 →
      ∀ (j : Nat) (q : proc), k.table[j]? = some q →
        ∃ q2, t2[j]? = some q2 ∧ (q.parent = some me → q2.parent = some init) ∧
          (q.parent ≠ some me → q2.parent = q.parent)) := by
  have hpl := lifecycle_parents_live init k h
  constructor
  · intro i p hi hp hl
    obtain ⟨q, pq, hpar, hq, hc⟩ := hpl.2 i p hi hp hl
    exact ⟨q, pq, hpar, hq, hc.1⟩
  · intro me status wake_now now t2 he j q hq
    obtain ⟨_, _, hs⟩ := exit_slots k.table me init status wake_now now t2 he
    obtain ⟨q2, hq2, hpar, _⟩ := hs j q hq
    refine ⟨q2, hq2, ?_, ?_⟩
    · intro hm; rw [hpar, if_pos hm]
    · intro hm; rw [hpar, if_neg hm]

/-! ## Held PCB locks -/

theorem held_first (n : Nat) : acquire ∅ n = {n} := by
  simp [acquire]

theorem held_skip (n : Nat) : release (acquire ∅ n) n = ∅ := by
  simp [acquire, release]

theorem held_keep (c n : Nat) (h : c ≠ n) : release (acquire {c} n) n = {c} := by
  simp [acquire, release, Ne.symm h]

theorem held_swap (c n : Nat) (h : c ≠ n) : release (acquire {c} n) c = {n} := by
  ext x
  simp only [acquire, release, Finset.mem_erase, Finset.mem_insert, Finset.mem_singleton]
  omega

theorem held_dispatch (c : Nat) : release (swtch_locks {c} c) c = ∅ := by
  simp [swtch_locks, acquire, release]

theorem fcfs_locks_loop_spec (t : List proc) (n : Nat) :
    fcfs_locks_loop t n = (fcfs_loop t n, held_of (fcfs_loop t n).1) ∧
      ∀ c, (fcfs_loop t n).1 = some c → c < n := by
  induction n with
  | zero => exact ⟨rfl, fun c h => by simp [fcfs_loop] at h⟩
  | succ n ih =>
    obtain ⟨ih1, ih2⟩ := ih
    simp only [fcfs_locks_loop, fcfs_loop, ih1]
    generalize fcfs_loop t n = st at ih2 ⊢
    obtain ⟨ch, ot⟩ := st
    simp only at ih2
    unfold fcfs_locks_iter fcfs_iter
    cases hp : t[n]? with
    | none =>
      simp only
      exact ⟨trivial, fun c h => Nat.lt_succ_of_lt (ih2 c h)⟩
    | some p =>
      cases ch with
      | none =>
        simp only [held_of, held_first, or_true, if_true]
        by_cases hs : p.state = procstate.RUNNABLE
        · simp only [if_pos hs, ne_eq, not_true_eq_false, if_false, held_of, true_and]
          intro c hc; cases hc; exact Nat.lt_succ_self _
        · simp only [if_neg hs, ne_eq, not_false_eq_true, if_true, held_of, true_and,
            reduceCtorEq]
          rw [← held_first, held_skip]
          exact ⟨rfl, fun c h => h.elim⟩
      | some c0 =>
        have hc0 : c0 ≠ n := Nat.ne_of_lt (ih2 c0 rfl)
        simp only [held_of, or_false, reduceCtorEq]
        split_ifs <;>
          simp_all [held_of, held_keep, held_swap] <;> omega

theorem priority_based_locks_loop_spec (t : List proc) (n : Nat) :
    priority_based_locks_loop t n =
        (priority_based_loop t n, held_of (priority_based_loop t n).2) ∧
      ∀ c, (priority_based_loop t n).2 = some c → c < n := by
  induction n with
  | zero => exact ⟨rfl, fun c h => by simp [priority_based_loop] at h⟩
  | succ n ih =>
    obtain ⟨ih1, ih2⟩ := ih
    simp only [priority_based_locks_loop, priority_based_loop, ih1]
    generalize priority_based_loop t n = st at ih2 ⊢
    obtain ⟨tb, ch⟩ := st
    simp only at ih2
    unfold priority_based_locks_iter priority_based_iter
    cases hp : tb[n]? with
    | none =>
      simp only
      exact ⟨trivial, fun c h => Nat.lt_succ_of_lt (ih2 c h)⟩
    | some p =>
      simp only
      by_cases hs : p.state = procstate.RUNNABLE
      · simp only [ne_eq, hs, not_true_eq_false, if_false]
        cases ch with
        | none =>
          simp only [held_of, held_first, not_true_eq_false, if_false, true_and]
          intro c hc; cases hc; exact Nat.lt_succ_self _
        | some c0 =>
          have hc0 : c0 ≠ n := Nat.ne_of_lt (ih2 c0 rfl)
          simp only [held_of]
          split <;> split_ifs <;> simp_all [held_of, held_keep, held_swap] <;> omega
      · simp only [ne_eq, hs, not_false_eq_true, if_true]
        refine ⟨?_, fun c h => Nat.lt_succ_of_lt (ih2 c h)⟩
        cases ch with
        | none => simp only [held_of, held_skip]
        | some c0 => simp only [held_of, held_keep c0 n (Nat.ne_of_lt (ih2 c0 rfl))]

theorem lottery_total_locks_empty (ps : List proc) (i : Nat) :
    lottery_total_locks ps i ∅ = ∅ := by
  induction ps generalizing i with
  | nil => rfl
  | cons p ps ih => simp only [lottery_total_locks, held_skip, ih]

theorem lottery_locks_loop_spec (t : List proc) (randNum : Int) (n : Nat) :
    lottery_locks_loop t randNum ∅ n =
        (lottery_loop t randNum n, held_of (lottery_loop t randNum n).1) ∧
      ∀ c, (lottery_loop t randNum n).1 = some c → c < n := by
  induction n with
  | zero => exact ⟨rfl, fun c h => by simp [lottery_loop] at h⟩
  | succ n ih =>
    obtain ⟨ih1, ih2⟩ := ih
    simp only [lottery_locks_loop, lottery_loop, ih1]
    generalize lottery_loop t randNum n = st at ih2 ⊢
    obtain ⟨ch, cnt, br⟩ := st
    simp only at ih2
    unfold lottery_locks_iter lottery_iter
    cases br with
    | true =>
      simp only [if_true]
      exact ⟨trivial, fun c h => Nat.lt_succ_of_lt (ih2 c h)⟩
    | false =>
      simp only [Bool.false_eq_true, if_false]
      cases hp : t[n]? with
      | none =>
        simp only
        exact ⟨trivial, fun c h => Nat.lt_succ_of_lt (ih2 c h)⟩
      | some p =>
        simp only
        by_cases hs : p.state = procstate.RUNNABLE
        · simp only [ne_eq, hs, not_true_eq_false, if_false]
          cases ch with
          | none =>
            simp only [held_of, held_first]
            split_ifs <;> simp [held_of]
          | some c0 =>
            have hc0 : c0 ≠ n := Nat.ne_of_lt (ih2 c0 rfl)
            simp only [held_of, held_swap c0 n hc0]
            split_ifs <;> simp [held_of]
        · simp only [ne_eq, hs, not_false_eq_true, if_true]
          refine ⟨?_, fun c h => Nat.lt_succ_of_lt (ih2 c h)⟩
          cases ch with
          | none => simp only [held_of, held_skip]
          | some c0 => simp only [held_of, held_keep c0 n (Nat.ne_of_lt (ih2 c0 rfl))]

theorem fcfs_selected (t : List proc) : (fcfs t).2 = (fcfs_loop t t.length).1 := by
  have h := fcfs_loop_oldest t t.length
  unfold fcfs
  cases hsel : (fcfs_loop t t.length).1 with
  | none => rfl
  | some o =>
    rw [hsel] at h
    obtain ⟨_, p, hp, hs, _⟩ := h
    simp only [hp, if_pos hs]

theorem fcfs_locks_spec (t : List proc) :
    fcfs_locks t = ((fcfs t).2, held_of (fcfs t).2, ∅) := by
  rw [fcfs_selected]
  have h := fcfs_loop_oldest t t.length
  unfold fcfs_locks
  simp only [(fcfs_locks_loop_spec t t.length).1]
  cases hsel : (fcfs_loop t t.length).1 with
  | none => rfl
  | some o =>
    rw [hsel] at h
    obtain ⟨_, p, hp, hs, _⟩ := h
    simp only [hp, if_pos hs, held_of, held_dispatch]

theorem priority_based_selected (t : List proc) :
    (priority_based t).2 = (priority_based_loop t t.length).2 := by
  have h := (priority_based_locks_loop_spec t t.length).2
  cases hsel : (priority_based_loop t t.length).2 with
  | none => simp only [priority_based, hsel]
  | some c =>
    have hc := h c hsel
    have htab := priority_based_loop_table t t.length c
    rw [List.getElem?_eq_getElem hc] at htab
    simp only [priority_based, hsel, htab, Option.map_some']

theorem priority_based_locks_spec (t : List proc) :
    priority_based_locks t = ((priority_based t).2, held_of (priority_based t).2, ∅) := by
  rw [priority_based_selected]
  unfold priority_based_locks
  simp only [(priority_based_locks_loop_spec t t.length).1]
  cases hsel : (priority_based_loop t t.length).2 with
  | none => rfl
  | some c => simp only [held_of, held_dispatch]

theorem lotteryBased_locks_draw_spec (t : List proc) (randNum : Int) :
    lotteryBased_locks_draw t randNum =
      (lottery_pick t randNum, held_of (lottery_pick t randNum), ∅) := by
  unfold lotteryBased_locks_draw lottery_pick
  simp only [lottery_total_locks_empty]
  have hspec := lottery_locks_loop_spec t randNum t.length
  simp only [hspec.1]
  cases hsel : (lottery_loop t randNum t.length).1 with
  | none => rfl
  | some c => simp only [held_of, held_dispatch]

theorem lotteryBased_locks_spec (t : List proc) (rnd : Nat) :
    lotteryBased_locks t rnd =
      (lotteryBased t rnd).map (fun r => (r.2, held_of r.2, ∅)) := by
  unfold lotteryBased_locks lotteryBased
  by_cases h0 : lottery_total t 0 = 0
  · simp only [if_pos h0, Option.map_none']
  · simp only [if_neg h0, lotteryBased_locks_draw_spec]
    have hspec := lottery_locks_loop_spec t ((rnd : Int) % lottery_total t 0) t.length
    cases hsel : lottery_pick t ((rnd : Int) % lottery_total t 0) with
    | none => rfl
    | some c =>
      have hc : c < t.length := hspec.2 c hsel
      simp only [List.getElem?_eq_getElem hc, Option.map_some']

/-- C24: with the set of held PCB locks tracked through `acquire` and
`release` and empty at the start, each of `fcfs`, `priority_based` and
`lotteryBased` ends its scan with exactly the lock of the selected slot held
when a slot is selected (`held_of (some c)` is the set of `c` alone) and with
none held when no slot is (`held_of none` is the empty set), and the set is
empty when the function returns.  For `lotteryBased` this holds for every
value `randNum` of the draw, so also on a table with no RUNNABLE slot or with
a ticket sum of 0, the first loop leaving no lock held; the selected slot is
the one the function dispatches. -/
theorem pickers_hold_selected (t : List proc) (rnd : Nat) (randNum : Int) :
    fcfs_locks t = ((fcfs t).2, held_of (fcfs t).2, ∅) ∧
    priority_based_locks t =
      ((priority_based t).2, held_of (priority_based t).2, ∅) ∧
    lottery_total_locks t 0 ∅ = ∅ ∧
    lotteryBased_locks_draw t randNum =
      (lottery_pick t randNum, held_of (lottery_pick t randNum), ∅) ∧
    lotteryBased_locks t rnd =
      (lotteryBased t rnd).map (fun r => (r.2, held_of r.2, ∅)) ∧
    held_of none = ∅ ∧ ∀ c, held_of (some c) = {c} :=
  ⟨fcfs_locks_spec t, priority_based_locks_spec t, lottery_total_locks_empty t 0,
    lotteryBased_locks_draw_spec t randNum, lotteryBased_locks_spec t rnd, rfl,
    fun _ => rfl⟩

/-- C24 for `lotteryBased` at a table with no RUNNABLE slot, where no slot is
selected and no lock is held, and at a table whose one RUNNABLE slot holds 0
tickets, where that slot is selected and its lock alone is held at the end of
the scan. -/
theorem pickers_hold_selected_witness :
    lotteryBased_locks_draw idle_table 12345 = (none, ∅, ∅) ∧
    lotteryBased_locks_draw [runnable_born 0 0] 12345 = (some 0, {0}, ∅) :=
  ⟨(pickers_hold_selected idle_table 0 12345).2.2.2.1,
    (pickers_hold_selected [runnable_born 0 0] 0 12345).2.2.2.1⟩

theorem userinit_booted :
    userinit { table := procinit 2, nextpid := 1 } env_ok 4096 (some 1) = some (booted, 0) :=
  rfl

theorem fork_forked : fork booted 0 env_ok = some (2, forked) := rfl

theorem booted_slot0 : ∃ p, booted.table[0]? = some p ∧ can_run p :=
  ⟨_, rfl, by unfold can_run; exact ⟨by decide, by decide⟩⟩

theorem lifecycle_forked : Lifecycle 0 forked := by
  obtain ⟨p, hp, hc⟩ := booted_slot0
  exact Lifecycle.fork booted 0 p env_ok 2 forked
    (Lifecycle.userinit 2 env_ok 4096 (some 1) booted userinit_booted) hp hc fork_forked

theorem reachable_forked : Reachable forked :=
  Reachable.fork booted 0 env_ok 2 forked
    (Reachable.userinit _ env_ok 4096 (some 1) booted 0 (Reachable.boot 2) userinit_booted)
    fork_forked

theorem parent_integrity_witness :
    Lifecycle 0 forked ∧
    (∀ (i : Nat) (p : proc), i ≠ 0 → forked.table[i]? = some p →
      p.state ≠ procstate.UNUSED →
      ∃ (q : Nat) (pq : proc), p.parent = some q ∧ forked.table[q]? = some pq ∧
        pq.state ≠ procstate.UNUSED) ∧
    (∀ (me : Nat) (status : Int) (wake_now now : Nat) (t2 : List proc),
      exit forked.table me 0 status wake_now now = some t2 →
      ∀ (j : Nat) (q : proc), forked.table[j]? = some q →
        ∃ q2, t2[j]? = some q2 ∧ (q.parent = some me → q2.parent = some 0) ∧
          (q.parent ≠ some me → q2.parent = q.parent)) :=
  ⟨lifecycle_forked, parent_integrity 0 forked lifecycle_forked⟩

theorem running_time_never_written_witness :
    Reachable forked ∧ ∀ p ∈ forked.table, p.running_time = 0 ∧ (p.sleep_time = 0 → calcDP p = 5) ∧
      (0 < p.sleep_time → calcDP p = clamp (p.static_priority - 5) 0 100) :=
  ⟨reachable_forked, running_time_never_written forked reachable_forked⟩

end Xv6
